import Mathlib

/-!
# Booking lifecycle of the octo service

A shallow embedding of the reservation store (`internal/storage/postgres.go`), the
booking service and the read projections, together with the properties of the
booking lifecycle: vacancy reservation, confirmation with ticket issuance, and
the grouping of flat rows into bookings; and of the HTTP boundary (`internal/api`,
`internal/auth`, `internal/platform`): handlers, the decoding of requests, the wire
format of identifiers and dates, ticket tokens and the API-key middleware.

Conventions of the embedding:

* Go `int` and `int64` are unbounded `Int` (a 64-bit platform; no value in the
  development approaches 2^63); `int32(x)` is the explicit wrap-around `int32`.
* Go `error` values are `Option GoError`; `none` is `nil`.
* The relational state is the record `Db`; a statement is a function on `Db`.
* Sources of nondeterminism are explicit arguments: driver failures (`fault`, `TxFaults`, `StmtFaults`),
  the random ticket source (`rand`) and the iteration order of a Go map (`seed`).
* A `time.Time` is the instant it denotes, counted in nanoseconds from the zero time; the
  location it carries is an explicit offset where the calendar date is read.
* Library functions the program calls (`strconv.Atoi`, `time.Parse` and `Time.Format`
  with the layout `2006-01-02`, `encoding/base32`, `encoding/json`) are functions of the
  embedding written after their documented behaviour; `encoding/json` works on scanned
  JSON values, not on text.
-/

set_option linter.dupNamespace false

namespace Octo

/-! ## Errors -/

/-- Error values that Go compares by identity: the sentinels of the program, of
`database/sql` and of `strconv`, any other error value handed up by the database driver,
and any other error value made by a library (`encoding/json`, `time`, `io`). -/
inductive Sentinel where
  | sqlErrNoRows
  | serviceErrNotFound
  | serviceErrNotAvailable
  | internalErrNotFound
  | internalErrNotAvailable
  | authErrNotFound
  | driver (code : Nat)
  | strconvErrSyntax
  | strconvErrRange
  | library (code : Nat)
  deriving DecidableEq, Repr

/-- A Go error value: a sentinel, `fmt.Errorf("msg: %w", inner)`, or
`fmt.Errorf("msg %w: %w", first, second)`. -/
inductive GoError where
  | sentinel (s : Sentinel)
  | wrap (msg : String) (inner : GoError)
  | wrap2 (msg : String) (first second : GoError)
  deriving DecidableEq, Repr

/-- The function `errors.Is(err, target)` for a sentinel target: the target is found
anywhere in the tree of wrapped errors. -/
def errorsIs : GoError → Sentinel → Bool
  | .sentinel s, t => decide (s = t)
  | .wrap _ e, t => errorsIs e t
  | .wrap2 _ a b, t => errorsIs a t || errorsIs b t

/-! ## Machine integers -/

/-- The Go conversion `int32(x)`: the value of `x` modulo 2^32 in the signed range. -/
def int32 (x : Int) : Int := (x + 2147483648) % 4294967296 - 2147483648

/-- The Go conversion `int64(x)` of an `int` on a 64-bit platform. -/
def int64 (x : Int) : Int := x

/-! ## Domain model (`internal/models.go`) -/

namespace internal

abbrev BookingStatus := String

def BookingStatusReserved : BookingStatus := "RESERVED"

def BookingStatusConfirmed : BookingStatus := "CONFIRMED"

abbrev AvailabilityStatus := String

def AvailabilityStatusAvailable : AvailabilityStatus := "AVAILABLE"

def AvailabilityStatusSoldOut : AvailabilityStatus := "SOLD_OUT"

/-- The capability overlay `CapabilityPrice`. -/
structure CapabilityPrice where
  Price : Int
  Currency : String
  deriving DecidableEq, Repr

/-- The struct `UnitBase`; the `*string` ticket is an optional string. -/
structure UnitBase where
  ID : String
  Ticket : Option String
  deriving DecidableEq, Repr

/-- The struct `UnitWithPrice`, embedding `UnitBase` and `CapabilityPrice`. -/
structure UnitWithPrice where
  UnitBase : UnitBase
  CapabilityPrice : CapabilityPrice
  deriving DecidableEq, Repr

/-- The interface `Unit`, implemented by `UnitBase` and `UnitWithPrice`. -/
inductive Unit where
  | base (u : UnitBase)
  | withPrice (u : UnitWithPrice)
  deriving DecidableEq, Repr

/-- The struct `BookingBase`. -/
structure BookingBase where
  ID : String
  Status : BookingStatus
  ProductID : String
  AvailabilityID : String
  Units : List Unit
  deriving DecidableEq, Repr

/-- The struct `BookingWithPrice`, embedding `BookingBase` and `CapabilityPrice`. -/
structure BookingWithPrice where
  BookingBase : BookingBase
  CapabilityPrice : CapabilityPrice
  deriving DecidableEq, Repr

/-- The interface `Booking`, implemented by `BookingBase` and `BookingWithPrice`. -/
inductive Booking where
  | base (b : BookingBase)
  | withPrice (b : BookingWithPrice)
  deriving DecidableEq, Repr

/-- The type `CapabilityRequest`, a Go `int`. -/
abbrev CapabilityRequest := Int

def CapabilityRequestNone : CapabilityRequest := 0

def CapabilityRequestPrice : CapabilityRequest := 1

def ErrNotFound : GoError := .sentinel .internalErrNotFound

def ErrNotAvailable : GoError := .sentinel .internalErrNotAvailable

/-- The struct `CreateBookingRequest`. -/
structure CreateBookingRequest where
  ProductID : Int
  AvailabilityID : Int
  Units : Int
  UserID : Int
  deriving DecidableEq, Repr

end internal

/-! ## Rows and statements of the `queries` package -/

namespace sql

/-- The struct `sql.NullString`. -/
structure NullString where
  String : String
  Valid : Bool
  deriving DecidableEq, Repr

end sql

namespace queries

/-- Row of table `availabilities` (`queries.Availability`); 32-bit columns hold an `Int`. -/
structure Availability where
  ID : Int
  ProductID : Int
  LocalDate : Int
  Vacancies : Int
  deriving DecidableEq, Repr

/-- Row of table `bookings` (`queries.Booking`). -/
structure Booking where
  ID : Int
  ProductID : Int
  AvailabilityID : Int
  UserID : Int
  Status : internal.BookingStatus
  deriving DecidableEq, Repr

/-- Row of table `units` (`queries.Unit`). -/
structure Unit where
  ID : Int
  BookingID : Int
  Ticket : sql.NullString
  deriving DecidableEq, Repr

/-- Row of table `prices` as joined to a unit (`queries.Price`). -/
structure Price where
  Price : Int
  Currency : String
  deriving DecidableEq, Repr

/-- The struct `queries.BookingRow`: one joined row per unit. -/
structure BookingRow where
  Booking : Booking
  Unit : Unit
  deriving DecidableEq, Repr

/-- The struct `queries.BookingWithPriceRow`. -/
structure BookingWithPriceRow where
  Booking : Booking
  Unit : Unit
  Price : Price
  deriving DecidableEq, Repr

/-- The struct `queries.CreateBookingParams`, as the statement receives it. -/
structure CreateBookingParams where
  ProductID : Int
  AvailabilityID : Int
  Units : Int
  UserID : Int
  deriving DecidableEq, Repr

/-- The struct `queries.BookingForUpdateParams`. -/
structure BookingForUpdateParams where
  ID : Int
  UserID : Int
  deriving DecidableEq, Repr

/-- The row type of `queries.BookingForUpdate`: the fields `ConfirmBooking` reads. -/
structure BookingForUpdateRow where
  Status : internal.BookingStatus
  UnitID : Int
  deriving DecidableEq, Repr

/-- The struct `queries.BookingParams`. -/
structure BookingParams where
  ID : Int
  UserID : Int
  deriving DecidableEq, Repr

/-- The struct `queries.SetUnitTicketParams`. -/
structure SetUnitTicketParams where
  ID : Int
  Ticket : sql.NullString
  deriving DecidableEq, Repr

end queries

/-- The persisted relational state: the three tables the booking lifecycle touches and
the two id sequences. -/
structure Db where
  availabilities : List queries.Availability
  bookings : List queries.Booking
  units : List queries.Unit
  bookingSeq : Int
  unitSeq : Int
  deriving DecidableEq, Repr

namespace queries

/-! The statements are the methods of `*queries.Queries`. -/

namespace Queries

/-- The reservation predicate of the conditional statement: the row is the named
availability, belongs to the named product and has enough vacancies. -/
def reservable (arg : CreateBookingParams) (a : Availability) : Bool :=
  decide (a.ID = arg.AvailabilityID) && decide (a.ProductID = arg.ProductID)
    && decide (arg.Units ≤ a.Vacancies)

/-- The unit rows inserted for a new booking: `n` rows, each with a fresh id from the
unit sequence and no ticket. -/
def newUnits (bookingID first : Int) (n : Nat) : List Unit :=
  (List.range n).map fun (i : Nat) =>
    { ID := first + (i : Int), BookingID := bookingID, Ticket := { String := "", Valid := false } }

/-- Modelled from the spec: the statement `queries.CreateBooking` (the generated
`queries` package and its SQL are not among the sources). Atomically (a) verify the
named availability belongs to the named product, (b) verify `vacancies ≥ units`,
(c) decrement vacancies by `units`, (d) insert one booking row with status RESERVED,
(e) insert `units` unit rows with no ticket, and return the booking id. If the check
fails no row is written and no row is returned (`sql.ErrNoRows`). A driver failure
`fault` aborts the statement with that error and writes nothing. -/
def CreateBooking (fault : Option GoError) (db : Db) (arg : CreateBookingParams) :
    Except GoError Int × Db :=
  match fault with
  | some e => (.error e, db)
  | none =>
    if db.availabilities.any (reservable arg) then
      (.ok db.bookingSeq,
        { availabilities := db.availabilities.map fun a =>
            if reservable arg a then { a with Vacancies := a.Vacancies - arg.Units } else a
          bookings := db.bookings ++
            [⟨db.bookingSeq, arg.ProductID, arg.AvailabilityID, arg.UserID,
              internal.BookingStatusReserved⟩]
          units := db.units ++ newUnits db.bookingSeq db.unitSeq arg.Units.toNat
          bookingSeq := db.bookingSeq + 1
          unitSeq := db.unitSeq + arg.Units.toNat })
    else (.error (.sentinel .sqlErrNoRows), db)

/-- Modelled from the spec: the locked lookup `queries.BookingForUpdate` (the `queries`
package is not among the sources). For the booking with the given id owned by the
given user it returns one row per unit of that booking, each carrying the booking's
status and the unit's id; no row when there is no such booking. -/
def BookingForUpdate (db : Db) (arg : BookingForUpdateParams) : List BookingForUpdateRow :=
  (db.bookings.filter fun b => decide (b.ID = arg.ID) && decide (b.UserID = arg.UserID)).flatMap
    fun b => (db.units.filter fun u => decide (u.BookingID = b.ID)).map
      fun u => ⟨b.Status, u.ID⟩

/-- The status flip on one booking row: the row with the given id becomes CONFIRMED. -/
def setConfirmed (id : Int) (b : Booking) : Booking :=
  if b.ID = id then { b with Status := internal.BookingStatusConfirmed } else b

/-- Modelled from the spec: the statement `queries.ConfirmBooking` (not among the
sources): set the status of the booking with the given id to CONFIRMED. A driver
failure `fault` aborts the statement and writes nothing. -/
def ConfirmBooking (fault : Option GoError) (db : Db) (id : Int) : Option GoError × Db :=
  match fault with
  | some e => (some e, db)
  | none => (none, { db with bookings := db.bookings.map (setConfirmed id) })

/-- Modelled from the spec: the statement `queries.SetUnitTicket` (not among the
sources): persist the ticket on the unit with the given id. A driver failure `fault`
aborts the statement and writes nothing. -/
def SetUnitTicket (fault : Option GoError) (db : Db) (arg : SetUnitTicketParams) :
    Option GoError × Db :=
  match fault with
  | some e => (some e, db)
  | none =>
    (none, { db with units := db.units.map fun u =>
      if u.ID = arg.ID then { u with Ticket := arg.Ticket } else u })

/-- Modelled from the spec: the read `queries.Booking` (not among the sources): the
booking with the given id owned by the given user joined with its units, one row per
unit, in table order. -/
def Booking (db : Db) (arg : BookingParams) : List BookingRow :=
  (db.bookings.filter fun b => decide (b.ID = arg.ID) && decide (b.UserID = arg.UserID)).flatMap
    fun b => (db.units.filter fun u => decide (u.BookingID = b.ID)).map fun u => ⟨b, u⟩

end Queries

end queries

/-! ## Go maps -/

/-- A Go map with `int64` keys: the list of its entries, kept in insertion order. The
order is an artefact of the embedding; the program observes a map only through
`get?`, `set` and `range`. -/
abbrev GoMap (V : Type) := List (Int × V)

namespace GoMap

/-- The lookup `m[k]` with the comma-ok form. -/
def get? {V : Type} (m : GoMap V) (k : Int) : Option V :=
  (m.find? fun e => decide (e.1 = k)).map Prod.snd

/-- The assignment `m[k] = v`. -/
def set {V : Type} (m : GoMap V) (k : Int) (v : V) : GoMap V :=
  if m.any (fun e => decide (e.1 = k)) then
    m.map fun e => if e.1 = k then (k, v) else e
  else m ++ [(k, v)]

/-- The loop `for _, v := range m`: Go leaves the iteration order of a map unspecified,
so the runtime's choice `seed` selects one of the orderings of the entries. -/
def range {V : Type} (seed : Nat) (m : GoMap V) : List (Int × V) :=
  (m.permutations').getD (seed % (m.permutations').length) m

/-- The look-up-or-create-then-update body shared by the loops of `toBookings` and
`toBookingsWithPrice`, over any row type: `init` builds the accumulator of a new key
and `upd` folds a row into the accumulator of its key. -/
def collectStep {R V : Type} (key : R → Int) (init : R → V) (upd : V → R → V)
    (m : GoMap V) (r : R) : GoMap V :=
  let m1 :=
    match m.get? (key r) with
    | none => m.set (key r) (init r)
    | some _ => m
  match m1.get? (key r) with
  | some v => m1.set (key r) (upd v r)
  | none => m1

end GoMap

/-! ## The booking service's store interface (`internal/service/service.go`) -/

namespace service

/-- The struct `service.CreateBookingParams`. -/
structure CreateBookingParams where
  ProductID : Int
  AvailabilityID : Int
  Units : Int
  UserID : Int
  deriving DecidableEq, Repr

def ErrNotFound : GoError := .sentinel .serviceErrNotFound

def ErrNotAvailable : GoError := .sentinel .serviceErrNotAvailable

end service

/-! ## The reservation store (`internal/storage/postgres.go`) -/

namespace storage

/-- The method `Postgres.CreateBooking`: narrow the parameters to 32 bits, run the
statement, map `sql.ErrNoRows` to `service.ErrNotAvailable` and wrap any other
error. The result is the pair `(id, err)` and the state after the call. -/
def Postgres.CreateBooking (fault : Option GoError) (db : Db)
    (params : service.CreateBookingParams) : (Int × Option GoError) × Db :=
  let q : queries.CreateBookingParams :=
    { ProductID := int32 params.ProductID
      AvailabilityID := int32 params.AvailabilityID
      Units := int32 params.Units
      UserID := int32 params.UserID }
  match queries.Queries.CreateBooking fault db q with
  | (.error err, db1) =>
    if errorsIs err .sqlErrNoRows then ((0, some service.ErrNotAvailable), db1)
    else ((0, some (.wrap "create booking" err)), db1)
  | (.ok id, db1) => ((id, none), db1)

/-- Failures of the transaction boundary: `BeginTx`, `Rollback` and `Commit`. -/
structure TxFaults where
  beginTx : Option GoError
  rollback : Option GoError
  commit : Option GoError

/-- The method of `*sql.Tx` that `withTx` called to end the transaction. -/
inductive TxCall where
  | Commit
  | Rollback
  deriving DecidableEq, Repr

/-- Result of `withTx`: the returned error, the persisted state after the call, and the
call that ended the transaction (`none` when it never began). -/
structure TxResult where
  err : Option GoError
  db : Db
  ended : Option TxCall
  deriving DecidableEq, Repr

/-- The method `Postgres.withTx`. The callback runs on the transaction's view `tx` of
the state, which starts as the persisted state. Its writes are persisted exactly by a
`Commit` that succeeds; after `Rollback`, a failed `Commit` or a failed `BeginTx` the
persisted state is the one before the call (the semantics of `database/sql`
transactions). -/
def Postgres.withTx (f : TxFaults) (db : Db) (fn : Db → Option GoError × Db) : TxResult :=
  match f.beginTx with
  | some err => ⟨some (.wrap "begin database transaction" err), db, none⟩
  | none =>
    match fn db with
    | (some err, _) =>
      match f.rollback with
      | some rollbackErr =>
        ⟨some (.wrap2 "rollback database transaction after" err rollbackErr), db,
          some .Rollback⟩
      | none => ⟨some err, db, some .Rollback⟩
    | (none, tx) =>
      match f.commit with
      | some err => ⟨some (.wrap "commit database transaction" err), db, some .Commit⟩
      | none => ⟨none, tx, some .Commit⟩

/-- Failures of the statements inside the confirmation transaction; `setUnitTicket i` is
the failure of the ticket write of the `i`-th row. -/
structure StmtFaults where
  bookingForUpdate : Option GoError
  confirmBooking : Option GoError
  setUnitTicket : Nat → Option GoError

/-- The method `Postgres.createTicket`; `ticket` is the value `platform.RandString()`
returns for this call. -/
def Postgres.createTicket (fault : Option GoError) (ticket : String) (tx : Db)
    (unitID : Int) : Option GoError × Db :=
  let params : queries.SetUnitTicketParams :=
    { ID := unitID, Ticket := { String := ticket, Valid := true } }
  match queries.Queries.SetUnitTicket fault tx params with
  | (some err, tx1) => (some (.wrap "set unit ticket" err), tx1)
  | (none, tx1) => (none, tx1)

/-- The loop `for _, row := range bookingWithUnits` of `Postgres.ConfirmBooking`, from
the `i`-th row on; `rand i` is the `i`-th random ticket. -/
def Postgres.ConfirmBooking.tickets (faults : Nat → Option GoError) (rand : Nat → String) :
    Nat → List queries.BookingForUpdateRow → Db → Option GoError × Db
  | _, [], tx => (none, tx)
  | i, row :: rest, tx =>
    match Postgres.createTicket (faults i) (rand i) tx row.UnitID with
    | (some err, tx1) => (some (.wrap "create ticket" err), tx1)
    | (none, tx1) => Postgres.ConfirmBooking.tickets faults rand (i + 1) rest tx1

/-- The callback that `Postgres.ConfirmBooking` passes to `withTx`. -/
def Postgres.ConfirmBooking.fn (sf : StmtFaults) (rand : Nat → String) (id : Int)
    (params : queries.BookingForUpdateParams) (tx : Db) : Option GoError × Db :=
  match sf.bookingForUpdate with
  | some err => (some (.wrap "get booking for update" err), tx)
  | none =>
    let bookingWithUnits := queries.Queries.BookingForUpdate tx params
    match bookingWithUnits with
    | [] => (some service.ErrNotFound, tx)
    | row0 :: _ =>
      if row0.Status = internal.BookingStatusConfirmed then (none, tx)
      else
        match queries.Queries.ConfirmBooking sf.confirmBooking tx (int64 id) with
        | (some err, tx1) => (some (.wrap "confirm booking" err), tx1)
        | (none, tx1) => Postgres.ConfirmBooking.tickets sf.setUnitTicket rand 0 bookingWithUnits tx1

/-- The method `Postgres.ConfirmBooking`. -/
def Postgres.ConfirmBooking (tf : TxFaults) (sf : StmtFaults) (rand : Nat → String)
    (db : Db) (id userID : Int) : TxResult :=
  let params : queries.BookingForUpdateParams := { ID := int64 id, UserID := int32 userID }
  Postgres.withTx tf db (Postgres.ConfirmBooking.fn sf rand id params)

def toAvailabilityStatus (vacancies : Int) : internal.AvailabilityStatus :=
  if vacancies > 0 then internal.AvailabilityStatusAvailable
  else internal.AvailabilityStatusSoldOut

/-- The conversion `strconv.Itoa`. -/
def Itoa (i : Int) : String := toString i

def nullStringToPtr (s : sql.NullString) : Option String :=
  if s.Valid then some s.String else none

def toPrice (p : queries.Price) : internal.CapabilityPrice :=
  { Price := p.Price, Currency := p.Currency }

def toUnit (u : queries.Unit) : internal.UnitBase :=
  { ID := Itoa u.ID, Ticket := nullStringToPtr u.Ticket }

def toUnitWithPrice (u : queries.Unit) (p : queries.Price) : internal.UnitWithPrice :=
  { UnitBase := toUnit u, CapabilityPrice := toPrice p }

def toBooking (b : queries.Booking) : internal.BookingBase :=
  { ID := Itoa b.ID
    ProductID := Itoa b.ProductID
    AvailabilityID := Itoa b.AvailabilityID
    Status := b.Status
    Units := [] }

/-- The body of the first loop of `toBookings`: create the accumulator of the row's
booking id when absent, then append the row's unit to it. -/
def toBookings.step (bookings : GoMap internal.BookingBase) (row : queries.BookingRow) :
    GoMap internal.BookingBase :=
  let bookings1 :=
    match bookings.get? row.Booking.ID with
    | none => bookings.set row.Booking.ID (toBooking row.Booking)
    | some _ => bookings
  let unit := toUnit row.Unit
  match bookings1.get? row.Booking.ID with
  | some b => bookings1.set row.Booking.ID { b with Units := b.Units ++ [.base unit] }
  | none => bookings1

/-- The map `bookings` of `toBookings` after its first loop. -/
def toBookings.collect (rows : List queries.BookingRow) : GoMap internal.BookingBase :=
  rows.foldl toBookings.step []

/-- The function `toBookings`; `seed` fixes the order in which the second loop ranges
over the map. -/
def toBookings (seed : Nat) (rows : List queries.BookingRow) : List internal.BookingBase :=
  (GoMap.range seed (toBookings.collect rows)).map Prod.snd

/-- The body of the first loop of `toBookingsWithPrice`. -/
def toBookingsWithPrice.step (bookings : GoMap internal.BookingWithPrice)
    (row : queries.BookingWithPriceRow) : GoMap internal.BookingWithPrice :=
  let bookings1 :=
    match bookings.get? row.Booking.ID with
    | none =>
      bookings.set row.Booking.ID
        { BookingBase := toBooking row.Booking, CapabilityPrice := { Price := 0, Currency := "" } }
    | some _ => bookings
  match bookings1.get? row.Booking.ID with
  | some b =>
    let price : internal.CapabilityPrice :=
      { Price := b.CapabilityPrice.Price + row.Price.Price, Currency := row.Price.Currency }
    let unit := toUnitWithPrice row.Unit row.Price
    bookings1.set row.Booking.ID
      { BookingBase := { b.BookingBase with Units := b.BookingBase.Units ++ [.withPrice unit] }
        CapabilityPrice := price }
  | none => bookings1

/-- The map `bookings` of `toBookingsWithPrice` after its first loop. -/
def toBookingsWithPrice.collect (rows : List queries.BookingWithPriceRow) :
    GoMap internal.BookingWithPrice :=
  rows.foldl toBookingsWithPrice.step []

/-- The function `toBookingsWithPrice`; `seed` as in `toBookings`. -/
def toBookingsWithPrice (seed : Nat) (rows : List queries.BookingWithPriceRow) :
    List internal.BookingWithPrice :=
  (GoMap.range seed (toBookingsWithPrice.collect rows)).map Prod.snd

/-- The method `Postgres.Booking`, given what the two reads return: `fault` is a driver
failure of the read, `priced` the rows of `queries.BookingWithPrice` and `plain` the
rows of `queries.Booking`. The outer `none` is the run-time panic of indexing an empty
slice. -/
def Postgres.Booking (seed : Nat) (fault : Option GoError)
    (priced : List queries.BookingWithPriceRow) (plain : List queries.BookingRow)
    (capability : internal.CapabilityRequest) : Option (Except GoError internal.Booking) :=
  if capability = internal.CapabilityRequestPrice then
    match fault with
    | some err => some (.error (.wrap "get booking with price" err))
    | none =>
      if priced.length = 0 then some (.error service.ErrNotFound)
      else (toBookingsWithPrice seed priced).head?.map fun b => .ok (.withPrice b)
  else
    match fault with
    | some err => some (.error (.wrap "get booking" err))
    | none =>
      if plain.length = 0 then some (.error service.ErrNotFound)
      else (toBookings seed plain).head?.map fun b => .ok (.base b)

end storage

namespace service

/-- The method `Service.CreateBooking` over a store with state `σ`; `dbCreateBooking` is
the store's `CreateBooking`. -/
def Service.CreateBooking {σ : Type}
    (dbCreateBooking : σ → CreateBookingParams → (Int × Option GoError) × σ)
    (s : σ) (req : internal.CreateBookingRequest) : (Int × Option GoError) × σ :=
  let params : CreateBookingParams :=
    { ProductID := req.ProductID
      AvailabilityID := req.AvailabilityID
      Units := req.Units
      UserID := req.UserID }
  match dbCreateBooking s params with
  | ((_, some err), s1) =>
    if errorsIs err .serviceErrNotAvailable then ((0, some internal.ErrNotAvailable), s1)
    else ((0, some (.wrap "create booking" err)), s1)
  | ((id, none), s1) => ((id, none), s1)

end service

/-! ## Catalogue entities and their reads -/

namespace time

/-- The type `time.Time`, as the instant it denotes: the time elapsed since the zero
value of `time.Time` (January 1, year 1, 00:00:00 UTC). -/
abbrev Time := Int

/-- The method `Time.IsZero`. -/
def Time.IsZero (t : Time) : Bool := decide (t = 0)

end time

/-- The method `Error()` of an error value. The text of an error of the database driver
is not known to the program; the embedding gives the driver error `code` the text
`driver error code`, and likewise the library error `code` the text
`library error code`. -/
def GoError.Error : GoError → String
  | .sentinel .sqlErrNoRows => "sql: no rows in result set"
  | .sentinel .serviceErrNotFound => "not found"
  | .sentinel .serviceErrNotAvailable => "not available"
  | .sentinel .internalErrNotFound => "not found"
  | .sentinel .internalErrNotAvailable => "not available"
  | .sentinel .authErrNotFound => "not found"
  | .sentinel (.driver code) => "driver error " ++ toString code
  | .sentinel .strconvErrSyntax => "invalid syntax"
  | .sentinel .strconvErrRange => "value out of range"
  | .sentinel (.library code) => "library error " ++ toString code
  | .wrap msg inner => msg ++ ": " ++ inner.Error
  | .wrap2 msg first second => msg ++ " " ++ first.Error ++ ": " ++ second.Error

namespace internal

/-- The type `Date`, a `time.Time`. -/
abbrev Date := time.Time

/-- The struct `User`. -/
structure User where
  ID : Int
  Email : String
  deriving DecidableEq, Repr

/-- The struct `ProductBase`. -/
structure ProductBase where
  ID : String
  Name : String
  Capacity : Int
  deriving DecidableEq, Repr

/-- The struct `ProductWithPrice`, embedding `ProductBase` and `CapabilityPrice`. -/
structure ProductWithPrice where
  ProductBase : ProductBase
  CapabilityPrice : CapabilityPrice
  deriving DecidableEq, Repr

/-- The interface `Product`, implemented by `ProductBase` and `ProductWithPrice`. -/
inductive Product where
  | base (p : ProductBase)
  | withPrice (p : ProductWithPrice)
  deriving DecidableEq, Repr

/-- The struct `AvailabilityBase`. -/
structure AvailabilityBase where
  ID : String
  LocalDate : Date
  Status : AvailabilityStatus
  Vacancies : Int
  Available : Bool
  deriving DecidableEq, Repr

/-- The struct `AvailabilityWithPrice`, embedding `AvailabilityBase` and
`CapabilityPrice`. -/
structure AvailabilityWithPrice where
  AvailabilityBase : AvailabilityBase
  CapabilityPrice : CapabilityPrice
  deriving DecidableEq, Repr

/-- The interface `Availability`, implemented by `AvailabilityBase` and
`AvailabilityWithPrice`. -/
inductive Availability where
  | base (a : AvailabilityBase)
  | withPrice (a : AvailabilityWithPrice)
  deriving DecidableEq, Repr

end internal

namespace queries

/-- Row of table `products` (`queries.Product`): the columns the store reads. -/
structure Product where
  ID : Int
  Name : String
  Capacity : Int
  deriving DecidableEq, Repr

/-- The struct `queries.ProductsWithPricesRow`. -/
structure ProductsWithPricesRow where
  Product : Product
  Price : Price
  deriving DecidableEq, Repr

/-- The struct `queries.ProductWithPriceRow`. -/
structure ProductWithPriceRow where
  Product : Product
  Price : Price
  deriving DecidableEq, Repr

/-- The struct `queries.AvalabilityWithPriceRow`. -/
structure AvalabilityWithPriceRow where
  Availability : Availability
  Price : Price
  deriving DecidableEq, Repr

/-- The struct `queries.AvalabilityWithPriceRangeRow`. -/
structure AvalabilityWithPriceRangeRow where
  Availability : Availability
  Price : Price
  deriving DecidableEq, Repr

/-- The structs `queries.AvalabilityParams` and `queries.AvalabilityWithPriceParams`. -/
structure AvalabilityParams where
  ProductID : Int
  LocalDate : time.Time
  deriving DecidableEq, Repr

/-- The structs `queries.AvalabilityRangeParams` and
`queries.AvalabilityWithPriceRangeParams`. -/
structure AvalabilityRangeParams where
  ProductID : Int
  LocalDateStart : time.Time
  LocalDateEnd : time.Time
  deriving DecidableEq, Repr

/-- The struct `queries.BookingWithPriceParams`. -/
structure BookingWithPriceParams where
  ID : Int
  UserID : Int
  deriving DecidableEq, Repr

/-- The read statements of `*queries.Queries` behind the catalogue reads of the store, as
what each returns for its arguments in the current state of the database (the `queries`
package is not among the sources; the store's reads are settled for any statements). -/
structure Reads where
  Products : Except GoError (List Product)
  ProductsWithPrices : Except GoError (List ProductsWithPricesRow)
  Product : Int → Except GoError Product
  ProductWithPrice : Int → Except GoError ProductWithPriceRow
  Avalability : AvalabilityParams → Except GoError Availability
  AvalabilityWithPrice : AvalabilityParams → Except GoError AvalabilityWithPriceRow
  AvalabilityRange : AvalabilityRangeParams → Except GoError (List Availability)
  AvalabilityWithPriceRange :
    AvalabilityRangeParams → Except GoError (List AvalabilityWithPriceRangeRow)

namespace Queries

/-- Modelled from the spec: the single-row read `queries.Avalability` (not among the
sources): the availability of the given product on the given local date, of which there
is one row per (product, date); `sql.ErrNoRows` when there is no such row. -/
def Avalability (db : Db) (arg : AvalabilityParams) : Except GoError Availability :=
  match db.availabilities.find? fun a =>
      decide (a.ProductID = arg.ProductID) && decide (a.LocalDate = arg.LocalDate) with
  | some a => .ok a
  | none => .error (.sentinel .sqlErrNoRows)

/-- Modelled from the spec: the read `queries.BookingWithPrice` (not among the sources):
the rows of `queries.Booking` for the same booking and user, each joined with the price of
the booking's product; `prices` is the price table as pairs of a product id and a price. -/
def BookingWithPrice (db : Db) (prices : List (Int × Price)) (arg : BookingWithPriceParams) :
    List BookingWithPriceRow :=
  (Booking db { ID := arg.ID, UserID := arg.UserID }).flatMap fun r =>
    (prices.filter fun p => decide (p.1 = r.Booking.ProductID)).map fun p =>
      { Booking := r.Booking, Unit := r.Unit, Price := p.2 }

end Queries

end queries

namespace storage

/-- The generic helper `mapp`. -/
def mapp {T V : Type} (slice : List T) (f : T → V) : List V := slice.map f

def toProduct (p : queries.Product) : internal.ProductBase :=
  { ID := Itoa p.ID, Name := p.Name, Capacity := p.Capacity }

def toProductWithPrice (product : queries.Product) (price : queries.Price) :
    internal.ProductWithPrice :=
  { ProductBase := toProduct product, CapabilityPrice := toPrice price }

def toAvailability (a : queries.Availability) : internal.AvailabilityBase :=
  { ID := Itoa a.ID
    LocalDate := a.LocalDate
    Status := toAvailabilityStatus a.Vacancies
    Vacancies := a.Vacancies
    Available := decide (a.Vacancies > 0) }

def toAvailabilityWithPrice (a : queries.Availability) (p : queries.Price) :
    internal.AvailabilityWithPrice :=
  { AvailabilityBase := toAvailability a, CapabilityPrice := toPrice p }

/-- The method `Postgres.Products`. -/
def Postgres.Products (q : queries.Reads) (capability : internal.CapabilityRequest) :
    Except GoError (List internal.Product) :=
  if capability = internal.CapabilityRequestPrice then
    match q.ProductsWithPrices with
    | .error err => .error (.wrap "get products with prices" err)
    | .ok productsWithPrices =>
      .ok (mapp productsWithPrices fun pp => .withPrice (toProductWithPrice pp.Product pp.Price))
  else
    match q.Products with
    | .error err => .error (.wrap "get products" err)
    | .ok products => .ok (mapp products fun p => .base (toProduct p))

/-- The method `Postgres.Product`. -/
def Postgres.Product (q : queries.Reads) (id : Int) (capability : internal.CapabilityRequest) :
    Except GoError internal.Product :=
  if capability = internal.CapabilityRequestPrice then
    match q.ProductWithPrice (int32 id) with
    | .error err =>
      if errorsIs err .sqlErrNoRows then .error service.ErrNotFound
      else .error (.wrap "get product with price" err)
    | .ok productWithPrice =>
      .ok (.withPrice (toProductWithPrice productWithPrice.Product productWithPrice.Price))
  else
    match q.Product (int32 id) with
    | .error err =>
      if errorsIs err .sqlErrNoRows then .error service.ErrNotFound
      else .error (.wrap "get product" err)
    | .ok product => .ok (.base (toProduct product))

/-- The method `Postgres.Availability`. -/
def Postgres.Availability (q : queries.Reads) (productID : Int) (localDate : time.Time)
    (capability : internal.CapabilityRequest) : Except GoError internal.Availability :=
  if capability = internal.CapabilityRequestPrice then
    let params : queries.AvalabilityParams :=
      { ProductID := int32 productID, LocalDate := localDate }
    match q.AvalabilityWithPrice params with
    | .error err =>
      if errorsIs err .sqlErrNoRows then .error service.ErrNotFound else .error err
    | .ok availability =>
      .ok (.withPrice (toAvailabilityWithPrice availability.Availability availability.Price))
  else
    let params : queries.AvalabilityParams :=
      { ProductID := int32 productID, LocalDate := localDate }
    match q.Avalability params with
    | .error err =>
      if errorsIs err .sqlErrNoRows then .error service.ErrNotFound else .error err
    | .ok availability => .ok (.base (toAvailability availability))

/-- The method `Postgres.Availabilities`. -/
def Postgres.Availabilities (q : queries.Reads) (productID : Int)
    (localDateStart localDateEnd : time.Time) (capability : internal.CapabilityRequest) :
    Except GoError (List internal.Availability) :=
  if capability = internal.CapabilityRequestPrice then
    let params : queries.AvalabilityRangeParams :=
      { ProductID := int32 productID
        LocalDateStart := localDateStart
        LocalDateEnd := localDateEnd }
    match q.AvalabilityWithPriceRange params with
    | .error err => .error err
    | .ok availabilities =>
      .ok (mapp availabilities fun a =>
        .withPrice (toAvailabilityWithPrice a.Availability a.Price))
  else
    let params : queries.AvalabilityRangeParams :=
      { ProductID := int32 productID
        LocalDateStart := localDateStart
        LocalDateEnd := localDateEnd }
    match q.AvalabilityRange params with
    | .error err => .error err
    | .ok availabilities => .ok (mapp availabilities fun a => .base (toAvailability a))

end storage

/-! ## The booking service (`internal/service/service.go`) -/

namespace service

/-- The method `Service.Products`; `dbProducts` is the store's `Products`. -/
def Service.Products {σ : Type}
    (dbProducts : σ → internal.CapabilityRequest → Except GoError (List internal.Product) × σ)
    (s : σ) (capability : internal.CapabilityRequest) :
    Except GoError (List internal.Product) × σ :=
  match dbProducts s capability with
  | (.error err, s1) => (.error (.wrap "get products" err), s1)
  | (.ok products, s1) => (.ok products, s1)

/-- The method `Service.Product`; `dbProduct` is the store's `Product`. -/
def Service.Product {σ : Type}
    (dbProduct : σ → Int → internal.CapabilityRequest → Except GoError internal.Product × σ)
    (s : σ) (id : Int) (capability : internal.CapabilityRequest) :
    Except GoError internal.Product × σ :=
  match dbProduct s id capability with
  | (.error err, s1) =>
    if errorsIs err .serviceErrNotFound then (.error internal.ErrNotFound, s1)
    else (.error (.wrap "get product" err), s1)
  | (.ok product, s1) => (.ok product, s1)

/-- The method `Service.Availability`; `dbAvailability` is the store's `Availability`. -/
def Service.Availability {σ : Type}
    (dbAvailability : σ → Int → time.Time → internal.CapabilityRequest →
      Except GoError internal.Availability × σ)
    (s : σ) (productID : Int) (localDate : time.Time)
    (capability : internal.CapabilityRequest) : Except GoError internal.Availability × σ :=
  match dbAvailability s productID localDate capability with
  | (.error err, s1) =>
    if errorsIs err .serviceErrNotFound then (.error internal.ErrNotFound, s1)
    else (.error (.wrap "get availability" err), s1)
  | (.ok availability, s1) => (.ok availability, s1)

/-- The method `Service.Availabilities`; `dbAvailabilities` is the store's
`Availabilities`. -/
def Service.Availabilities {σ : Type}
    (dbAvailabilities : σ → Int → time.Time → time.Time → internal.CapabilityRequest →
      Except GoError (List internal.Availability) × σ)
    (s : σ) (productID : Int) (localDateStart localDateEnd : time.Time)
    (capability : internal.CapabilityRequest) :
    Except GoError (List internal.Availability) × σ :=
  match dbAvailabilities s productID localDateStart localDateEnd capability with
  | (.error err, s1) => (.error (.wrap "get availabilities" err), s1)
  | (.ok availabilities, s1) => (.ok availabilities, s1)

/-- The method `Service.ConfirmBooking`; `dbConfirmBooking` is the store's
`ConfirmBooking`. -/
def Service.ConfirmBooking {σ : Type} (dbConfirmBooking : σ → Int → Int → Option GoError × σ)
    (s : σ) (id userID : Int) : Option GoError × σ :=
  match dbConfirmBooking s id userID with
  | (some err, s1) =>
    if errorsIs err .serviceErrNotFound then (some internal.ErrNotFound, s1)
    else (some (.wrap "confirm booking" err), s1)
  | (none, s1) => (none, s1)

/-- The method `Service.Booking`; `dbBooking` is the store's `Booking`. -/
def Service.Booking {σ : Type}
    (dbBooking : σ → Int → Int → internal.CapabilityRequest →
      Except GoError internal.Booking × σ)
    (s : σ) (id userID : Int) (capability : internal.CapabilityRequest) :
    Except GoError internal.Booking × σ :=
  match dbBooking s id userID capability with
  | (.error err, s1) =>
    if errorsIs err .serviceErrNotFound then (.error internal.ErrNotFound, s1)
    else (.error (.wrap "get booking" err), s1)
  | (.ok booking, s1) => (.ok booking, s1)

end service

/-! ## The HTTP API (`internal/api`) -/

namespace api

/-- The interface `api.Service` over a service with state `σ`: each method takes the state
before the call and returns its result with the state after the call. -/
structure Service (σ : Type) where
  Products : σ → internal.CapabilityRequest → Except GoError (List internal.Product) × σ
  Product : σ → Int → internal.CapabilityRequest → Except GoError internal.Product × σ
  Availability : σ → Int → time.Time → internal.CapabilityRequest →
    Except GoError internal.Availability × σ
  Availabilities : σ → Int → time.Time → time.Time → internal.CapabilityRequest →
    Except GoError (List internal.Availability) × σ
  CreateBooking : σ → internal.CreateBookingRequest → (Int × Option GoError) × σ
  ConfirmBooking : σ → Int → Int → Option GoError × σ
  Booking : σ → Int → Int → internal.CapabilityRequest → Except GoError internal.Booking × σ

/-- The struct `api.Error`. -/
structure Error where
  Code : Int
  Message : String
  Details : List String
  deriving DecidableEq, Repr

/-- The value that `writeJSON` encodes as the body of a response. -/
inductive Body where
  | products (v : List internal.Product)
  | product (v : internal.Product)
  | availabilities (v : List internal.Availability)
  | booking (v : internal.Booking)
  | error (v : Error)
  deriving DecidableEq, Repr

/-- What a handler writes to its `http.ResponseWriter`: the status code and the encoded
value (every handler writes exactly once, through `writeJSON`). -/
structure Response where
  status : Int
  body : Body
  deriving DecidableEq, Repr

def StatusOK : Int := 200

def StatusBadRequest : Int := 400

def StatusNotFound : Int := 404

def StatusConflict : Int := 409

def StatusInternalServerError : Int := 500

/-- The function `writeJSON`. -/
def writeJSON (status : Int) (resp : Body) : Response := { status := status, body := resp }

/-- The function `writeError`. -/
def writeError (message : String) (code : Int) (details : List String) : Response :=
  writeJSON code (.error { Code := code, Message := message, Details := details })

/-- The struct `AvailabilityRequest`, decoded. -/
structure AvailabilityRequest where
  ProductID : Int
  LocalDate : internal.Date
  LocalDateStart : internal.Date
  LocalDateEnd : internal.Date
  deriving DecidableEq, Repr

/-- The struct `BookingRequest`, decoded. -/
structure BookingRequest where
  ProductID : Int
  AvailabilityID : Int
  Units : Int
  deriving DecidableEq, Repr

/-- The parts of an `*http.Request` that the handlers read: the text of the `Capability`
header (empty when the header is absent), the outcome of decoding the body into the
handler's request struct, the outcome of converting the path value `id` with
`strconv.Atoi`, and the user stored in the request context. -/
structure Request (β : Type) where
  Capability : List UInt8
  body : Except GoError β
  id : Except GoError Int
  user : Option internal.User

/-- The bytes of the text `price`. -/
def priceText : List UInt8 := [112, 114, 105, 99, 101]

/-- The method `CapabilityRequest.UnmarshalText`: the returned error and the value the
receiver holds afterwards. -/
def CapabilityRequest.UnmarshalText (text : List UInt8) :
    Option GoError × internal.CapabilityRequest :=
  if text = priceText then (none, internal.CapabilityRequestPrice)
  else (none, internal.CapabilityRequestNone)

/-- The method `CapabilityRequest.UnmarshalHTTP`. -/
def CapabilityRequest.UnmarshalHTTP {β : Type} (r : Request β) :
    Option GoError × internal.CapabilityRequest :=
  let text := r.Capability
  match CapabilityRequest.UnmarshalText text with
  | (some err, c) => (some err, c)
  | (none, c) => (none, c)

/-- The function `auth.ContextUser` on the context of the request. -/
def ContextUser {β : Type} (r : Request β) : internal.User × Bool :=
  match r.user with
  | some user => (user, true)
  | none => ({ ID := 0, Email := "" }, false)

/-- The method `API.singleAvailability`. -/
def API.singleAvailability {σ : Type} (a : Service σ) (s : σ) (req : AvailabilityRequest)
    (capability : internal.CapabilityRequest) :
    Except GoError (List internal.Availability) × σ :=
  match a.Availability s req.ProductID req.LocalDate capability with
  | (.error err, s1) =>
    if errorsIs err .internalErrNotFound then (.ok [], s1) else (.error err, s1)
  | (.ok availability, s1) => (.ok [availability], s1)

/-- The handler `API.Availability`. -/
def API.Availability {σ : Type} (a : Service σ) (s : σ) (r : Request AvailabilityRequest) :
    Response × σ :=
  match CapabilityRequest.UnmarshalHTTP r with
  | (some err, _) =>
    (writeError "failed to decode capability" StatusBadRequest [err.Error], s)
  | (none, capability) =>
    match r.body with
    | .error err =>
      (writeError "failed to decode availability request" StatusBadRequest [err.Error], s)
    | .ok availabilityReq =>
      if !(time.Time.IsZero availabilityReq.LocalDate) then
        match API.singleAvailability a s availabilityReq capability with
        | (.error err, s1) =>
          (writeError "failed to get availability" StatusInternalServerError [err.Error], s1)
        | (.ok availabilities, s1) => (writeJSON StatusOK (.availabilities availabilities), s1)
      else
        match a.Availabilities s availabilityReq.ProductID availabilityReq.LocalDateStart
            availabilityReq.LocalDateEnd capability with
        | (.error err, s1) =>
          (writeError "failed to get availability" StatusInternalServerError [err.Error], s1)
        | (.ok availabilities, s1) => (writeJSON StatusOK (.availabilities availabilities), s1)

/-- The method `API.booking`. -/
def API.booking {σ : Type} (a : Service σ) (s : σ) (id userID : Int)
    (capability : internal.CapabilityRequest) : Response × σ :=
  match a.Booking s id userID capability with
  | (.error err, s1) =>
    if errorsIs err .internalErrNotFound then
      (writeError "booking not found" StatusNotFound [], s1)
    else (writeError "failed to get booking" StatusInternalServerError [err.Error], s1)
  | (.ok booking, s1) => (writeJSON StatusOK (.booking booking), s1)

/-- The handler `API.CreateBooking`. -/
def API.CreateBooking {σ : Type} (a : Service σ) (s : σ) (r : Request BookingRequest) :
    Response × σ :=
  match CapabilityRequest.UnmarshalHTTP r with
  | (some err, _) =>
    (writeError "failed to decode capability" StatusBadRequest [err.Error], s)
  | (none, capability) =>
    match r.body with
    | .error err =>
      (writeError "failed to decode booking request" StatusBadRequest [err.Error], s)
    | .ok bookingReq =>
      let user := (ContextUser r).1
      let params : internal.CreateBookingRequest :=
        { ProductID := bookingReq.ProductID
          AvailabilityID := bookingReq.AvailabilityID
          Units := bookingReq.Units
          UserID := user.ID }
      match a.CreateBooking s params with
      | ((_, some err), s1) =>
        if errorsIs err .internalErrNotAvailable then
          (writeError "not available" StatusConflict [], s1)
        else (writeError "failed to create booking" StatusInternalServerError [err.Error], s1)
      | ((id, none), s1) => API.booking a s1 id user.ID capability

/-- The handler `API.Booking`; the request has no body to decode. -/
def API.Booking {σ β : Type} (a : Service σ) (s : σ) (r : Request β) : Response × σ :=
  match CapabilityRequest.UnmarshalHTTP r with
  | (some err, _) =>
    (writeError "failed to decode capability" StatusBadRequest [err.Error], s)
  | (none, capability) =>
    match r.id with
    | .error err => (writeError "invalid booking ID" StatusBadRequest [err.Error], s)
    | .ok id =>
      let user := (ContextUser r).1
      API.booking a s id user.ID capability

end api

/-! ## Runs, observations and example states -/

/-- The vacancies of the availability with the given id, when the row exists. -/
def vacanciesOf (db : Db) (aid : Int) : Option Int :=
  (db.availabilities.find? fun a => decide (a.ID = aid)).map fun a => a.Vacancies

/-- A sequence of `createBooking` calls made one after the other through the service
against the store; each call comes with the driver failure it meets, if any. The
result lists what each call returned and gives the state after the last call. -/
def runBookings (db : Db) :
    List (Option GoError × internal.CreateBookingRequest) → List (Int × Option GoError) × Db
  | [] => ([], db)
  | (fault, req) :: rest =>
    let r := service.Service.CreateBooking (storage.Postgres.CreateBooking fault) db req
    let rs := runBookings r.2 rest
    (r.1 :: rs.1, rs.2)

/-- The requests of the calls that succeeded (returned a nil error). -/
def succeeded : List (Option GoError × internal.CreateBookingRequest) →
    List (Int × Option GoError) → List internal.CreateBookingRequest
  | (_, req) :: calls, (_, none) :: results => req :: succeeded calls results
  | _ :: calls, _ :: results => succeeded calls results
  | _, _ => []

/-- The sum of the units the succeeded calls asked for. -/
def requestedUnits (reqs : List internal.CreateBookingRequest) : Int :=
  (reqs.map fun r => r.Units).sum

/-- The sum of the units of the succeeded calls as the store received them. -/
def storedUnits (reqs : List internal.CreateBookingRequest) : Int :=
  (reqs.map fun r => int32 r.Units).sum

/-- The rows that carry their key for the first time, in row order: one row per
distinct key, in the order in which the keys are first seen. -/
def firstRows {R : Type} (key : R → Int) (rows : List R) : List R :=
  rows.foldl
    (fun acc r => if acc.any (fun r0 => decide (key r0 = key r)) then acc else acc ++ [r]) []

/-- The grouping of rows into bookings as the specification words it: one booking per
distinct booking id, in first-seen order; the booking-level fields come from the first
row with that id and the units are the converted units of the rows carrying that id, in
row order. -/
def groupRows (rows : List queries.BookingRow) : List internal.BookingBase :=
  (firstRows (fun r => r.Booking.ID) rows).map fun r0 =>
    { ID := storage.Itoa r0.Booking.ID
      Status := r0.Booking.Status
      ProductID := storage.Itoa r0.Booking.ProductID
      AvailabilityID := storage.Itoa r0.Booking.AvailabilityID
      Units := (rows.filter fun r => decide (r.Booking.ID = r0.Booking.ID)).map
        fun r => .base (storage.toUnit r.Unit) }

/-- The same grouping for rows with prices, restricted to the base part of each booking:
the units are the price-augmented units of the rows of the id. -/
def groupPricedRows (rows : List queries.BookingWithPriceRow) : List internal.BookingBase :=
  (firstRows (fun r => r.Booking.ID) rows).map fun r0 =>
    { ID := storage.Itoa r0.Booking.ID
      Status := r0.Booking.Status
      ProductID := storage.Itoa r0.Booking.ProductID
      AvailabilityID := storage.Itoa r0.Booking.AvailabilityID
      Units := (rows.filter fun r => decide (r.Booking.ID = r0.Booking.ID)).map
        fun r => .withPrice (storage.toUnitWithPrice r.Unit r.Price) }

/-- A consistent state: booking ids and unit ids are primary keys, both lie below the
next value of their sequence, every unit belongs to a booking, and a unit has a ticket
if and only if its booking is CONFIRMED. -/
def Consistent (db : Db) : Prop :=
  (db.bookings.map fun b => b.ID).Nodup ∧
  (db.units.map fun u => u.ID).Nodup ∧
  (∀ b ∈ db.bookings, b.ID < db.bookingSeq) ∧
  (∀ u ∈ db.units, u.ID < db.unitSeq) ∧
  (∀ u ∈ db.units, ∃ b ∈ db.bookings, b.ID = u.BookingID) ∧
  (∀ u ∈ db.units, ∀ b ∈ db.bookings, b.ID = u.BookingID →
    (u.Ticket.Valid = true ↔ b.Status = internal.BookingStatusConfirmed))

instance (db : Db) : Decidable (Consistent db) := by
  unfold Consistent
  infer_instance

/-- One call of the store that changes state: `CreateBooking` or `ConfirmBooking`, with
any arguments, any driver failures and any random tickets. -/
inductive Step : Db → Db → Prop where
  | createBooking (fault : Option GoError) (db : Db) (params : service.CreateBookingParams) :
      Step db (storage.Postgres.CreateBooking fault db params).2
  | confirmBooking (tf : storage.TxFaults) (sf : storage.StmtFaults) (rand : Nat → String)
      (db : Db) (id userID : Int) :
      Step db (storage.Postgres.ConfirmBooking tf sf rand db id userID).db

/-- The states reachable from a state through `createBooking` and `confirmBooking`. -/
def Reachable (db0 db : Db) : Prop := Relation.ReflTransGen Step db0 db

/-- The price of a unit: the price of its overlay, and 0 for a unit without one. -/
def unitPrice : internal.Unit → Int
  | .withPrice u => u.CapabilityPrice.Price
  | .base _ => 0

/-- The priced booking of the rows that carry the booking id of the row `r0`, in closed
form: the base fields of `r0`, one price-augmented unit per row of the id in row order,
the sum of the prices of those rows, and the currency of the last of them. -/
def pricedGroup (rows : List queries.BookingWithPriceRow) (r0 : queries.BookingWithPriceRow) :
    internal.BookingWithPrice :=
  { BookingBase :=
      { ID := storage.Itoa r0.Booking.ID
        Status := r0.Booking.Status
        ProductID := storage.Itoa r0.Booking.ProductID
        AvailabilityID := storage.Itoa r0.Booking.AvailabilityID
        Units := (rows.filter fun r => decide (r.Booking.ID = r0.Booking.ID)).map
          fun r => .withPrice (storage.toUnitWithPrice r.Unit r.Price) }
    CapabilityPrice :=
      { Price := ((rows.filter fun r => decide (r.Booking.ID = r0.Booking.ID)).map
          fun r => r.Price.Price).sum
        Currency := (rows.filter fun r => decide (r.Booking.ID = r0.Booking.ID)).foldl
          (fun _ r => r.Price.Currency) "" } }

/-- Whether a product is of the price-augmented variant. -/
def internal.Product.hasPrice : internal.Product → Bool
  | .withPrice _ => true
  | .base _ => false

/-- Whether an availability is of the price-augmented variant. -/
def internal.Availability.hasPrice : internal.Availability → Bool
  | .withPrice _ => true
  | .base _ => false

/-- Whether a unit is of the price-augmented variant. -/
def internal.Unit.hasPrice : internal.Unit → Bool
  | .withPrice _ => true
  | .base _ => false

/-- Whether a booking is of the price-augmented variant. -/
def internal.Booking.hasPrice : internal.Booking → Bool
  | .withPrice _ => true
  | .base _ => false

/-- The units of a booking of either variant. -/
def internal.Booking.units : internal.Booking → List internal.Unit
  | .withPrice b => b.BookingBase.Units
  | .base b => b.Units

/-- A unit with its price overlay erased. -/
def eraseUnitPrice : internal.Unit → internal.Unit
  | .withPrice u => .base u.UnitBase
  | .base u => .base u

/-- A priced booking with the price overlay erased from the booking and from each of its
units. -/
def erasePrice (b : internal.BookingWithPrice) : internal.BookingBase :=
  { b.BookingBase with Units := b.BookingBase.Units.map eraseUnitPrice }

/-- A priced row without its price. -/
def withoutPrice (r : queries.BookingWithPriceRow) : queries.BookingRow :=
  { Booking := r.Booking, Unit := r.Unit }

/-- A call of a method of `api.Service`, with its arguments. -/
inductive Call where
  | Products (capability : internal.CapabilityRequest)
  | Product (id : Int) (capability : internal.CapabilityRequest)
  | Availability (productID : Int) (localDate : time.Time)
      (capability : internal.CapabilityRequest)
  | Availabilities (productID : Int) (localDateStart localDateEnd : time.Time)
      (capability : internal.CapabilityRequest)
  | CreateBooking (params : internal.CreateBookingRequest)
  | ConfirmBooking (id userID : Int)
  | Booking (id userID : Int) (capability : internal.CapabilityRequest)
  deriving DecidableEq, Repr

/-- The answers a mock service gives, one per method. -/
structure Canned where
  products : Except GoError (List internal.Product)
  product : Except GoError internal.Product
  availability : Except GoError internal.Availability
  availabilities : Except GoError (List internal.Availability)
  createBooking : Int × Option GoError
  confirmBooking : Option GoError
  booking : Except GoError internal.Booking

/-- A mock of `api.Service`, as the tests of the API use one: every method answers with
its canned result, and the state is the list of the calls made so far, in order. -/
def mockService (c : Canned) : api.Service (List Call) :=
  { Products := fun s capability => (c.products, s ++ [.Products capability])
    Product := fun s id capability => (c.product, s ++ [.Product id capability])
    Availability := fun s productID localDate capability =>
      (c.availability, s ++ [.Availability productID localDate capability])
    Availabilities := fun s productID localDateStart localDateEnd capability =>
      (c.availabilities,
        s ++ [.Availabilities productID localDateStart localDateEnd capability])
    CreateBooking := fun s params => (c.createBooking, s ++ [.CreateBooking params])
    ConfirmBooking := fun s id userID => (c.confirmBooking, s ++ [.ConfirmBooking id userID])
    Booking := fun s id userID capability =>
      (c.booking, s ++ [.Booking id userID capability]) }

/-- The method `Postgres.Booking` in the database state `db`, with no driver failure: the
rows are what the two reads return in that state for `(int64(id), int32(userID))`. A
run-time panic of `Postgres.Booking` would have no result to give; it cannot occur
(theorem `booking_no_panic`), so the last branch, which needs some value, is never
taken. -/
def storage.Postgres.BookingIn (seed : Nat) (prices : List (Int × queries.Price)) (db : Db)
    (id userID : Int) (capability : internal.CapabilityRequest) :
    Except GoError internal.Booking :=
  match storage.Postgres.Booking seed none
      (queries.Queries.BookingWithPrice db prices { ID := int64 id, UserID := int32 userID })
      (queries.Queries.Booking db { ID := int64 id, UserID := int32 userID }) capability with
  | some result => result
  | none => .error (.sentinel (.driver 0))

/-- A service whose `Booking` is the booking service over the Postgres store on the
database state; the other methods are those of `base`. -/
def withStoreBooking (seed : Nat) (prices : List (Int × queries.Price))
    (base : api.Service Db) : api.Service Db :=
  { base with
    Booking := fun s id userID capability =>
      service.Service.Booking
        (fun db id userID capability =>
          (storage.Postgres.BookingIn seed prices db id userID capability, db))
        s id userID capability }

/-- A service whose `Availability` is the booking service over the Postgres store reading
through the statements `q`; the other methods are those of `base`. -/
def withStoreAvailability {σ : Type} (q : queries.Reads) (base : api.Service σ) :
    api.Service σ :=
  { base with
    Availability := fun s productID localDate capability =>
      service.Service.Availability
        (fun s productID localDate capability =>
          (storage.Postgres.Availability q productID localDate capability, s))
        s productID localDate capability }

/-- Example statements: two products, each with a price of 100 EUR, and no availability
row for any product and date. -/
def exampleReads : queries.Reads :=
  { Products := .ok [{ ID := 1, Name := "one", Capacity := 10 },
                     { ID := 2, Name := "two", Capacity := 20 }]
    ProductsWithPrices :=
      .ok [{ Product := { ID := 1, Name := "one", Capacity := 10 },
             Price := { Price := 100, Currency := "EUR" } },
           { Product := { ID := 2, Name := "two", Capacity := 20 },
             Price := { Price := 100, Currency := "EUR" } }]
    Product := fun _ => .error (.sentinel .sqlErrNoRows)
    ProductWithPrice := fun _ => .error (.sentinel .sqlErrNoRows)
    Avalability := fun _ => .error (.sentinel .sqlErrNoRows)
    AvalabilityWithPrice := fun _ => .error (.sentinel .sqlErrNoRows)
    AvalabilityRange := fun _ => .ok []
    AvalabilityWithPriceRange := fun _ => .ok [] }

/-- The statements of the example with the plain availability read taken from the
database state `db`. -/
def readsOf (db : Db) : queries.Reads :=
  { exampleReads with Avalability := queries.Queries.Avalability db }

/-- Example answers of a mock service: availability 123 of 10 vacancies, booking 123 with
one unit, and a successful creation of booking 123. -/
def exampleCanned : Canned :=
  { products := .ok []
    product := .error internal.ErrNotFound
    availability := .ok (.base { ID := "123", LocalDate := 5,
                                 Status := internal.AvailabilityStatusAvailable,
                                 Vacancies := 10, Available := true })
    availabilities := .ok []
    createBooking := (123, none)
    confirmBooking := none
    booking := .ok (.base { ID := "123", Status := internal.BookingStatusReserved,
                            ProductID := "1", AvailabilityID := "123",
                            Units := [.base { ID := "1", Ticket := some "ticket 1" }] }) }

/-- The example answers, but the availability is not found. -/
def notFoundCanned : Canned := { exampleCanned with availability := .error internal.ErrNotFound }

/-- The example answers, but the creation of the booking finds no vacancies. -/
def conflictCanned : Canned :=
  { exampleCanned with createBooking := (0, some internal.ErrNotAvailable) }

/-- A service over any state that answers with canned results and leaves the state as it
is. -/
def cannedService {σ : Type} (c : Canned) : api.Service σ :=
  { Products := fun s _ => (c.products, s)
    Product := fun s _ _ => (c.product, s)
    Availability := fun s _ _ _ => (c.availability, s)
    Availabilities := fun s _ _ _ _ => (c.availabilities, s)
    CreateBooking := fun s _ => (c.createBooking, s)
    ConfirmBooking := fun s _ _ => (c.confirmBooking, s)
    Booking := fun s _ _ _ => (c.booking, s) }

/-- The example user of the API tests. -/
def exampleUser : internal.User := { ID := 456, Email := "test@example.com" }

/-- A single-date availability request for product 1 on date 5 without capability
header. -/
def singleDateRequest : api.Request api.AvailabilityRequest :=
  { Capability := []
    body := .ok { ProductID := 1, LocalDate := 5, LocalDateStart := 0, LocalDateEnd := 0 }
    id := .error (.sentinel (.driver 0))
    user := some exampleUser }

/-- A date-range availability request for product 1 from date 5 to date 9 with the price
capability. -/
def rangeRequest : api.Request api.AvailabilityRequest :=
  { Capability := api.priceText
    body := .ok { ProductID := 1, LocalDate := 0, LocalDateStart := 5, LocalDateEnd := 9 }
    id := .error (.sentinel (.driver 0))
    user := some exampleUser }

/-- A single-date availability request for product 2, which has no row in the example
state, on date 5, without capability header. -/
def missingProductRequest : api.Request api.AvailabilityRequest :=
  { Capability := []
    body := .ok { ProductID := 2, LocalDate := 5, LocalDateStart := 0, LocalDateEnd := 0 }
    id := .error (.sentinel (.driver 0))
    user := some exampleUser }

/-- A create-booking request of the example user for 1 unit of availability 123. -/
def createRequest : api.Request api.BookingRequest :=
  { Capability := []
    body := .ok { ProductID := 1, AvailabilityID := 123, Units := 1 }
    id := .error (.sentinel (.driver 0))
    user := some exampleUser }

/-- A read of booking `id` by the user with id `userID`, without capability header. -/
def getRequest (id userID : Int) : api.Request Unit :=
  { Capability := []
    body := .ok ()
    id := .ok id
    user := some { ID := userID, Email := "" } }

/-- An example row of booking `b` with unit `u`. -/
def exampleRow (b u : Int) : queries.BookingRow :=
  { Booking := { ID := b, ProductID := 1, AvailabilityID := 7, UserID := 9,
                 Status := internal.BookingStatusReserved }
    Unit := { ID := u, BookingID := b, Ticket := { String := "", Valid := false } } }

/-- An example priced row of booking `b` with unit `u` at 100 EUR. -/
def examplePricedRow (b u : Int) : queries.BookingWithPriceRow :=
  { Booking := (exampleRow b u).Booking
    Unit := (exampleRow b u).Unit
    Price := { Price := 100, Currency := "EUR" } }

/-- An example state: product 1 has availability 7 with 5 vacancies; nothing is booked. -/
def exampleDb : Db :=
  { availabilities := [{ ID := 7, ProductID := 1, LocalDate := 0, Vacancies := 5 }]
    bookings := []
    units := []
    bookingSeq := 1
    unitSeq := 1 }

/-- The example state after user 9 has booked 2 units: booking 1 with units 1 and 2. -/
def bookedDb : Db := (storage.Postgres.CreateBooking none exampleDb
  { ProductID := 1, AvailabilityID := 7, Units := 2, UserID := 9 }).2

/-- A transaction boundary without failures. -/
def noTxFaults : storage.TxFaults := { beginTx := none, rollback := none, commit := none }

/-- Statements without failures. -/
def noStmtFaults : storage.StmtFaults :=
  { bookingForUpdate := none, confirmBooking := none, setUnitTicket := fun _ => none }

/-- Statements of which the ticket write of the second row fails. -/
def secondTicketFails : storage.StmtFaults :=
  { bookingForUpdate := none
    confirmBooking := none
    setUnitTicket := fun i => if i = 1 then some (.sentinel (.driver 1)) else none }

/-- An example random source: the tickets drawn are `AAAAAAAAAAAAA`, then `BBBBBBBBBBBBB`. -/
def exampleRand : Nat → String := fun i => if i = 0 then "AAAAAAAAAAAAA" else "BBBBBBBBBBBBB"

/-- The example state after booking 1 has been confirmed. -/
def confirmedDb : Db :=
  (storage.Postgres.ConfirmBooking noTxFaults noStmtFaults exampleRand bookedDb 1 9).db

/-- A request of user 9 for `units` units of availability 7 of product 1. -/
def exampleRequest (units : Int) : internal.CreateBookingRequest :=
  { ProductID := 1, AvailabilityID := 7, Units := units, UserID := 9 }

/-- The same request at the store's interface. -/
def exampleParams (units : Int) : service.CreateBookingParams :=
  { ProductID := 1, AvailabilityID := 7, Units := units, UserID := 9 }

/-- A store of products that fails with a driver error. -/
def failingProductStore (s : Unit) (_ : Int) (_ : internal.CapabilityRequest) :
    Except GoError internal.Product × Unit := (.error (.sentinel (.driver 1)), s)

/-- A store of availabilities and a store of bookings that find nothing, and a store that
confirms every booking. -/
def emptyAvailabilityStore (s : Unit) (_ : Int) (_ : time.Time)
    (_ : internal.CapabilityRequest) : Except GoError internal.Availability × Unit :=
  (.error service.ErrNotFound, s)

def emptyBookingStore (s : Unit) (_ _ : Int) (_ : internal.CapabilityRequest) :
    Except GoError internal.Booking × Unit := (.error service.ErrNotFound, s)

def confirmingStore (s : Unit) (_ _ : Int) : Option GoError × Unit := (none, s)

/-! ## The API-key middleware (`internal/auth`) -/

namespace auth

def ErrNotFound : GoError := .sentinel .authErrNotFound

def StatusUnauthorized : Int := 401

/-- What the middleware leaves on the `http.ResponseWriter`: the text and status code
written by `http.Error`, or whatever the next handler wrote. -/
inductive Written (ρ : Type) where
  | httpError (error : String) (code : Int)
  | served (resp : ρ)

/-- The function `ContextWithUser`, on the context of a request. -/
def ContextWithUser {β : Type} (r : api.Request β) (user : internal.User) : api.Request β :=
  { r with user := some user }

/-- The middleware `CheckUser(db)(next)` over a state `σ` shared by the lookup and the
next handler: `dbUserByAPIKey` is the method `UserByAPIKey` of `db`, `apiKey` the value of
the header `X-API-Key` (empty when the header is absent), and `next` the method
`ServeHTTP` of the next handler, with what it writes as its result. -/
def CheckUser {σ β ρ : Type} (dbUserByAPIKey : σ → String → Except GoError internal.User × σ)
    (next : σ → api.Request β → ρ × σ) (s : σ) (apiKey : String) (r : api.Request β) :
    Written ρ × σ :=
  if apiKey = "" then (.httpError "missing API key" StatusUnauthorized, s)
  else
    match dbUserByAPIKey s apiKey with
    | (.error err, s1) =>
      if errorsIs err .authErrNotFound then (.httpError "invalid API key" StatusUnauthorized, s1)
      else (.httpError err.Error api.StatusInternalServerError, s1)
    | (.ok user, s1) =>
      match next s1 (ContextWithUser r user) with
      | (resp, s2) => (.served resp, s2)

/-- The status code of what the middleware left, when it answered itself. -/
def Written.code {ρ : Type} : Written ρ → Option Int
  | .httpError _ code => some code
  | .served _ => none

end auth

/-- A user store with the single key `secret` of the example user; the key `broken` meets
a failure of the driver. The state counts the lookups. -/
def exampleUserStore (n : Nat) (apiKey : String) : Except GoError internal.User × Nat :=
  if apiKey = "secret" then (.ok exampleUser, n + 1)
  else if apiKey = "broken" then
    (.error (.wrap "get user by api key" (.sentinel (.driver 1))), n + 1)
  else (.error auth.ErrNotFound, n + 1)

/-- A next handler that answers with the user it finds in the request context. -/
def echoUser (n : Nat) (r : api.Request Unit) : (internal.User × Bool) × Nat :=
  (api.ContextUser r, n + 100)

/-! ## Random tickets (`internal/platform/platform.go`) -/

namespace base32

/-- The alphabet of `base32.StdEncoding`. -/
def encodeStd : List Char :=
  ['A', 'B', 'C', 'D', 'E', 'F', 'G', 'H', 'I', 'J', 'K', 'L', 'M', 'N', 'O', 'P',
   'Q', 'R', 'S', 'T', 'U', 'V', 'W', 'X', 'Y', 'Z', '2', '3', '4', '5', '6', '7']

/-- The character of a 5-bit value. -/
def encodeChar (v : Nat) : Char := encodeStd.getD v 'A'

/-- The encoding of one group of at most 5 bytes without padding: the bytes, filled up
with zero bytes, are a number of 40 bits whose base-32 digits are the 8 characters of the
group; a group of 1, 2, 3 or 4 bytes keeps the first 2, 4, 5 or 7 of them. -/
def encodeGroup (src : List UInt8) : List Char :=
  let n := (src.getD 0 0).toNat * 4294967296 + (src.getD 1 0).toNat * 16777216
    + (src.getD 2 0).toNat * 65536 + (src.getD 3 0).toNat * 256 + (src.getD 4 0).toNat
  let count := match src.length with
    | 1 => 2
    | 2 => 4
    | 3 => 5
    | 4 => 7
    | _ => 8
  ([n / 34359738368 % 32, n / 1073741824 % 32, n / 33554432 % 32, n / 1048576 % 32,
    n / 32768 % 32, n / 1024 % 32, n / 32 % 32, n % 32].map encodeChar).take count

/-- The method `EncodeToString` of `base32.StdEncoding.WithPadding(base32.NoPadding)`. -/
def EncodeToString : List UInt8 → List Char
  | [] => []
  | b0 :: b1 :: b2 :: b3 :: b4 :: rest => encodeGroup [b0, b1, b2, b3, b4] ++ EncodeToString rest
  | short => encodeGroup short

end base32

namespace platform

/-- The function `RandString`; `b` is the content of the 8-byte buffer after
`rand.Read`. -/
def RandString (b : List UInt8) : String := String.mk (base32.EncodeToString b)

/-- The unpadded base32 encoding of 8 bytes as RFC 4648 words it: the 64 bits of the
bytes, followed by one zero bit, are cut into 13 groups of 5 bits, and each group is
written as its character of the alphabet. `n` is the number whose 64 binary digits are
the bits of the bytes, so that `2 * n` has the 65 bits. -/
def tokenOfBits (b : List UInt8) : List Char :=
  let n := b.foldl (fun acc x => acc * 256 + x.toNat) 0
  (List.range 13).map fun k => base32.encodeChar (2 * n / 32 ^ (12 - k) % 32)

end platform

/-! ## Decoding of requests (`internal/api/requests.go`) -/

namespace strconv

def ErrSyntax : GoError := .sentinel .strconvErrSyntax

def ErrRange : GoError := .sentinel .strconvErrRange

/-- The two lower-case hexadecimal digits of a byte. -/
def hexByte (n : Nat) : List Char := [Nat.digitChar (n / 16 % 16), Nat.digitChar (n % 16)]

/-- What `strconv.Quote` writes for one character: a backslash before a double quote and
before a backslash; a printable ASCII character as it is; the escapes `\a`, `\b`, `\f`,
`\n`, `\r`, `\t`, `\v` for the control characters that have one and `\x` with two
hexadecimal digits for the others. A character outside ASCII is kept as it is, as Go
keeps the printable ones (the others Go writes as `\u` and `\U` escapes, which are not
modelled). -/
def quoteRune (c : Char) : List Char :=
  if c.toNat = 34 ∨ c.toNat = 92 then [Char.ofNat 92, c]
  else if 32 ≤ c.toNat ∧ c.toNat < 127 then [c]
  else if c.toNat = 7 then [Char.ofNat 92, 'a']
  else if c.toNat = 8 then [Char.ofNat 92, 'b']
  else if c.toNat = 12 then [Char.ofNat 92, 'f']
  else if c.toNat = 10 then [Char.ofNat 92, 'n']
  else if c.toNat = 13 then [Char.ofNat 92, 'r']
  else if c.toNat = 9 then [Char.ofNat 92, 't']
  else if c.toNat = 11 then [Char.ofNat 92, 'v']
  else if c.toNat < 32 ∨ c.toNat = 127 then Char.ofNat 92 :: 'x' :: hexByte c.toNat
  else [c]

/-- The function `strconv.Quote`: the text between double quotes, character by character
as `quoteRune` writes it. -/
def Quote (s : String) : String :=
  String.mk (Char.ofNat 34 :: (s.data.flatMap quoteRune ++ [Char.ofNat 34]))

/-- The error `&NumError{fn, s, err}`, whose text is
`strconv.fn: parsing "s": ` followed by the text of `err`. -/
def NumError (fn s : String) (err : GoError) : GoError :=
  .wrap ("strconv." ++ fn ++ ": parsing " ++ Quote s) err

/-- Whether a character is a decimal digit. -/
def isDigit (c : Char) : Bool := decide (48 ≤ c.toNat) && decide (c.toNat ≤ 57)

/-- The loop of `ParseUint(s, 10, 64)` over the characters still to read, with the value
read so far: a character that is not a digit is a syntax error, and a value above
2^64 - 1 a range error, whichever comes first. -/
def parseUintLoop : List Char → Nat → Except GoError Nat
  | [], n => .ok n
  | c :: cs, n =>
    if isDigit c then
      if 18446744073709551615 < 10 * n + (c.toNat - 48) then .error ErrRange
      else parseUintLoop cs (10 * n + (c.toNat - 48))
    else .error ErrSyntax

/-- The function `ParseUint(s, 10, 64)`, with the bare error of its `NumError`. -/
def ParseUint (s : List Char) : Except GoError Nat :=
  if s = [] then .error ErrSyntax else parseUintLoop s 0

/-- The function `ParseInt(s, 10, 64)`, with the bare error of its `NumError`: an
optional sign, then the digits of `ParseUint`, then the check of the signed range. -/
def ParseInt (s : List Char) : Except GoError Int :=
  match s with
  | [] => .error ErrSyntax
  | c :: cs =>
    let neg := decide (c = '-')
    let digits := if c = '+' ∨ c = '-' then cs else c :: cs
    match ParseUint digits with
    | .error err => .error err
    | .ok un =>
      if !neg && decide (9223372036854775808 ≤ un) then .error ErrRange
      else if neg && decide (9223372036854775808 < un) then .error ErrRange
      else .ok (if neg then -(un : Int) else (un : Int))

/-- The function `strconv.Atoi` on a 64-bit platform. -/
def Atoi (s : String) : Except GoError Int :=
  match ParseInt s.data with
  | .error err => .error (NumError "Atoi" s err)
  | .ok i => .ok i

/-- A base-10 integer as a text: an optional sign followed by one or more decimal
digits. -/
def isInteger (s : String) : Bool :=
  match s.data with
  | [] => false
  | c :: cs =>
    let digits := if c = '+' ∨ c = '-' then cs else c :: cs
    !digits.isEmpty && digits.all isDigit

end strconv

namespace json

/-- A JSON value as `encoding/json` scans it. A number keeps its literal; the content of
an array or an object is not looked at by any decoder of this program. -/
inductive Value where
  | null
  | bool (b : Bool)
  | number (literal : String)
  | string (s : String)
  | array
  | object
  deriving DecidableEq, Repr

/-- An error `*json.UnmarshalTypeError`: a JSON value that does not fit the Go value. -/
def UnmarshalTypeError : GoError := .sentinel (.library 1)

/-- The call `json.Unmarshal(b, &s)` for a Go string `s` that holds the empty text: a
JSON string is stored, `null` is ignored, and any other value is a type error. -/
def UnmarshalString (b : Value) : Except GoError String :=
  match b with
  | .string s => .ok s
  | .null => .ok ""
  | _ => .error UnmarshalTypeError

/-- The call `json.Marshal(s)` for a Go string: the JSON string holding `s`. -/
def MarshalString (s : String) : Except GoError Value := .ok (.string s)

/-- The decoding of a JSON value into a Go `int` that holds `old`: the value after the
decoding and the error saved by the decoder. An integer literal of the 64-bit range is
stored, `null` is ignored, and any other value is a type error that leaves the `int` as
it is. -/
def UnmarshalInt (b : Value) (old : Int) : Int × Option GoError :=
  match b with
  | .number literal =>
    match strconv.ParseInt literal.data with
    | .ok i => (i, none)
    | .error _ => (old, some UnmarshalTypeError)
  | .null => (old, none)
  | _ => (old, some UnmarshalTypeError)

/-- What `json.NewDecoder(r.Body).Decode` finds in the body of a request when it decodes
into a struct whose fields are named by `φ`: no JSON value at all (`err` is `io.EOF` for
an empty body and a `*json.SyntaxError` otherwise), the value `null`, a JSON value that is
neither `null` nor an object (a number, a string, a boolean or an array), or an object,
given by its members whose key names a field of the struct, in their order (a member with
any other key is skipped by the decoder). -/
inductive Body (φ : Type) where
  | invalid (err : GoError)
  | null
  | mismatch
  | object (members : List (φ × Value))

/-- The state of the decoder inside a struct: the struct as decoded so far, and the first
type error saved (`d.savedError`). -/
structure Decoding (β : Type) where
  value : β
  savedError : Option GoError

/-- The loop of the decoder over the members of an object: `field` stores one member; an
error returned by the `UnmarshalJSON` of a field ends the decoding. -/
def objectLoop {φ β : Type} (field : Decoding β → φ × Value → Except GoError (Decoding β)) :
    List (φ × Value) → Decoding β → Except GoError (Decoding β)
  | [], d => .ok d
  | m :: ms, d =>
    match field d m with
    | .error err => .error err
    | .ok d1 => objectLoop field ms d1

/-- The call `json.NewDecoder(r.Body).Decode(&p)` for a pointer `p` to a struct that
holds `zero`: the error returned, or the struct after the call. The value `null` sets
the pointer `p` to nil and leaves the struct as it is; an object is decoded member by
member, and a type error saved on the way is returned at the end. -/
def Decode {φ β : Type} (field : Decoding β → φ × Value → Except GoError (Decoding β))
    (zero : β) (body : Body φ) : Except GoError β :=
  match body with
  | .invalid err => .error err
  | .null => .ok zero
  | .mismatch => .error UnmarshalTypeError
  | .object members =>
    match objectLoop field members { value := zero, savedError := none } with
    | .error err => .error err
    | .ok d =>
      match d.savedError with
      | some err => .error err
      | none => .ok d.value

end json

/-! ## Calendar dates (`time`, `internal/models.go`) -/

namespace time

/-- The number of nanoseconds of a day; the instants of `Time` are counted in
nanoseconds. -/
def nanosecondsPerDay : Int := 86400000000000

/-- The function `isLeap`. -/
def isLeap (year : Int) : Bool :=
  decide (year % 4 = 0) && (decide (year % 100 ≠ 0) || decide (year % 400 = 0))

/-- The table `daysBefore`: entry `m` is the number of days of a non-leap year before
the first day of month `m + 1`. -/
def daysBefore : List Nat := [0, 31, 59, 90, 120, 151, 181, 212, 243, 273, 304, 334, 365]

/-- The function `daysIn`. -/
def daysIn (month : Nat) (year : Int) : Nat :=
  if month = 2 ∧ isLeap year = true then 29
  else daysBefore.getD month 0 - daysBefore.getD (month - 1) 0

/-- The number of days from January 1 of year 1 to January 1 of `year`, in the proleptic
Gregorian calendar. -/
def daysSinceEpoch (year : Int) : Int :=
  365 * (year - 1) + (year - 1) / 4 - (year - 1) / 100 + (year - 1) / 400

/-- The function `time.Date(year, month, day, 0, 0, 0, 0, time.UTC)` for a day of the
month that exists: midnight UTC of the date. -/
def Date (year : Int) (month day : Nat) : Time :=
  (daysSinceEpoch year + (daysBefore.getD (month - 1) 0 : Nat)
    + (if isLeap year = true ∧ 3 ≤ month then 1 else 0) + ((day : Int) - 1)) * nanosecondsPerDay

/-- The month and the day of the month of the day `d` of a year that is not a leap year,
counted from 0. -/
def monthDayCommon (d : Nat) : Nat × Nat :=
  if d < 31 then (1, d + 1)
  else if d < 59 then (2, d - 31 + 1)
  else if d < 90 then (3, d - 59 + 1)
  else if d < 120 then (4, d - 90 + 1)
  else if d < 151 then (5, d - 120 + 1)
  else if d < 181 then (6, d - 151 + 1)
  else if d < 212 then (7, d - 181 + 1)
  else if d < 243 then (8, d - 212 + 1)
  else if d < 273 then (9, d - 243 + 1)
  else if d < 304 then (10, d - 273 + 1)
  else if d < 334 then (11, d - 304 + 1)
  else (12, d - 334 + 1)

/-- The month and the day of the month of the day `yday` of a year, counted from 0: in a
leap year day 59 is February 29, and a later day is the day before it of a common
year. -/
def monthDay (leap : Bool) (yday : Nat) : Nat × Nat :=
  if leap = true ∧ yday = 59 then (2, 29)
  else if leap = true ∧ 59 < yday then monthDayCommon (yday - 1)
  else monthDayCommon yday

/-- The year of the day `days` days after January 1 of year 1, and the day of that year
counted from 0: cycles of 400 years, then of 100 years, then of 4 years, then of 1 year.
The last day of a cycle of 400 years and of a cycle of 4 years gives a count of 4 where
the cycle has 3 whole parts; `n - n / 4` is the correction `n -= n >> 2` that lowers it
to 3. -/
def yearDay (days : Int) : Int × Nat :=
  let n400 := days / 146097
  let d1 := days % 146097
  let n100 := d1 / 36524 - d1 / 36524 / 4
  let d2 := d1 - 36524 * n100
  let n4 := d2 / 1461
  let d3 := d2 - 1461 * n4
  let n1 := d3 / 365 - d3 / 365 / 4
  (400 * n400 + 100 * n100 + 4 * n4 + n1 + 1, (d3 - 365 * n1).toNat)

/-- The method `Time.Date` of an instant in a location whose offset east of UTC is
`offset` seconds: the year, month and day of its calendar date. -/
def Time.Date (offset : Int) (t : Time) : Int × Nat × Nat :=
  let yd := yearDay ((t + offset * 1000000000) / nanosecondsPerDay)
  (yd.1, monthDay (isLeap yd.1) yd.2)

/-- The function `appendInt`: the decimal digits of `x`, filled up with zeros to `width`
digits, after a minus sign when `x` is negative. -/
def appendInt (x : Int) (width : Nat) : List Char :=
  (if x < 0 then ['-'] else [])
    ++ List.replicate (width - (Nat.toDigits 10 x.natAbs).length) '0'
    ++ Nat.toDigits 10 x.natAbs

/-- The method `Time.Format` with the layout `2006-01-02`, for an instant in a location
whose offset east of UTC is `offset` seconds. -/
def Time.Format (offset : Int) (t : Time) : String :=
  let date := Time.Date offset t
  String.mk (appendInt date.1 4 ++ ['-'] ++ appendInt date.2.1 2 ++ ['-']
    ++ appendInt date.2.2 2)

/-- An error `*time.ParseError`. -/
def ParseError : GoError := .sentinel (.library 2)

/-- The number written by decimal digits. -/
def digitsValue (digits : List Char) : Nat :=
  digits.foldl (fun n c => 10 * n + (c.toNat - 48)) 0

/-- The function `time.Parse` with the layout `2006-01-02`: four digits of the year, two
of the month and two of the day, separated by `-`, with nothing before or after; the
month is one of 1 to 12 and the day a day of that month in that year. The result is
midnight UTC of the date. -/
def Parse (value : String) : Except GoError Time :=
  match value.data with
  | [y1, y2, y3, y4, s1, m1, m2, s2, d1, d2] =>
    if [y1, y2, y3, y4, m1, m2, d1, d2].all strconv.isDigit && decide (s1 = '-')
        && decide (s2 = '-') then
      let year : Int := digitsValue [y1, y2, y3, y4]
      let month := digitsValue [m1, m2]
      let day := digitsValue [d1, d2]
      if month < 1 ∨ 12 < month then .error ParseError
      else if day < 1 ∨ daysIn month year < day then .error ParseError
      else .ok (Date year month day)
    else .error ParseError
  | _ => .error ParseError

end time

namespace internal

/-- The method `Date.MarshalJSON`; `offset` is the offset east of UTC, in seconds, of the
location the date carries (0 for the dates this program makes: columns of type `date` and
results of `time.Parse`). -/
def Date.MarshalJSON (offset : Int) (d : Date) : Except GoError json.Value :=
  let formattedDate := time.Time.Format offset d
  json.MarshalString formattedDate

/-- The method `Date.UnmarshalJSON`: the error returned, or the date the receiver holds
afterwards. -/
def Date.UnmarshalJSON (data : json.Value) : Except GoError Date :=
  match json.UnmarshalString data with
  | .error err => .error err
  | .ok dateString =>
    match time.Parse dateString with
    | .error err => .error err
    | .ok parsedDate => .ok parsedDate

end internal

namespace api

/-- The method `IntString.UnmarshalJSON`: the error returned, or the value the receiver
holds afterwards. -/
def IntString.UnmarshalJSON (b : json.Value) : Except GoError Int :=
  match json.UnmarshalString b with
  | .error err => .error err
  | .ok s =>
    match strconv.Atoi s with
    | .error err => .error err
    | .ok id => .ok id

/-- The method `IntString.MarshalJSON`. -/
def IntString.MarshalJSON (i : Int) : Except GoError json.Value :=
  let s := storage.Itoa i
  json.MarshalString s

/-- The method `IDPathValue.UnmarshalHTTP`; `idStr` is `r.PathValue("id")`. -/
def IDPathValue.UnmarshalHTTP (idStr : String) : Except GoError Int :=
  match strconv.Atoi idStr with
  | .error err => .error err
  | .ok id => .ok id

/-- The fields of `BookingRequest`, by their JSON names. -/
inductive BookingField where
  | productId
  | availabilityId
  | units
  deriving DecidableEq, Repr

/-- The fields of `AvailabilityRequest`, by their JSON names. -/
inductive AvailabilityField where
  | productId
  | localDate
  | localDateStart
  | localDateEnd
  deriving DecidableEq, Repr

/-- The decoding of one member of the body into its field of `BookingRequest`. -/
def BookingRequest.field (d : json.Decoding BookingRequest) (m : BookingField × json.Value) :
    Except GoError (json.Decoding BookingRequest) :=
  match m.1 with
  | .productId =>
    match IntString.UnmarshalJSON m.2 with
    | .error err => .error err
    | .ok i => .ok { d with value := { d.value with ProductID := i } }
  | .availabilityId =>
    match IntString.UnmarshalJSON m.2 with
    | .error err => .error err
    | .ok i => .ok { d with value := { d.value with AvailabilityID := i } }
  | .units =>
    match json.UnmarshalInt m.2 d.value.Units with
    | (units, none) => .ok { d with value := { d.value with Units := units } }
    | (units, some err) =>
      .ok { value := { d.value with Units := units }
            savedError := match d.savedError with
              | some first => some first
              | none => some err }

/-- The method `BookingRequest.UnmarshalHTTP`, on the body of the request. -/
def BookingRequest.UnmarshalHTTP (body : json.Body BookingField) :
    Except GoError BookingRequest :=
  json.Decode BookingRequest.field { ProductID := 0, AvailabilityID := 0, Units := 0 } body

/-- The decoding of one member of the body into its field of `AvailabilityRequest`. -/
def AvailabilityRequest.field (d : json.Decoding AvailabilityRequest)
    (m : AvailabilityField × json.Value) : Except GoError (json.Decoding AvailabilityRequest) :=
  match m.1 with
  | .productId =>
    match IntString.UnmarshalJSON m.2 with
    | .error err => .error err
    | .ok i => .ok { d with value := { d.value with ProductID := i } }
  | .localDate =>
    match internal.Date.UnmarshalJSON m.2 with
    | .error err => .error err
    | .ok date => .ok { d with value := { d.value with LocalDate := date } }
  | .localDateStart =>
    match internal.Date.UnmarshalJSON m.2 with
    | .error err => .error err
    | .ok date => .ok { d with value := { d.value with LocalDateStart := date } }
  | .localDateEnd =>
    match internal.Date.UnmarshalJSON m.2 with
    | .error err => .error err
    | .ok date => .ok { d with value := { d.value with LocalDateEnd := date } }

/-- The method `AvailabilityRequest.UnmarshalHTTP`, on the body of the request. -/
def AvailabilityRequest.UnmarshalHTTP (body : json.Body AvailabilityField) :
    Except GoError AvailabilityRequest :=
  json.Decode AvailabilityRequest.field
    { ProductID := 0, LocalDate := 0, LocalDateStart := 0, LocalDateEnd := 0 } body

/-- The handler `API.Products`. -/
def API.Products {σ β : Type} (a : Service σ) (s : σ) (r : Request β) : Response × σ :=
  match CapabilityRequest.UnmarshalHTTP r with
  | (some err, _) => (writeError err.Error StatusBadRequest [err.Error], s)
  | (none, capability) =>
    match a.Products s capability with
    | (.error err, s1) =>
      (writeError "failed to get products" StatusInternalServerError [err.Error], s1)
    | (.ok products, s1) => (writeJSON StatusOK (.products products), s1)

/-- The handler `API.Product`. -/
def API.Product {σ β : Type} (a : Service σ) (s : σ) (r : Request β) : Response × σ :=
  match CapabilityRequest.UnmarshalHTTP r with
  | (some err, _) =>
    (writeError "failed to decode capability" StatusBadRequest [err.Error], s)
  | (none, capability) =>
    match r.id with
    | .error err => (writeError "invalid product ID" StatusBadRequest [err.Error], s)
    | .ok id =>
      match a.Product s id capability with
      | (.error err, s1) =>
        if errorsIs err .internalErrNotFound then
          (writeError "product not found" StatusNotFound [], s1)
        else (writeError "failed to get product" StatusInternalServerError [err.Error], s1)
      | (.ok product, s1) => (writeJSON StatusOK (.product product), s1)

/-- The handler `API.ConfirmBooking`. -/
def API.ConfirmBooking {σ β : Type} (a : Service σ) (s : σ) (r : Request β) : Response × σ :=
  match CapabilityRequest.UnmarshalHTTP r with
  | (some err, _) =>
    (writeError "failed to decode capability" StatusBadRequest [err.Error], s)
  | (none, capability) =>
    match r.id with
    | .error err => (writeError "invalid booking ID" StatusBadRequest [err.Error], s)
    | .ok id =>
      let user := (ContextUser r).1
      match a.ConfirmBooking s id user.ID with
      | (some err, s1) =>
        if errorsIs err .internalErrNotFound then
          (writeError "booking not found" StatusNotFound [], s1)
        else (writeError "failed to confirm booking" StatusInternalServerError [err.Error], s1)
      | (none, s1) => API.booking a s1 id user.ID capability

end api

/-- A JSON string holding a base-10 integer. -/
def json.isIntegerString (v : json.Value) : Bool :=
  match v with
  | .string s => strconv.isInteger s
  | _ => false

/-- A text of the form `YYYY-MM-DD`: four digits, two digits and two digits, separated by
`-`. -/
def time.isDateFormat (s : String) : Bool :=
  match s.data with
  | [y1, y2, y3, y4, s1, m1, m2, s2, d1, d2] =>
    [y1, y2, y3, y4, m1, m2, d1, d2].all strconv.isDigit && decide (s1 = '-')
      && decide (s2 = '-')
  | _ => false

/-- A JSON string of the form `YYYY-MM-DD`. -/
def json.isDateString (v : json.Value) : Bool :=
  match v with
  | .string s => time.isDateFormat s
  | _ => false

/-- A request with the path value `idStr` for `id`, no `Capability` header and no body, by
the example user. -/
def pathRequest (idStr : String) : api.Request Unit :=
  { Capability := []
    body := .ok ()
    id := api.IDPathValue.UnmarshalHTTP idStr
    user := some exampleUser }

/-- A create-booking request of the example user with the given body. -/
def bookingBodyRequest (body : json.Body api.BookingField) : api.Request api.BookingRequest :=
  { Capability := []
    body := api.BookingRequest.UnmarshalHTTP body
    id := api.IDPathValue.UnmarshalHTTP ""
    user := some exampleUser }

/-- An availability request of the example user with the given body. -/
def availabilityBodyRequest (body : json.Body api.AvailabilityField) :
    api.Request api.AvailabilityRequest :=
  { Capability := []
    body := api.AvailabilityRequest.UnmarshalHTTP body
    id := api.IDPathValue.UnmarshalHTTP ""
    user := some exampleUser }

/-- A member of a create-booking body that its field accepts: a JSON string holding an
integer of the 64-bit range for `productId` and `availabilityId`, an integer literal of
that range or `null` for `units`. -/
def api.BookingRequest.accepts (m : api.BookingField × json.Value) : Bool :=
  match m.1 with
  | .units => (json.UnmarshalInt m.2 0).2.isNone
  | _ =>
    match api.IntString.UnmarshalJSON m.2 with
    | .ok _ => true
    | .error _ => false

/-- A member of an availability body that its field accepts: a JSON string holding an
integer for `productId`, a JSON string holding a date for the three dates. -/
def api.AvailabilityRequest.accepts (m : api.AvailabilityField × json.Value) : Bool :=
  match m.1 with
  | .productId =>
    match api.IntString.UnmarshalJSON m.2 with
    | .ok _ => true
    | .error _ => false
  | _ =>
    match internal.Date.UnmarshalJSON m.2 with
    | .ok _ => true
    | .error _ => false

/-- Example statements all of which find a row: the two products of the example, an
availability of product 1 with 5 vacancies on every date, and the price 100 EUR. -/
def stockedReads : queries.Reads :=
  { exampleReads with
    Product := fun id => .ok { ID := id, Name := "one", Capacity := 10 }
    ProductWithPrice := fun id =>
      .ok { Product := { ID := id, Name := "one", Capacity := 10 },
            Price := { Price := 100, Currency := "EUR" } }
    Avalability := fun arg =>
      .ok { ID := 7, ProductID := arg.ProductID, LocalDate := arg.LocalDate, Vacancies := 5 }
    AvalabilityWithPrice := fun arg =>
      .ok { Availability :=
              { ID := 7, ProductID := arg.ProductID, LocalDate := arg.LocalDate,
                Vacancies := 5 },
            Price := { Price := 100, Currency := "EUR" } }
    AvalabilityRange := fun arg =>
      .ok [{ ID := 7, ProductID := arg.ProductID, LocalDate := arg.LocalDateStart,
             Vacancies := 5 }]
    AvalabilityWithPriceRange := fun arg =>
      .ok [{ Availability :=
               { ID := 7, ProductID := arg.ProductID, LocalDate := arg.LocalDateStart,
                 Vacancies := 5 },
             Price := { Price := 100, Currency := "EUR" } }] }

/-! ## Properties -/

open storage


/-! ### Reservation -/

/-- No row is reservable when every row the statement names has too few vacancies. -/
theorem createBooking_any_false (db : Db) (q : queries.CreateBookingParams)
    (h : ∀ a ∈ db.availabilities, a.ID = q.AvailabilityID → a.Vacancies < q.Units) :
    db.availabilities.any (queries.Queries.reservable q) = false := by
  rw [List.any_eq_false]
  intro a ha hr
  simp only [queries.Queries.reservable, Bool.and_eq_true, decide_eq_true_eq] at hr
  have := h a ha hr.1.1
  omega

/-- Claim C1, as amended: when every availability row that the request names (the row
whose id is the request's availability id narrowed to 32 bits) has fewer vacancies than
the request's units as the store receives them, `int32(units)`, then
`Postgres.CreateBooking` reports exactly `service.ErrNotAvailable` with id 0 and
leaves the whole state as it was: no booking row, no unit row, vacancies unchanged.
For units within the signed 32-bit range `int32(units)` is the requested number. -/
theorem createBooking_not_available (db : Db) (params : service.CreateBookingParams)
    (hrow : ∀ a ∈ db.availabilities, a.ID = int32 params.AvailabilityID →
      a.Vacancies < int32 params.Units) :
    Postgres.CreateBooking none db params = ((0, some service.ErrNotAvailable), db) := by
  have h := createBooking_any_false db
    { ProductID := int32 params.ProductID, AvailabilityID := int32 params.AvailabilityID,
      Units := int32 params.Units, UserID := int32 params.UserID } hrow
  simp [Postgres.CreateBooking, queries.Queries.CreateBooking, h, errorsIs]

/-- Witness of C1 on the example state: 6 units are asked of 5 vacancies. -/
theorem createBooking_not_available_witness :
    (∀ a ∈ exampleDb.availabilities, a.ID = int32 (exampleParams 6).AvailabilityID →
      a.Vacancies < int32 (exampleParams 6).Units) ∧
    Postgres.CreateBooking none exampleDb (exampleParams 6)
      = ((0, some service.ErrNotAvailable), exampleDb) :=
  ⟨by decide, createBooking_not_available exampleDb (exampleParams 6) (by decide)⟩

/-- Counterexample to C1 as stated: availability 7 has 5 vacancies and the request asks
for 2^32 + 1 units, more than 5, yet the call succeeds with booking id 1, writes one
booking row and one unit row, and leaves 4 vacancies. -/
theorem createBooking_not_available_counterexample :
    vacanciesOf exampleDb 7 = some 5 ∧
    (5 : Int) < (exampleParams 4294967297).Units ∧
    (Postgres.CreateBooking none exampleDb (exampleParams 4294967297)).1 = (1, none) ∧
    vacanciesOf (Postgres.CreateBooking none exampleDb (exampleParams 4294967297)).2 7
      = some 4 ∧
    (Postgres.CreateBooking none exampleDb (exampleParams 4294967297)).2.bookings.length = 1 ∧
    (Postgres.CreateBooking none exampleDb (exampleParams 4294967297)).2.units.length = 1 := by
  decide

/-- The store's create step on the availability `aid`: ids of the availability rows are
kept, and either the call succeeds and the vacancies drop by the stored units, or it
fails and the state is unchanged. -/
theorem createBooking_step (fault : Option GoError) (db : Db)
    (params : service.CreateBookingParams) (aid v : Int)
    (hkey : (db.availabilities.map fun a => a.ID).Nodup)
    (hv : vacanciesOf db aid = some v)
    (htarget : int32 params.AvailabilityID = aid) :
    ((Postgres.CreateBooking fault db params).2.availabilities.map fun a => a.ID)
        = (db.availabilities.map fun a => a.ID) ∧
    (((Postgres.CreateBooking fault db params).1.2 = none ∧ int32 params.Units ≤ v ∧
        vacanciesOf (Postgres.CreateBooking fault db params).2 aid
          = some (v - int32 params.Units)) ∨
      ((Postgres.CreateBooking fault db params).1.2 ≠ none ∧
        (Postgres.CreateBooking fault db params).2 = db)) := by
  cases fault with
  | some e =>
    refine ⟨?_, Or.inr ?_⟩ <;>
      simp only [Postgres.CreateBooking, queries.Queries.CreateBooking] <;> split_ifs <;> simp
  | none =>
    simp only [vacanciesOf, Option.map_eq_some'] at hv
    obtain ⟨a, hfind, hav⟩ := hv
    have hmem : a ∈ db.availabilities := List.mem_of_find?_eq_some hfind
    have haid : a.ID = aid := by simpa using List.find?_some hfind
    by_cases hany : db.availabilities.any (queries.Queries.reservable
        { ProductID := int32 params.ProductID, AvailabilityID := int32 params.AvailabilityID,
          Units := int32 params.Units, UserID := int32 params.UserID }) = true
    · -- the reservable row is `a`
      obtain ⟨b, hb, hres⟩ := List.any_eq_true.1 hany
      have hres' := hres
      simp only [queries.Queries.reservable, Bool.and_eq_true, decide_eq_true_eq] at hres'
      have hba : b = a := by
        apply List.inj_on_of_nodup_map hkey hb hmem
        rw [hres'.1.1, htarget, haid]
      subst hba
      simp only [Postgres.CreateBooking, queries.Queries.CreateBooking, hany, if_true]
      refine ⟨?_, Or.inl ⟨trivial, by omega, ?_⟩⟩
      · simp only [List.map_map]
        apply List.map_congr_left
        intro x _
        simp only [Function.comp]
        split_ifs <;> rfl
      · simp only [vacanciesOf]
        rw [List.find?_map]
        have hcomp : ((fun a : queries.Availability => decide (a.ID = aid)) ∘
            fun a => if queries.Queries.reservable
              { ProductID := int32 params.ProductID, AvailabilityID := int32 params.AvailabilityID,
                Units := int32 params.Units, UserID := int32 params.UserID } a = true
              then { a with Vacancies := a.Vacancies - int32 params.Units } else a)
            = fun a : queries.Availability => decide (a.ID = aid) := by
          funext x
          simp only [Function.comp]
          split_ifs <;> rfl
        rw [hcomp, hfind]
        simp [hres, hav]
    · simp only [Bool.not_eq_true] at hany
      refine ⟨?_, Or.inr ?_⟩ <;>
        simp [Postgres.CreateBooking, queries.Queries.CreateBooking, hany, errorsIs]


/-- The service's `CreateBooking` over the store leaves the store's state and succeeds
exactly when the store does. -/
theorem service_createBooking_state (fault : Option GoError) (db : Db)
    (req : internal.CreateBookingRequest) :
    (service.Service.CreateBooking (Postgres.CreateBooking fault) db req).2
        = (Postgres.CreateBooking fault db
            { ProductID := req.ProductID, AvailabilityID := req.AvailabilityID,
              Units := req.Units, UserID := req.UserID }).2 ∧
    ((service.Service.CreateBooking (Postgres.CreateBooking fault) db req).1.2 = none ↔
      (Postgres.CreateBooking fault db
        { ProductID := req.ProductID, AvailabilityID := req.AvailabilityID,
          Units := req.Units, UserID := req.UserID }).1.2 = none) := by
  simp only [service.Service.CreateBooking]
  split
  · next id err s1 heq => rw [heq]; split_ifs <;> simp
  · next id s1 heq => rw [heq]; simp

/-- Claim C2, as amended: for every availability (its id a primary key) with `v`
vacancies and every sequence of `createBooking` calls against it, the vacancies after
the calls are `v` minus the sum of the units of the calls that succeeded, each taken as
the store received it, `int32(units)`; and when `v` is not negative the vacancies after
the calls are not negative. -/
theorem createBooking_conservation (db : Db) (aid v : Int)
    (calls : List (Option GoError × internal.CreateBookingRequest))
    (hkey : (db.availabilities.map fun a => a.ID).Nodup)
    (hv : vacanciesOf db aid = some v)
    (hcalls : ∀ c ∈ calls, int32 c.2.AvailabilityID = aid) :
    vacanciesOf (runBookings db calls).2 aid
        = some (v - storedUnits (succeeded calls (runBookings db calls).1)) ∧
    (0 ≤ v → 0 ≤ v - storedUnits (succeeded calls (runBookings db calls).1)) := by
  induction calls generalizing db v with
  | nil => simp [runBookings, succeeded, storedUnits, hv]
  | cons c rest ih =>
    obtain ⟨fault, req⟩ := c
    have htarget : int32 req.AvailabilityID = aid := hcalls (fault, req) (List.mem_cons_self _ _)
    have hrest : ∀ c ∈ rest, int32 c.2.AvailabilityID = aid :=
      fun c hc => hcalls c (List.mem_cons_of_mem _ hc)
    obtain ⟨hst, hiff⟩ := service_createBooking_state fault db req
    obtain ⟨hids, hstep⟩ := createBooking_step fault db
      { ProductID := req.ProductID, AvailabilityID := req.AvailabilityID,
        Units := req.Units, UserID := req.UserID } aid v hkey hv htarget
    simp only [runBookings]
    rw [hst]
    rcases hstep with ⟨hok, hle, hvac⟩ | ⟨hfail, hsame⟩
    · have hok' := hiff.2 hok
      have hle' : int32 req.Units ≤ v := hle
      obtain ⟨ih1, ih2⟩ := ih _ (v - int32 req.Units) (hids ▸ hkey) hvac hrest
      have hsucc : succeeded ((fault, req) :: rest)
          ((service.Service.CreateBooking (Postgres.CreateBooking fault) db req).1 ::
            (runBookings (Postgres.CreateBooking fault db
              { ProductID := req.ProductID, AvailabilityID := req.AvailabilityID,
                Units := req.Units, UserID := req.UserID }).2 rest).1)
          = req :: succeeded rest (runBookings (Postgres.CreateBooking fault db
              { ProductID := req.ProductID, AvailabilityID := req.AvailabilityID,
                Units := req.Units, UserID := req.UserID }).2 rest).1 := by
        generalize (service.Service.CreateBooking (Postgres.CreateBooking fault) db req).1 = r at hok'
        obtain ⟨id, e⟩ := r
        simp only at hok'
        subst hok'
        rfl
      rw [hsucc]
      simp only [storedUnits, List.map_cons, List.sum_cons] at ih1 ih2 ⊢
      refine ⟨by rw [ih1]; congr 1; ring, fun h0 => ?_⟩
      have := ih2 (by omega)
      omega
    · have hfail' : (service.Service.CreateBooking (Postgres.CreateBooking fault) db req).1.2 ≠ none :=
        fun h => hfail (hiff.1 h)
      rw [hsame]
      obtain ⟨ih1, ih2⟩ := ih db v hkey hv hrest
      have hsucc : succeeded ((fault, req) :: rest)
          ((service.Service.CreateBooking (Postgres.CreateBooking fault) db req).1 ::
            (runBookings db rest).1)
          = succeeded rest (runBookings db rest).1 := by
        generalize (service.Service.CreateBooking (Postgres.CreateBooking fault) db req).1 = r at hfail'
        obtain ⟨id, e⟩ := r
        cases e with
        | none => exact absurd rfl hfail'
        | some e => rfl
      rw [hsucc]
      exact ⟨ih1, ih2⟩

/-- Witness of C2, the scenario of the specification: 5 vacancies and requests for 3, 3
and 2 units give success (2 vacancies left), NotAvailable (still 2), success (0 left,
status SOLD_OUT). -/
theorem createBooking_conservation_witness :
    (runBookings exampleDb
        [(none, exampleRequest 3), (none, exampleRequest 3), (none, exampleRequest 2)]).1
      = [(1, none), (0, some internal.ErrNotAvailable), (2, none)] ∧
    vacanciesOf (runBookings exampleDb [(none, exampleRequest 3)]).2 7 = some 2 ∧
    vacanciesOf (runBookings exampleDb
        [(none, exampleRequest 3), (none, exampleRequest 3)]).2 7 = some 2 ∧
    vacanciesOf (runBookings exampleDb
        [(none, exampleRequest 3), (none, exampleRequest 3), (none, exampleRequest 2)]).2 7
      = some (5 - storedUnits [exampleRequest 3, exampleRequest 2]) ∧
    (5 : Int) - storedUnits [exampleRequest 3, exampleRequest 2] = 0 ∧
    toAvailabilityStatus 0 = internal.AvailabilityStatusSoldOut :=
  ⟨by decide, by decide, by decide,
    (createBooking_conservation exampleDb 7 5
      [(none, exampleRequest 3), (none, exampleRequest 3), (none, exampleRequest 2)]
      (by decide) (by decide) (by decide)).1,
    by decide, by decide⟩

/-- Counterexample to C2 as stated: one call for 2^32 + 1 units against 5 vacancies
succeeds and leaves 4 vacancies, which is not 5 minus the units of that call. -/
theorem createBooking_conservation_counterexample :
    vacanciesOf exampleDb 7 = some 5 ∧
    (runBookings exampleDb [(none, exampleRequest 4294967297)]).1 = [(1, none)] ∧
    vacanciesOf (runBookings exampleDb [(none, exampleRequest 4294967297)]).2 7 = some 4 ∧
    vacanciesOf (runBookings exampleDb [(none, exampleRequest 4294967297)]).2 7
      ≠ some (5 - requestedUnits (succeeded [(none, exampleRequest 4294967297)]
          (runBookings exampleDb [(none, exampleRequest 4294967297)]).1)) := by
  decide


/-! ### Read projections -/

/-- The loop body of `toBookings` is the shared loop body at its accumulator. -/
theorem toBookings_step_eq : @toBookings.step = GoMap.collectStep (fun r => r.Booking.ID) (fun r => toBooking r.Booking)
    (fun b r => { b with Units := b.Units ++ [.base (toUnit r.Unit)] }) := by
  funext m r
  simp only [toBookings.step, GoMap.collectStep]
  cases m.get? r.Booking.ID <;> dsimp only <;>
    (generalize GoMap.get? _ _ = x; cases x <;> rfl)

/-- The first rows after one more row. -/
theorem firstRows_snoc {R : Type} (key : R → Int) (pre : List R) (r : R) :
    firstRows key (pre ++ [r]) =
      if (firstRows key pre).any (fun r0 => decide (key r0 = key r)) then firstRows key pre
      else firstRows key pre ++ [r] := by
  simp [firstRows, List.foldl_append]

/-- Every first row is one of the rows. -/
theorem firstRows_sub {R : Type} (key : R → Int) (rows : List R) :
    ∀ r0 ∈ firstRows key rows, r0 ∈ rows := by
  induction rows using List.reverseRecOn with
  | nil => simp [firstRows]
  | append_singleton pre r ih =>
    intro r0 h0
    rw [firstRows_snoc] at h0
    split_ifs at h0 with h
    · exact List.mem_append_left _ (ih r0 h0)
    · rcases List.mem_append.1 h0 with h1 | h1
      · exact List.mem_append_left _ (ih r0 h1)
      · exact List.mem_append_right _ h1

/-- The keys of the first rows are the keys of the rows. -/
theorem firstRows_key_mem {R : Type} (key : R → Int) (rows : List R) (k : Int) :
    (∃ r0 ∈ firstRows key rows, key r0 = k) ↔ ∃ r ∈ rows, key r = k := by
  induction rows using List.reverseRecOn generalizing k with
  | nil => simp [firstRows]
  | append_singleton pre r ih =>
    rw [firstRows_snoc]
    split_ifs with h
    · constructor
      · rintro ⟨x, hx, hk⟩
        obtain ⟨z, hz, hzk⟩ := (ih k).1 ⟨x, hx, hk⟩
        exact ⟨z, List.mem_append_left _ hz, hzk⟩
      · rintro ⟨x, hx, hk⟩
        rcases List.mem_append.1 hx with h1 | h1
        · exact (ih k).2 ⟨x, h1, hk⟩
        · have hxr : x = r := by simpa using h1
          subst hxr
          obtain ⟨y, hy, hyk⟩ := List.any_eq_true.1 h
          have hyk' : key y = key x := by simpa using hyk
          exact ⟨y, hy, hyk'.trans hk⟩
    · constructor
      · rintro ⟨x, hx, hk⟩
        rcases List.mem_append.1 hx with h1 | h1
        · obtain ⟨z, hz, hzk⟩ := (ih k).1 ⟨x, h1, hk⟩
          exact ⟨z, List.mem_append_left _ hz, hzk⟩
        · exact ⟨x, List.mem_append_right _ h1, hk⟩
      · rintro ⟨x, hx, hk⟩
        rcases List.mem_append.1 hx with h1 | h1
        · obtain ⟨z, hz, hzk⟩ := (ih k).2 ⟨x, h1, hk⟩
          exact ⟨z, List.mem_append_left _ hz, hzk⟩
        · exact ⟨x, List.mem_append_right _ h1, hk⟩

/-- The first rows carry distinct keys. -/
theorem firstRows_nodup {R : Type} (key : R → Int) (rows : List R) :
    ((firstRows key rows).map key).Nodup := by
  induction rows using List.reverseRecOn with
  | nil => simp [firstRows]
  | append_singleton pre r ih =>
    rw [firstRows_snoc]
    split_ifs with h
    · exact ih
    · rw [List.map_append, List.nodup_append]
      refine ⟨ih, by simp, ?_⟩
      intro a ha hb
      simp only [List.map_cons, List.map_nil, List.mem_singleton] at hb
      subst hb
      apply h
      obtain ⟨x, hx, hxk⟩ := List.mem_map.1 ha
      exact List.any_eq_true.2 ⟨x, hx, by simpa using hxk⟩


/-- In a map with distinct keys the lookup of an entry's key finds that entry. -/
theorem GoMap.find?_of_mem {V : Type} (m : GoMap V) (hm : (m.map Prod.fst).Nodup)
    (e : Int × V) (he : e ∈ m) : m.find? (fun x => decide (x.1 = e.1)) = some e := by
  induction m with
  | nil => cases he
  | cons x xs ih =>
    rw [List.map_cons, List.nodup_cons] at hm
    rcases List.mem_cons.1 he with h | h
    · subst h; simp
    · have hne : x.1 ≠ e.1 := by
        intro hx
        exact hm.1 (hx ▸ List.mem_map_of_mem Prod.fst h)
      rw [List.find?_cons_of_neg _ (by simpa using hne)]
      exact ih hm.2 h

/-- The lookup of a key that no entry carries finds nothing. -/
theorem GoMap.get?_eq_none {V : Type} (m : GoMap V) (k : Int)
    (hk : ∀ e ∈ m, e.1 ≠ k) : m.get? k = none := by
  simp only [GoMap.get?, Option.map_eq_none', List.find?_eq_none]
  intro e he
  simpa using hk e he

/-- One pass of the loop body over a map with distinct keys whose key is present: the
entry of the key is updated in place. -/
theorem GoMap.collectStep_present {R V : Type} (key : R → Int) (init : R → V)
    (upd : V → R → V) (m : GoMap V) (r : R) (hm : (m.map Prod.fst).Nodup)
    (hk : ∃ e ∈ m, e.1 = key r) :
    GoMap.collectStep key init upd m r
      = m.map fun e => if e.1 = key r then (e.1, upd e.2 r) else e := by
  obtain ⟨e, he, hek⟩ := hk
  have hfind := GoMap.find?_of_mem m hm e he
  rw [hek] at hfind
  have hget : m.get? (key r) = some e.2 := by simp [GoMap.get?, hfind]
  have hany : m.any (fun x => decide (x.1 = key r)) = true :=
    List.any_eq_true.2 ⟨e, he, by simpa using hek⟩
  simp only [GoMap.collectStep, hget, GoMap.set, hany, if_true]
  apply List.map_congr_left
  intro x hx
  by_cases hxk : x.1 = key r
  · have hx' := GoMap.find?_of_mem m hm x hx
    rw [hxk, hfind] at hx'
    have : e = x := by simpa using hx'
    subst this
    simp [hxk]
  · simp [hxk]

/-- One pass of the loop body when the key is absent: a new entry is appended. -/
theorem GoMap.collectStep_absent {R V : Type} (key : R → Int) (init : R → V)
    (upd : V → R → V) (m : GoMap V) (r : R) (hk : ∀ e ∈ m, e.1 ≠ key r) :
    GoMap.collectStep key init upd m r = m ++ [(key r, upd (init r) r)] := by
  have hget : m.get? (key r) = none := GoMap.get?_eq_none m (key r) hk
  have hany : m.any (fun x => decide (x.1 = key r)) = false := by
    rw [List.any_eq_false]
    intro x hx
    simpa using hk x hx
  have hfind : (m ++ [(key r, init r)]).find? (fun x => decide (x.1 = key r))
      = some (key r, init r) := by
    rw [List.find?_append]
    have : m.find? (fun x => decide (x.1 = key r)) = none := by
      rw [List.find?_eq_none]; intro x hx; simpa using hk x hx
    simp [this]
  have hany2 : (m ++ [(key r, init r)]).any (fun x => decide (x.1 = key r)) = true := by
    simp
  have hset : m.set (key r) (init r) = m ++ [(key r, init r)] := by simp [GoMap.set, hany]
  have hget2 : (m.set (key r) (init r)).get? (key r) = some (init r) := by
    rw [hset]; simp [GoMap.get?, hfind]
  simp only [GoMap.collectStep, hget, hget2]
  rw [hset]
  simp only [GoMap.set, hany2, if_true, List.map_append, List.map_cons, List.map_nil]
  have hmap : m.map (fun e => if e.1 = key r then (key r, upd (init r) r) else e) = m :=
    (List.map_congr_left fun x hx => by simp [hk x hx]).trans (List.map_id m)
  rw [hmap]

/-- The map after the first loop, in closed form: one entry per first row of a key, in
first-seen order, holding the fold of the update over the rows of that key. -/
theorem GoMap.collect_eq {R V : Type} (key : R → Int) (init : R → V) (upd : V → R → V)
    (rows : List R) :
    rows.foldl (GoMap.collectStep key init upd) []
      = (firstRows key rows).map fun r0 =>
          (key r0, (rows.filter fun r => decide (key r = key r0)).foldl upd (init r0)) := by
  induction rows using List.reverseRecOn with
  | nil => simp [firstRows]
  | append_singleton pre r ih =>
    rw [List.foldl_append, List.foldl_cons, List.foldl_nil, ih, firstRows_snoc]
    have hnodup : (((firstRows key pre).map fun r0 =>
        (key r0, (pre.filter fun r => decide (key r = key r0)).foldl upd (init r0))).map
          Prod.fst).Nodup := by
      rw [List.map_map]
      exact firstRows_nodup key pre
    split_ifs with h
    · obtain ⟨y, hy, hyk⟩ := List.any_eq_true.1 h
      have hyk' : key y = key r := by simpa using hyk
      rw [GoMap.collectStep_present key init upd _ r hnodup
        ⟨_, List.mem_map_of_mem _ hy, hyk'⟩, List.map_map]
      apply List.map_congr_left
      intro x _
      by_cases hx : key x = key r
      · simp [hx, List.filter_append, List.foldl_append]
      · have hx' : ¬ key r = key x := fun h' => hx h'.symm
        simp [hx, hx', List.filter_append]
    · have habs : ∀ e ∈ (firstRows key pre).map (fun r0 =>
          (key r0, (pre.filter fun r => decide (key r = key r0)).foldl upd (init r0))),
          e.1 ≠ key r := by
        intro e he hek
        obtain ⟨x, hx, rfl⟩ := List.mem_map.1 he
        exact h (List.any_eq_true.2 ⟨x, hx, by simpa using hek⟩)
      rw [GoMap.collectStep_absent key init upd _ r habs, List.map_append]
      have hpre : pre.filter (fun x => decide (key x = key r)) = [] := by
        rw [List.filter_eq_nil_iff]
        intro x hx hxk
        have hxk' : key x = key r := by simpa using hxk
        obtain ⟨z, hz, hzk⟩ := (firstRows_key_mem key pre (key r)).2 ⟨x, hx, hxk'⟩
        exact h (List.any_eq_true.2 ⟨z, hz, by simpa using hzk⟩)
      congr 1
      · apply List.map_congr_left
        intro x hx
        have hxr : ¬ key r = key x := by
          intro h'
          exact h (List.any_eq_true.2 ⟨x, hx, by simpa using h'.symm⟩)
        simp [List.filter_append, hxr]
      · simp [List.filter_append, hpre]


/-- The loop body of `toBookingsWithPrice` is the shared loop body at its accumulator. -/
theorem toBookingsWithPrice_step_eq : @toBookingsWithPrice.step
    = GoMap.collectStep (fun r => r.Booking.ID)
        (fun r => { BookingBase := toBooking r.Booking,
                    CapabilityPrice := { Price := 0, Currency := "" } })
        (fun b r =>
          { BookingBase :=
              { b.BookingBase with
                Units := b.BookingBase.Units ++ [.withPrice (toUnitWithPrice r.Unit r.Price)] }
            CapabilityPrice :=
              { Price := b.CapabilityPrice.Price + r.Price.Price, Currency := r.Price.Currency } }) := by
  funext m r
  simp only [toBookingsWithPrice.step, GoMap.collectStep]
  cases m.get? r.Booking.ID <;> dsimp only <;>
    (generalize GoMap.get? _ _ = x; cases x <;> rfl)

/-- Each first row is the first row of its key. -/
theorem firstRows_find {R : Type} (key : R → Int) (rows : List R) :
    ∀ r0 ∈ firstRows key rows, rows.find? (fun r => decide (key r = key r0)) = some r0 := by
  induction rows using List.reverseRecOn with
  | nil => simp [firstRows]
  | append_singleton pre r ih =>
    intro r0 h0
    rw [firstRows_snoc] at h0
    rw [List.find?_append]
    split_ifs at h0 with h
    · simp [ih r0 h0]
    · rcases List.mem_append.1 h0 with h1 | h1
      · simp [ih r0 h1]
      · have hr : r0 = r := by simpa using h1
        subst hr
        have : pre.find? (fun x => decide (key x = key r0)) = none := by
          rw [List.find?_eq_none]
          intro x hx hxk
          have hxk' : key x = key r0 := by simpa using hxk
          obtain ⟨z, hz, hzk⟩ := (firstRows_key_mem key pre (key r0)).2 ⟨x, hx, hxk'⟩
          exact h (List.any_eq_true.2 ⟨z, hz, by simpa using hzk⟩)
        simp [this]

/-- Ranging over a map visits the entries in some rearrangement of them. -/
theorem GoMap.range_perm {V : Type} (seed : Nat) (m : GoMap V) :
    (GoMap.range seed m).Perm m := by
  have hmem : m ∈ m.permutations' := List.mem_permutations'.2 (List.Perm.refl m)
  have hpos : 0 < (m.permutations').length := List.length_pos_of_mem hmem
  have hlt : seed % (m.permutations').length < (m.permutations').length := Nat.mod_lt _ hpos
  simp only [GoMap.range]
  rw [List.getD_eq_getElem _ _ hlt]
  exact List.mem_permutations'.1 (List.getElem_mem hlt)

/-- Ranging over a map with at most one entry has a single possible order. -/
theorem GoMap.range_of_length_le_one {V : Type} (seed : Nat) (m : GoMap V)
    (h : m.length ≤ 1) : GoMap.range seed m = m := by
  have hp := GoMap.range_perm seed m
  match m, h with
  | [], _ => exact List.perm_nil.1 hp
  | [e], _ => exact List.perm_singleton.1 hp

/-- Rows that all carry one key have at most one first row. -/
theorem firstRows_length_le_one {R : Type} (key : R → Int) (rows : List R)
    (h : ∀ r ∈ rows, ∀ r1 ∈ rows, key r = key r1) : (firstRows key rows).length ≤ 1 := by
  have hn := firstRows_nodup key rows
  have hs := firstRows_sub key rows
  match hf : firstRows key rows with
  | [] => simp
  | [_] => simp
  | a :: b :: t =>
    rw [hf] at hn hs
    have hab : key a = key b := h a (hs a (by simp)) b (hs b (by simp))
    simp [hab] at hn

/-- The map of `toBookings` after its first loop holds the groups of the specification,
in first-seen order. -/
theorem toBookings_collect_eq (rows : List queries.BookingRow) :
    (toBookings.collect rows).map Prod.snd = groupRows rows := by
  have hfold : ∀ (l : List queries.BookingRow) (b : internal.BookingBase),
      l.foldl (fun b r => { b with Units := b.Units ++ [.base (toUnit r.Unit)] }) b
        = { b with Units := b.Units ++ l.map fun r => .base (toUnit r.Unit) } := by
    intro l
    induction l with
    | nil => intro b; simp
    | cons x xs ih => intro b; simp [ih]
  simp only [toBookings.collect, toBookings_step_eq, GoMap.collect_eq, List.map_map, groupRows]
  apply List.map_congr_left
  intro r0 _
  simp [hfold, toBooking]

/-- The base parts of the map of `toBookingsWithPrice` after its first loop are the
groups of the specification, in first-seen order. -/
theorem toBookingsWithPrice_collect_eq (rows : List queries.BookingWithPriceRow) :
    ((toBookingsWithPrice.collect rows).map Prod.snd).map (fun b => b.BookingBase)
      = groupPricedRows rows := by
  have hfold : ∀ (l : List queries.BookingWithPriceRow) (b : internal.BookingWithPrice),
      (l.foldl (fun b r =>
          ({ BookingBase :=
              { b.BookingBase with
                Units := b.BookingBase.Units ++ [.withPrice (toUnitWithPrice r.Unit r.Price)] }
             CapabilityPrice :=
              { Price := b.CapabilityPrice.Price + r.Price.Price, Currency := r.Price.Currency } }
            : internal.BookingWithPrice)) b).BookingBase
        = { b.BookingBase with
            Units := b.BookingBase.Units
              ++ l.map fun r => .withPrice (toUnitWithPrice r.Unit r.Price) } := by
    intro l
    induction l with
    | nil => intro b; simp
    | cons x xs ih => intro b; simp [ih]
  simp only [toBookingsWithPrice.collect, toBookingsWithPrice_step_eq, GoMap.collect_eq,
    List.map_map, groupPricedRows]
  apply List.map_congr_left
  intro r0 _
  simp [hfold, toBooking]

/-- Claim C9: for every list of rows and every iteration order of the map, `toBookings`
and (in its base part) `toBookingsWithPrice` return, up to the order of the result,
exactly one booking per distinct booking id of the rows; the booking's units are the
converted units of the rows carrying that id, in row order, and its id, product id,
availability id and status come from the first row with that id (`groupRows`,
`groupPricedRows`). The first rows have pairwise distinct ids, their ids are exactly the
ids occurring in the rows, and each is the first row of its id. -/
theorem toBookings_groups (seed : Nat) (rows : List queries.BookingRow)
    (priced : List queries.BookingWithPriceRow) :
    (toBookings seed rows).Perm (groupRows rows) ∧
    ((toBookingsWithPrice seed priced).map fun b => b.BookingBase).Perm
      (groupPricedRows priced) ∧
    ((firstRows (fun r => r.Booking.ID) rows).map fun r => r.Booking.ID).Nodup ∧
    (∀ k, (∃ r0 ∈ firstRows (fun r => r.Booking.ID) rows, r0.Booking.ID = k) ↔
      ∃ r ∈ rows, r.Booking.ID = k) ∧
    (∀ r0 ∈ firstRows (fun r => r.Booking.ID) rows,
      rows.find? (fun r => decide (r.Booking.ID = r0.Booking.ID)) = some r0) ∧
    ((firstRows (fun r => r.Booking.ID) priced).map fun r => r.Booking.ID).Nodup ∧
    (∀ k, (∃ r0 ∈ firstRows (fun r => r.Booking.ID) priced, r0.Booking.ID = k) ↔
      ∃ r ∈ priced, r.Booking.ID = k) ∧
    (∀ r0 ∈ firstRows (fun r => r.Booking.ID) priced,
      priced.find? (fun r => decide (r.Booking.ID = r0.Booking.ID)) = some r0) := by
  refine ⟨?_, ?_, firstRows_nodup _ rows, firstRows_key_mem _ rows, firstRows_find _ rows,
    firstRows_nodup _ priced, firstRows_key_mem _ priced, firstRows_find _ priced⟩
  · rw [← toBookings_collect_eq]
    exact (GoMap.range_perm seed _).map Prod.snd
  · rw [← toBookingsWithPrice_collect_eq]
    exact ((GoMap.range_perm seed _).map Prod.snd).map _

/-- For rows of a single booking id the result of `toBookings` does not depend on the
iteration order: it is the one group of the specification. -/
theorem toBookings_single (seed : Nat) (rows : List queries.BookingRow)
    (h : ∀ r ∈ rows, ∀ r1 ∈ rows, r.Booking.ID = r1.Booking.ID) :
    toBookings seed rows = groupRows rows := by
  have hlen : (toBookings.collect rows).length ≤ 1 := by
    have := congrArg List.length (toBookings_collect_eq rows)
    simp only [List.length_map, groupRows] at this
    rw [this]
    exact firstRows_length_le_one _ rows h
  rw [toBookings, GoMap.range_of_length_le_one seed _ hlen, toBookings_collect_eq]

/-- For priced rows of a single booking id the base part of the result of
`toBookingsWithPrice` does not depend on the iteration order. -/
theorem toBookingsWithPrice_single (seed : Nat) (rows : List queries.BookingWithPriceRow)
    (h : ∀ r ∈ rows, ∀ r1 ∈ rows, r.Booking.ID = r1.Booking.ID) :
    (toBookingsWithPrice seed rows).map (fun b => b.BookingBase) = groupPricedRows rows := by
  have hlen : (toBookingsWithPrice.collect rows).length ≤ 1 := by
    have := congrArg List.length (toBookingsWithPrice_collect_eq rows)
    simp only [List.length_map, groupPricedRows] at this
    rw [this]
    exact firstRows_length_le_one _ rows h
  rw [toBookingsWithPrice, GoMap.range_of_length_le_one seed _ hlen,
    toBookingsWithPrice_collect_eq]

/-- Claim C10, as amended: `toBookings` and `toBookingsWithPrice` range over a Go map, so
the bookings come out in an order the language leaves open: the ids of the result are a
rearrangement of the ids in first-seen order, and the result is exactly the first-seen
order whenever all rows carry the same booking id, as the rows that `Postgres.Booking`
passes do. -/
theorem toBookings_order (seed : Nat) (rows : List queries.BookingRow)
    (priced : List queries.BookingWithPriceRow) :
    ((toBookings seed rows).map fun b => b.ID).Perm ((groupRows rows).map fun b => b.ID) ∧
    (((toBookingsWithPrice seed priced).map fun b => b.BookingBase).map fun b => b.ID).Perm
      ((groupPricedRows priced).map fun b => b.ID) ∧
    ((∀ r ∈ rows, ∀ r1 ∈ rows, r.Booking.ID = r1.Booking.ID) →
      toBookings seed rows = groupRows rows) ∧
    ((∀ r ∈ priced, ∀ r1 ∈ priced, r.Booking.ID = r1.Booking.ID) →
      (toBookingsWithPrice seed priced).map (fun b => b.BookingBase)
        = groupPricedRows priced) := by
  refine ⟨?_, ?_, toBookings_single seed rows, toBookingsWithPrice_single seed priced⟩
  · rw [← toBookings_collect_eq]
    exact ((GoMap.range_perm seed _).map Prod.snd).map _
  · rw [← toBookingsWithPrice_collect_eq]
    exact (((GoMap.range_perm seed _).map Prod.snd).map _).map _

/-- Witness of C10: two rows of booking 1, ranged over in the order of seed 1. -/
theorem toBookings_order_witness :
    (∀ r ∈ [exampleRow 1 10, exampleRow 1 11], ∀ r1 ∈ [exampleRow 1 10, exampleRow 1 11],
      r.Booking.ID = r1.Booking.ID) ∧
    toBookings 1 [exampleRow 1 10, exampleRow 1 11]
      = groupRows [exampleRow 1 10, exampleRow 1 11] ∧
    (toBookingsWithPrice 1 [examplePricedRow 1 10, examplePricedRow 1 11]).map
        (fun b => b.BookingBase)
      = groupPricedRows [examplePricedRow 1 10, examplePricedRow 1 11] :=
  ⟨by decide,
    (toBookings_order 1 [exampleRow 1 10, exampleRow 1 11]
      [examplePricedRow 1 10, examplePricedRow 1 11]).2.2.1 (by decide),
    (toBookings_order 1 [exampleRow 1 10, exampleRow 1 11]
      [examplePricedRow 1 10, examplePricedRow 1 11]).2.2.2 (by decide)⟩

/-- Counterexample to C10 as stated: for rows of bookings 1 and 2, in that order, the
iteration order of seed 1 makes both functions emit booking 2 before booking 1. -/
theorem toBookings_order_counterexample :
    (groupRows [exampleRow 1 10, exampleRow 2 11]).map (fun b => b.ID) = ["1", "2"] ∧
    (toBookings 1 [exampleRow 1 10, exampleRow 2 11]).map (fun b => b.ID) = ["2", "1"] ∧
    (toBookingsWithPrice 1 [examplePricedRow 1 10, examplePricedRow 2 11]).map
        (fun b => b.BookingBase.ID) = ["2", "1"] := by
  decide


/-! ### Confirmation -/

/-- The ticket write of one unit: the effect of a `createTicket` that returns nil. -/
theorem createTicket_ok (fault : Option GoError) (ticket : String) (tx : Db) (unitID : Int)
    (h : (Postgres.createTicket fault ticket tx unitID).1 = none) :
    fault = none ∧
    (Postgres.createTicket fault ticket tx unitID).2
      = { tx with units := tx.units.map fun u =>
            if u.ID = unitID then { u with Ticket := { String := ticket, Valid := true } }
            else u } := by
  cases fault with
  | some e => simp [Postgres.createTicket, queries.Queries.SetUnitTicket] at h
  | none => simp [Postgres.createTicket, queries.Queries.SetUnitTicket]

/-- A failing ticket write leaves the transaction's view unchanged and returns an error. -/
theorem createTicket_fault (e : GoError) (ticket : String) (tx : Db) (unitID : Int) :
    Postgres.createTicket (some e) ticket tx unitID
      = (some (.wrap "set unit ticket" e), tx) := by
  simp [Postgres.createTicket, queries.Queries.SetUnitTicket]

/-- The ticket loop returns nil exactly when no ticket write of its rows fails. -/
theorem tickets_ok_iff (faults : Nat → Option GoError) (rand : Nat → String)
    (rows : List queries.BookingForUpdateRow) (i : Nat) (tx : Db) :
    (Postgres.ConfirmBooking.tickets faults rand i rows tx).1 = none ↔
      ∀ j, j < rows.length → faults (i + j) = none := by
  induction rows generalizing i tx with
  | nil => simp [Postgres.ConfirmBooking.tickets]
  | cons row rest ih =>
    cases hf : faults i with
    | some e =>
      simp only [Postgres.ConfirmBooking.tickets, hf, createTicket_fault]
      constructor
      · intro h; cases h
      · intro h
        have := h 0 (by simp)
        simp [hf] at this
    | none =>
      have hct : Postgres.createTicket none (rand i) tx row.UnitID
          = (none, (Postgres.createTicket none (rand i) tx row.UnitID).2) := by
        simp [Postgres.createTicket, queries.Queries.SetUnitTicket]
      simp only [Postgres.ConfirmBooking.tickets, hf]
      rw [hct]
      simp only
      rw [ih]
      constructor
      · intro h j hj
        cases j with
        | zero => simpa using hf
        | succ j =>
          have := h j (by simpa using hj)
          rw [← this]; congr 1; omega
      · intro h j hj
        have := h (j + 1) (by simpa using hj)
        rw [← this]; congr 1; omega

/-- The effect of a ticket loop that returns nil: only the unit table changes; every unit
keeps its id and booking; a unit that occurs in a row carries, as a valid ticket, the
random string drawn for one of its rows; every other unit is untouched. -/
theorem tickets_ok (faults : Nat → Option GoError) (rand : Nat → String)
    (rows : List queries.BookingForUpdateRow) (i : Nat) (tx : Db)
    (h : (Postgres.ConfirmBooking.tickets faults rand i rows tx).1 = none) :
    ∃ g : queries.Unit → queries.Unit,
      (Postgres.ConfirmBooking.tickets faults rand i rows tx).2
        = { tx with units := tx.units.map g } ∧
      (∀ u, (g u).ID = u.ID ∧ (g u).BookingID = u.BookingID) ∧
      (∀ u, u.ID ∈ rows.map (fun r => r.UnitID) →
        ∃ j row, rows[j]? = some row ∧ row.UnitID = u.ID ∧
          (g u).Ticket = { String := rand (i + j), Valid := true }) ∧
      (∀ u, u.ID ∉ rows.map (fun r => r.UnitID) → g u = u) := by
  induction rows generalizing i tx with
  | nil => exact ⟨id, by simp [Postgres.ConfirmBooking.tickets], by simp, by simp, by simp⟩
  | cons row rest ih =>
    simp only [Postgres.ConfirmBooking.tickets] at h ⊢
    cases hc : (Postgres.createTicket (faults i) (rand i) tx row.UnitID).1 with
    | some e =>
      rw [show Postgres.createTicket (faults i) (rand i) tx row.UnitID
        = (some e, (Postgres.createTicket (faults i) (rand i) tx row.UnitID).2) from
          Prod.ext hc rfl] at h
      simp at h
    | none =>
      obtain ⟨_, htx⟩ := createTicket_ok _ _ _ _ hc
      have hpair : Postgres.createTicket (faults i) (rand i) tx row.UnitID
          = (none, (Postgres.createTicket (faults i) (rand i) tx row.UnitID).2) :=
        Prod.ext hc rfl
      rw [hpair] at h ⊢
      simp only at h ⊢
      obtain ⟨g1, hg1, hid1, hin1, hout1⟩ := ih (i + 1) _ h
      refine ⟨fun u => g1 (if u.ID = row.UnitID then
          { u with Ticket := { String := rand i, Valid := true } } else u), ?_, ?_, ?_, ?_⟩
      · rw [hg1, htx]
        simp [List.map_map, Function.comp]
      · intro u
        by_cases hu : u.ID = row.UnitID <;> simp [hu, hid1]
      · intro u hu
        by_cases hrest : u.ID ∈ rest.map (fun r => r.UnitID)
        · have hrest' : (if u.ID = row.UnitID then
              ({ u with Ticket := { String := rand i, Valid := true } } : queries.Unit)
              else u).ID ∈ rest.map (fun r => r.UnitID) := by
            by_cases hu' : u.ID = row.UnitID <;> simpa [hu'] using hrest
          obtain ⟨j, r, hj, hr, ht⟩ := hin1 _ hrest'
          refine ⟨j + 1, r, by simpa using hj, ?_, ?_⟩
          · rw [hr]; by_cases hu' : u.ID = row.UnitID <;> simp [hu']
          · rw [ht]; congr 2; omega
        · have hrow : u.ID = row.UnitID := by
            simp only [List.map_cons, List.mem_cons] at hu
            rcases hu with h1 | h1
            · exact h1
            · exact absurd h1 hrest
          refine ⟨0, row, by simp, hrow.symm, ?_⟩
          have hnot : (({ u with Ticket := { String := rand i, Valid := true } } : queries.Unit)).ID
              ∉ rest.map (fun r => r.UnitID) := hrest
          simp only [hrow, if_true]
          rw [hout1 _ (by simpa [hrow] using hnot)]
          simp
      · intro u hu
        simp only [List.map_cons, List.mem_cons, not_or] at hu
        simp only [hu.1, if_false]
        exact hout1 u hu.2

/-- The rows of the locked lookup: one per pair of a matching booking and a unit of it. -/
theorem bookingForUpdate_mem (db : Db) (arg : queries.BookingForUpdateParams)
    (row : queries.BookingForUpdateRow) :
    row ∈ queries.Queries.BookingForUpdate db arg ↔
      ∃ b ∈ db.bookings, ∃ u ∈ db.units, b.ID = arg.ID ∧ b.UserID = arg.UserID ∧
        u.BookingID = b.ID ∧ row = ⟨b.Status, u.ID⟩ := by
  simp only [queries.Queries.BookingForUpdate, List.mem_flatMap, List.mem_filter,
    List.mem_map, Bool.and_eq_true, decide_eq_true_eq]
  constructor
  · rintro ⟨b, ⟨hb, h1, h2⟩, u, ⟨hu, h3⟩, rfl⟩
    exact ⟨b, hb, u, hu, h1, h2, h3, rfl⟩
  · rintro ⟨b, hb, u, hu, h1, h2, h3, rfl⟩
    exact ⟨b, ⟨hb, h1, h2⟩, u, ⟨hu, h3⟩, rfl⟩

/-- The outcomes of `withTx`: a nil result persists the callback's writes after a
successful begin, callback and commit; any error leaves the persisted state as it was. -/
theorem withTx_cases (tf : TxFaults) (db : Db) (fn : Db → Option GoError × Db) :
    ((Postgres.withTx tf db fn).err = none →
      tf.beginTx = none ∧ tf.commit = none ∧ (fn db).1 = none ∧
        (Postgres.withTx tf db fn).db = (fn db).2) ∧
    ((Postgres.withTx tf db fn).err ≠ none → (Postgres.withTx tf db fn).db = db) := by
  unfold Postgres.withTx
  cases hb : tf.beginTx with
  | some e => simp
  | none =>
    rcases hfn : fn db with ⟨e, tx⟩
    cases e with
    | some e => cases hr : tf.rollback <;> simp
    | none => cases hc : tf.commit <;> simp

/-- With a successful begin, `withTx` ends the transaction with `Commit` exactly when the
callback returns nil and with `Rollback` exactly when it returns an error. -/
theorem withTx_ended (tf : TxFaults) (db : Db) (fn : Db → Option GoError × Db)
    (hb : tf.beginTx = none) :
    ((Postgres.withTx tf db fn).ended = some .Commit ↔ (fn db).1 = none) ∧
    ((Postgres.withTx tf db fn).ended = some .Rollback ↔ (fn db).1 ≠ none) := by
  unfold Postgres.withTx
  rw [hb]
  rcases hfn : fn db with ⟨e, tx⟩
  cases e with
  | some e => cases hr : tf.rollback <;> simp
  | none => cases hc : tf.commit <;> simp

/-- The outcomes of the callback of `ConfirmBooking` when it returns nil: either the first
row of the lookup is already CONFIRMED and nothing is written, or the status is flipped
and the ticket loop has run over all rows of the lookup. -/
theorem confirmFn_ok (sf : StmtFaults) (rand : Nat → String) (id : Int)
    (params : queries.BookingForUpdateParams) (tx : Db)
    (h : (Postgres.ConfirmBooking.fn sf rand id params tx).1 = none) :
    sf.bookingForUpdate = none ∧
    ∃ row0 rest, queries.Queries.BookingForUpdate tx params = row0 :: rest ∧
      ((row0.Status = internal.BookingStatusConfirmed ∧
          (Postgres.ConfirmBooking.fn sf rand id params tx).2 = tx) ∨
       (row0.Status ≠ internal.BookingStatusConfirmed ∧
          ∃ g : queries.Unit → queries.Unit,
            (Postgres.ConfirmBooking.fn sf rand id params tx).2
              = { tx with bookings := tx.bookings.map (queries.Queries.setConfirmed id), units := tx.units.map g } ∧
            (∀ u, (g u).ID = u.ID ∧ (g u).BookingID = u.BookingID) ∧
            (∀ u, u.ID ∈ (queries.Queries.BookingForUpdate tx params).map (fun r => r.UnitID) →
              ∃ j row, (queries.Queries.BookingForUpdate tx params)[j]? = some row ∧
                row.UnitID = u.ID ∧ (g u).Ticket = { String := rand j, Valid := true }) ∧
            (∀ u, u.ID ∉ (queries.Queries.BookingForUpdate tx params).map (fun r => r.UnitID) →
              g u = u))) := by
  unfold Postgres.ConfirmBooking.fn at h ⊢
  cases hl : sf.bookingForUpdate with
  | some e => rw [hl] at h; simp at h
  | none =>
    rw [hl] at h
    refine ⟨rfl, ?_⟩
    simp only at h ⊢
    cases hrows : queries.Queries.BookingForUpdate tx params with
    | nil => rw [hrows] at h; simp [service.ErrNotFound] at h
    | cons row0 rest =>
      rw [hrows] at h
      refine ⟨row0, rest, rfl, ?_⟩
      simp only at h ⊢
      by_cases hst : row0.Status = internal.BookingStatusConfirmed
      · left
        simp [hst]
      · right
        refine ⟨hst, ?_⟩
        rw [if_neg hst] at h ⊢
        cases hc : sf.confirmBooking with
        | some e => rw [hc] at h; simp [queries.Queries.ConfirmBooking] at h
        | none =>
          rw [hc] at h
          simp only [queries.Queries.ConfirmBooking] at h ⊢
          obtain ⟨g, hg, hid, hin, hout⟩ := tickets_ok _ _ _ _ _ h
          refine ⟨g, ?_, hid, ?_, hout⟩
          · rw [hg]; rfl
          · intro u hu
            obtain ⟨j, row, hj, hr, ht⟩ := hin u hu
            exact ⟨j, row, hj, hr, by simpa using ht⟩

/-- When the callback returns an error and the transaction began, `withTx` rolls back,
returns an error that matches every sentinel the callback's error matches, and leaves
the persisted state as it was. -/
theorem withTx_of_error (tf : TxFaults) (db : Db) (fn : Db → Option GoError × Db)
    (e : GoError) (hb : tf.beginTx = none) (he : (fn db).1 = some e) :
    (Postgres.withTx tf db fn).db = db ∧
    (Postgres.withTx tf db fn).ended = some .Rollback ∧
    (∃ e1, (Postgres.withTx tf db fn).err = some e1 ∧
      ∀ t, errorsIs e t = true → errorsIs e1 t = true) ∧
    (tf.rollback = none → (Postgres.withTx tf db fn).err = some e) := by
  unfold Postgres.withTx
  rw [hb]
  rcases hfn : fn db with ⟨e0, tx⟩
  rw [hfn] at he
  simp only at he
  subst he
  cases hr : tf.rollback with
  | some re =>
    refine ⟨rfl, rfl, ⟨_, rfl, ?_⟩, by simp⟩
    intro t ht
    simp [errorsIs, ht]
  | none => exact ⟨rfl, rfl, ⟨_, rfl, fun _ h => h⟩, fun _ => rfl⟩

/-- Claim C7: whenever the transaction has begun and the locked lookup for
`(int64(id), int32(userID))` ran and returned no rows (no booking with that id, or one
owned by another user), `Postgres.ConfirmBooking` returns an error that matches
`service.ErrNotFound` (exactly that sentinel when the rollback succeeds), ends the
transaction by rollback, and leaves the whole state, every booking status and every unit
ticket, as it was, whatever the later statements would have done. -/
theorem confirmBooking_not_found (tf : TxFaults) (sf : StmtFaults) (rand : Nat → String)
    (db : Db) (id userID : Int)
    (hbegin : tf.beginTx = none) (hlookup : sf.bookingForUpdate = none)
    (hrows : queries.Queries.BookingForUpdate db { ID := int64 id, UserID := int32 userID } = []) :
    (∃ e, (Postgres.ConfirmBooking tf sf rand db id userID).err = some e ∧
      errorsIs e .serviceErrNotFound = true) ∧
    (tf.rollback = none →
      (Postgres.ConfirmBooking tf sf rand db id userID).err = some service.ErrNotFound) ∧
    (Postgres.ConfirmBooking tf sf rand db id userID).db = db ∧
    (Postgres.ConfirmBooking tf sf rand db id userID).ended = some .Rollback := by
  have hfn : (Postgres.ConfirmBooking.fn sf rand id
      { ID := int64 id, UserID := int32 userID } db).1 = some service.ErrNotFound := by
    simp [Postgres.ConfirmBooking.fn, hlookup, hrows]
  obtain ⟨h1, h2, ⟨e1, h3, h4⟩, h5⟩ := withTx_of_error tf db _ _ hbegin hfn
  refine ⟨⟨e1, h3, h4 _ (by simp [service.ErrNotFound, errorsIs])⟩, h5, h1, h2⟩

/-- Witness of C7: user 8 confirms booking 1, which user 9 owns. -/
theorem confirmBooking_not_found_witness :
    queries.Queries.BookingForUpdate bookedDb { ID := int64 1, UserID := int32 8 } = [] ∧
    (Postgres.ConfirmBooking noTxFaults noStmtFaults exampleRand bookedDb 1 8).err
      = some service.ErrNotFound ∧
    (Postgres.ConfirmBooking noTxFaults noStmtFaults exampleRand bookedDb 1 8).db = bookedDb :=
  ⟨by decide,
    (confirmBooking_not_found noTxFaults noStmtFaults exampleRand bookedDb 1 8 rfl rfl
      (by decide)).2.1 rfl,
    (confirmBooking_not_found noTxFaults noStmtFaults exampleRand bookedDb 1 8 rfl rfl
      (by decide)).2.2.1⟩

/-- The callback of `ConfirmBooking` returns an error when, past the already-confirmed
check, the status flip or the ticket write of some row fails. -/
theorem confirmFn_of_fault (sf : StmtFaults) (rand : Nat → String) (id : Int)
    (params : queries.BookingForUpdateParams) (tx : Db)
    (row0 : queries.BookingForUpdateRow) (rest : List queries.BookingForUpdateRow)
    (hrows : queries.Queries.BookingForUpdate tx params = row0 :: rest)
    (hst : row0.Status ≠ internal.BookingStatusConfirmed)
    (hf : sf.confirmBooking ≠ none ∨
      ∃ j, j < (row0 :: rest).length ∧ sf.setUnitTicket j ≠ none) :
    (Postgres.ConfirmBooking.fn sf rand id params tx).1 ≠ none := by
  intro h
  unfold Postgres.ConfirmBooking.fn at h
  cases hl : sf.bookingForUpdate with
  | some e => rw [hl] at h; simp at h
  | none =>
    rw [hl] at h
    simp only [hrows, if_neg hst] at h
    cases hc : sf.confirmBooking with
    | some e => rw [hc] at h; simp [queries.Queries.ConfirmBooking] at h
    | none =>
      rw [hc] at h
      simp only [queries.Queries.ConfirmBooking] at h
      rw [tickets_ok_iff] at h
      rcases hf with hf | ⟨j, hj, hfj⟩
      · exact hf hc
      · exact hfj (by simpa using h j hj)

/-- Claim C8: once the transaction has begun, `withTx` ends it with `Commit` if and only
if the callback returns nil and with `Rollback` if and only if it returns an error;
whenever `withTx`, and so `ConfirmBooking`, returns an error the persisted state is the
state before the call; and if, past the already-confirmed check, the status flip or the
ticket write of any row fails, `ConfirmBooking` returns an error, rolls back and leaves
the persisted state as it was. -/
theorem confirmBooking_all_or_nothing (tf : TxFaults) (sf : StmtFaults) (rand : Nat → String)
    (db : Db) (id userID : Int) (fn : Db → Option GoError × Db) :
    (tf.beginTx = none →
      ((Postgres.withTx tf db fn).ended = some .Commit ↔ (fn db).1 = none) ∧
      ((Postgres.withTx tf db fn).ended = some .Rollback ↔ (fn db).1 ≠ none)) ∧
    ((Postgres.withTx tf db fn).err ≠ none → (Postgres.withTx tf db fn).db = db) ∧
    ((Postgres.ConfirmBooking tf sf rand db id userID).err ≠ none →
      (Postgres.ConfirmBooking tf sf rand db id userID).db = db) ∧
    (tf.beginTx = none →
      ∀ row0 rest,
        queries.Queries.BookingForUpdate db { ID := int64 id, UserID := int32 userID }
          = row0 :: rest →
        row0.Status ≠ internal.BookingStatusConfirmed →
        (sf.confirmBooking ≠ none ∨
          ∃ j, j < (row0 :: rest).length ∧ sf.setUnitTicket j ≠ none) →
        (Postgres.ConfirmBooking tf sf rand db id userID).err ≠ none ∧
        (Postgres.ConfirmBooking tf sf rand db id userID).db = db ∧
        (Postgres.ConfirmBooking tf sf rand db id userID).ended = some .Rollback) := by
  refine ⟨withTx_ended tf db fn, (withTx_cases tf db fn).2, (withTx_cases tf db _).2, ?_⟩
  intro hb row0 rest hrows hst hf
  have hne := confirmFn_of_fault sf rand id _ db row0 rest hrows hst hf
  obtain ⟨e, he⟩ := Option.ne_none_iff_exists'.1 hne
  obtain ⟨h1, h2, ⟨e1, h3, _⟩, _⟩ := withTx_of_error tf db _ e hb he
  exact ⟨by rw [Postgres.ConfirmBooking, h3]; simp, h1, h2⟩

/-- Witness of C8: the ticket write of the second unit of booking 1 fails. -/
theorem confirmBooking_all_or_nothing_witness :
    (Postgres.ConfirmBooking noTxFaults secondTicketFails exampleRand bookedDb 1 9).err ≠ none ∧
    (Postgres.ConfirmBooking noTxFaults secondTicketFails exampleRand bookedDb 1 9).db
      = bookedDb ∧
    (Postgres.ConfirmBooking noTxFaults secondTicketFails exampleRand bookedDb 1 9).ended
      = some .Rollback :=
  (confirmBooking_all_or_nothing noTxFaults secondTicketFails exampleRand bookedDb 1 9
    (fun tx => (none, tx))).2.2.2 rfl ⟨"RESERVED", 1⟩ [⟨"RESERVED", 2⟩] (by decide) (by decide)
    (Or.inr ⟨1, by decide, by decide⟩)


/-! ### The lifecycle invariant -/

/-- The status flip keeps every column of a booking row but the status. -/
theorem setConfirmed_ID (id : Int) (b : queries.Booking) :
    (queries.Queries.setConfirmed id b).ID = b.ID ∧
    (queries.Queries.setConfirmed id b).UserID = b.UserID ∧
    (queries.Queries.setConfirmed id b).ProductID = b.ProductID ∧
    (queries.Queries.setConfirmed id b).AvailabilityID = b.AvailabilityID := by
  unfold queries.Queries.setConfirmed
  split_ifs <;> simp

/-- The status flip makes the named booking CONFIRMED. -/
theorem setConfirmed_status (id : Int) (b : queries.Booking) (h : b.ID = id) :
    (queries.Queries.setConfirmed id b).Status = internal.BookingStatusConfirmed := by
  simp [queries.Queries.setConfirmed, h]

/-- The status flip leaves every other booking as it is. -/
theorem setConfirmed_other (id : Int) (b : queries.Booking) (h : b.ID ≠ id) :
    queries.Queries.setConfirmed id b = b := by
  simp [queries.Queries.setConfirmed, h]

/-- The units the store inserts for a new booking. -/
theorem newUnits_mem (bid first : Int) (n : Nat) (u : queries.Unit) :
    u ∈ queries.Queries.newUnits bid first n ↔
      ∃ i, i < n ∧ u = ⟨first + (i : Int), bid, ⟨"", false⟩⟩ := by
  simp only [queries.Queries.newUnits, List.mem_map, List.mem_range]
  constructor
  · rintro ⟨i, hi, rfl⟩; exact ⟨i, hi, rfl⟩
  · rintro ⟨i, hi, rfl⟩; exact ⟨i, hi, rfl⟩

/-- The units inserted for a new booking carry distinct ids. -/
theorem newUnits_nodup (bid first : Int) (n : Nat) :
    ((queries.Queries.newUnits bid first n).map fun u => u.ID).Nodup := by
  simp only [queries.Queries.newUnits, List.map_map]
  apply List.Nodup.map _ (List.nodup_range n)
  intro i j h
  simpa using h

/-- The state after `CreateBooking`: unchanged, or one RESERVED booking with the next
booking id and its ticketless units with the next unit ids appended. -/
theorem createBooking_state (fault : Option GoError) (db : Db)
    (params : service.CreateBookingParams) :
    (Postgres.CreateBooking fault db params).2 = db ∨
    ∃ (avs : List queries.Availability) (p a uid : Int) (n : Nat),
      (Postgres.CreateBooking fault db params).2
        = { availabilities := avs
            bookings := db.bookings ++ [⟨db.bookingSeq, p, a, uid, internal.BookingStatusReserved⟩]
            units := db.units ++ queries.Queries.newUnits db.bookingSeq db.unitSeq n
            bookingSeq := db.bookingSeq + 1
            unitSeq := db.unitSeq + n } := by
  unfold Postgres.CreateBooking queries.Queries.CreateBooking
  cases fault with
  | some e => left; simp only; split_ifs <;> rfl
  | none =>
    simp only
    split_ifs with h
    · right; exact ⟨_, _, _, _, _, rfl⟩
    · left; simp [errorsIs]

/-- The method `CreateBooking` keeps a consistent state consistent. -/
theorem createBooking_consistent (fault : Option GoError) (db : Db)
    (params : service.CreateBookingParams) (h : Consistent db) :
    Consistent (Postgres.CreateBooking fault db params).2 := by
  rcases createBooking_state fault db params with hs | ⟨avs, p, a, uid, n, hs⟩
  · rw [hs]; exact h
  · rw [hs]
    obtain ⟨h1, h2, h3, h4, h5, h6⟩ := h
    refine ⟨?_, ?_, ?_, ?_, ?_, ?_⟩
    · simp only [List.map_append, List.map_cons, List.map_nil]
      rw [List.nodup_append]
      refine ⟨h1, by simp, ?_⟩
      intro x hx hx'
      obtain ⟨b, hb, rfl⟩ := List.mem_map.1 hx
      have := h3 b hb
      simp at hx'
      omega
    · simp only [List.map_append]
      rw [List.nodup_append]
      refine ⟨h2, newUnits_nodup _ _ _, ?_⟩
      intro x hx hx'
      obtain ⟨u, hu, rfl⟩ := List.mem_map.1 hx
      obtain ⟨v, hv, hvu⟩ := List.mem_map.1 hx'
      obtain ⟨i, _, rfl⟩ := (newUnits_mem _ _ _ _).1 hv
      have := h4 u hu
      simp only at hvu
      omega
    · intro b hb
      simp only [List.mem_append, List.mem_singleton] at hb
      rcases hb with hb | rfl
      · have := h3 b hb; simp only; omega
      · simp
    · intro u hu
      simp only [List.mem_append] at hu
      rcases hu with hu | hu
      · have := h4 u hu; simp only; omega
      · obtain ⟨i, hi, rfl⟩ := (newUnits_mem _ _ _ _).1 hu
        simp only; omega
    · intro u hu
      simp only [List.mem_append] at hu
      rcases hu with hu | hu
      · obtain ⟨b, hb, hbu⟩ := h5 u hu
        exact ⟨b, List.mem_append_left _ hb, hbu⟩
      · obtain ⟨i, hi, rfl⟩ := (newUnits_mem _ _ _ _).1 hu
        exact ⟨_, List.mem_append_right _ (List.mem_singleton_self _), rfl⟩
    · intro u hu b hb hbu
      simp only [List.mem_append, List.mem_singleton] at hu hb
      rcases hu with hu | hu
      · rcases hb with hb | rfl
        · exact h6 u hu b hb hbu
        · obtain ⟨b0, hb0, hb0u⟩ := h5 u hu
          have := h3 b0 hb0
          simp only at hbu
          omega
      · obtain ⟨i, hi, rfl⟩ := (newUnits_mem _ _ _ _).1 hu
        rcases hb with hb | rfl
        · have := h3 b hb
          simp only at hbu
          omega
        · simp [internal.BookingStatusReserved, internal.BookingStatusConfirmed]

/-- A successful `ConfirmBooking` either found the booking already CONFIRMED and wrote
nothing, or flipped the status and wrote a ticket for every row of the lookup. -/
theorem confirmBooking_ok (tf : TxFaults) (sf : StmtFaults) (rand : Nat → String)
    (db : Db) (id userID : Int)
    (h : (Postgres.ConfirmBooking tf sf rand db id userID).err = none) :
    ∃ row0 rest,
      queries.Queries.BookingForUpdate db { ID := int64 id, UserID := int32 userID }
        = row0 :: rest ∧
      ((row0.Status = internal.BookingStatusConfirmed ∧
          (Postgres.ConfirmBooking tf sf rand db id userID).db = db) ∨
       (row0.Status ≠ internal.BookingStatusConfirmed ∧
          ∃ g : queries.Unit → queries.Unit,
            (Postgres.ConfirmBooking tf sf rand db id userID).db
              = { db with bookings := db.bookings.map (queries.Queries.setConfirmed id),
                          units := db.units.map g } ∧
            (∀ u, (g u).ID = u.ID ∧ (g u).BookingID = u.BookingID) ∧
            (∀ u, u.ID ∈ (queries.Queries.BookingForUpdate db
                { ID := int64 id, UserID := int32 userID }).map (fun r => r.UnitID) →
              ∃ j row, (queries.Queries.BookingForUpdate db
                  { ID := int64 id, UserID := int32 userID })[j]? = some row ∧
                row.UnitID = u.ID ∧ (g u).Ticket = { String := rand j, Valid := true }) ∧
            (∀ u, u.ID ∉ (queries.Queries.BookingForUpdate db
                { ID := int64 id, UserID := int32 userID }).map (fun r => r.UnitID) →
              g u = u))) := by
  obtain ⟨_, _, hfn, hdb⟩ := (withTx_cases tf db _).1 h
  obtain ⟨_, row0, rest, hrows, hcase⟩ := confirmFn_ok sf rand id _ db hfn
  refine ⟨row0, rest, hrows, ?_⟩
  rcases hcase with ⟨hst, hsame⟩ | ⟨hst, g, hg, hrest⟩
  · left; exact ⟨hst, hdb.trans hsame⟩
  · right
    exact ⟨hst, g, hdb.trans hg, hrest⟩

/-- The method `ConfirmBooking` keeps a consistent state consistent. -/
theorem confirmBooking_consistent (tf : TxFaults) (sf : StmtFaults) (rand : Nat → String)
    (db : Db) (id userID : Int) (h : Consistent db) :
    Consistent (Postgres.ConfirmBooking tf sf rand db id userID).db := by
  by_cases herr : (Postgres.ConfirmBooking tf sf rand db id userID).err = none
  · obtain ⟨row0, rest, hrows, hcase⟩ := confirmBooking_ok tf sf rand db id userID herr
    rcases hcase with ⟨_, hsame⟩ | ⟨_, g, hg, hid, hin, hout⟩
    · rw [hsame]; exact h
    · rw [hg]
      obtain ⟨h1, h2, h3, h4, h5, h6⟩ := h
      have hmapb : (db.bookings.map (queries.Queries.setConfirmed id)).map (fun b => b.ID)
          = db.bookings.map fun b => b.ID := by
        rw [List.map_map]
        exact List.map_congr_left fun b _ => (setConfirmed_ID id b).1
      have hmapu : (db.units.map g).map (fun u => u.ID) = db.units.map fun u => u.ID := by
        rw [List.map_map]
        exact List.map_congr_left fun u _ => (hid u).1
      refine ⟨by simpa only [hmapb] using h1, by simpa only [hmapu] using h2, ?_, ?_, ?_, ?_⟩
      · intro b hb
        obtain ⟨b0, hb0, rfl⟩ := List.mem_map.1 hb
        rw [(setConfirmed_ID id b0).1]
        exact h3 b0 hb0
      · intro u hu
        obtain ⟨u0, hu0, rfl⟩ := List.mem_map.1 hu
        rw [(hid u0).1]
        exact h4 u0 hu0
      · intro u hu
        obtain ⟨u0, hu0, rfl⟩ := List.mem_map.1 hu
        obtain ⟨b, hb, hbu⟩ := h5 u0 hu0
        refine ⟨_, List.mem_map_of_mem _ hb, ?_⟩
        rw [(setConfirmed_ID id b).1, (hid u0).2]
        exact hbu
      · intro u hu b hb hbu
        obtain ⟨u0, hu0, rfl⟩ := List.mem_map.1 hu
        obtain ⟨b0, hb0, rfl⟩ := List.mem_map.1 hb
        rw [(setConfirmed_ID id b0).1, (hid u0).2] at hbu
        have hrow0 : row0 ∈ queries.Queries.BookingForUpdate db
            { ID := int64 id, UserID := int32 userID } := by rw [hrows]; simp
        obtain ⟨bb, hbb, uu, huu, hbbid, hbbuser, huub, _⟩ :=
          (bookingForUpdate_mem db _ row0).1 hrow0
        simp only [int64] at hbbid
        by_cases hb0id : b0.ID = id
        · -- the confirmed booking: its unit is among the rows
          have hmem : u0.ID ∈ (queries.Queries.BookingForUpdate db
              { ID := int64 id, UserID := int32 userID }).map (fun r => r.UnitID) := by
            apply List.mem_map.2
            refine ⟨⟨bb.Status, u0.ID⟩, ?_, rfl⟩
            exact (bookingForUpdate_mem db _ _).2
              ⟨bb, hbb, u0, hu0, hbbid, hbbuser, by rw [← hbu, hb0id, hbbid], rfl⟩
          obtain ⟨j, row, _, _, ht⟩ := hin u0 hmem
          rw [ht, setConfirmed_status id b0 hb0id]
          simp
        · -- another booking: its unit is not among the rows
          have hnot : u0.ID ∉ (queries.Queries.BookingForUpdate db
              { ID := int64 id, UserID := int32 userID }).map (fun r => r.UnitID) := by
            intro hmem
            obtain ⟨row, hrow, hrowu⟩ := List.mem_map.1 hmem
            obtain ⟨b1, _, u1, hu1, hb1id, _, hu1b, rfl⟩ :=
              (bookingForUpdate_mem db _ row).1 hrow
            simp only [int64] at hb1id
            simp only at hrowu
            have hu : u1 = u0 := List.inj_on_of_nodup_map h2 hu1 hu0 hrowu
            subst hu
            exact hb0id (by rw [hbu, hu1b, hb1id])
          rw [hout u0 hnot, setConfirmed_other id b0 hb0id]
          exact h6 u0 hu0 b0 hb0 hbu
  · have hsame : (Postgres.ConfirmBooking tf sf rand db id userID).db = db :=
      (withTx_cases tf db _).2 herr
    rw [hsame]
    exact h

/-- Claim C6: every state reachable from a consistent state through `createBooking` and
`confirmBooking` (any arguments, failures and random tickets) is consistent; in
particular, in it a unit has a ticket if and only if the status of its booking is
CONFIRMED. -/
theorem lifecycle_ticket_iff_confirmed (db0 db : Db) (h0 : Consistent db0)
    (hreach : Reachable db0 db) :
    Consistent db ∧
    ∀ u ∈ db.units, ∀ b ∈ db.bookings, b.ID = u.BookingID →
      (u.Ticket.Valid = true ↔ b.Status = internal.BookingStatusConfirmed) := by
  have hc : Consistent db := by
    induction hreach with
    | refl => exact h0
    | tail _ hstep ih =>
      cases hstep with
      | createBooking fault _ params => exact createBooking_consistent fault _ params ih
      | confirmBooking tf sf rand _ id userID =>
        exact confirmBooking_consistent tf sf rand _ id userID ih
  exact ⟨hc, hc.2.2.2.2.2⟩

/-- Witness of C6: from the example state, book 2 units and confirm the booking. -/
theorem lifecycle_ticket_iff_confirmed_witness :
    Consistent exampleDb ∧ Reachable exampleDb confirmedDb ∧
    ∀ u ∈ confirmedDb.units, ∀ b ∈ confirmedDb.bookings, b.ID = u.BookingID →
      (u.Ticket.Valid = true ↔ b.Status = internal.BookingStatusConfirmed) :=
  ⟨by decide,
    Relation.ReflTransGen.tail
      (Relation.ReflTransGen.single (Step.createBooking none exampleDb ⟨1, 7, 2, 9⟩))
      (Step.confirmBooking noTxFaults noStmtFaults exampleRand bookedDb 1 9),
    (lifecycle_ticket_iff_confirmed exampleDb confirmedDb (by decide)
      (Relation.ReflTransGen.tail
        (Relation.ReflTransGen.single (Step.createBooking none exampleDb ⟨1, 7, 2, 9⟩))
        (Step.confirmBooking noTxFaults noStmtFaults exampleRand bookedDb 1 9))).2⟩


/-! ### Idempotent confirmation -/

/-- When the lookup finds the booking already CONFIRMED and begin, lookup and commit
succeed, `ConfirmBooking` returns nil, commits and leaves the state as it was. -/
theorem confirmBooking_already (tf : TxFaults) (sf : StmtFaults) (rand : Nat → String)
    (db : Db) (id userID : Int) (row0 : queries.BookingForUpdateRow)
    (rest : List queries.BookingForUpdateRow)
    (hb : tf.beginTx = none) (hc : tf.commit = none) (hl : sf.bookingForUpdate = none)
    (hrows : queries.Queries.BookingForUpdate db { ID := int64 id, UserID := int32 userID }
      = row0 :: rest)
    (hst : row0.Status = internal.BookingStatusConfirmed) :
    Postgres.ConfirmBooking tf sf rand db id userID = ⟨none, db, some .Commit⟩ := by
  simp [Postgres.ConfirmBooking, Postgres.withTx, Postgres.ConfirmBooking.fn, hb, hc, hl,
    hrows, hst]

/-- The rows of the read `queries.Booking` all carry the requested booking id. -/
theorem queriesBooking_mem (db : Db) (arg : queries.BookingParams) (row : queries.BookingRow) :
    row ∈ queries.Queries.Booking db arg ↔
      row.Booking ∈ db.bookings ∧ row.Unit ∈ db.units ∧ row.Booking.ID = arg.ID ∧
        row.Booking.UserID = arg.UserID ∧ row.Unit.BookingID = row.Booking.ID := by
  simp only [queries.Queries.Booking, List.mem_flatMap, List.mem_filter,
    List.mem_map, Bool.and_eq_true, decide_eq_true_eq]
  constructor
  · rintro ⟨b, ⟨hb, h1, h2⟩, u, ⟨hu, h3⟩, rfl⟩
    exact ⟨hb, hu, h1, h2, h3⟩
  · rintro ⟨hb, hu, h1, h2, h3⟩
    exact ⟨row.Booking, ⟨hb, h1, h2⟩, row.Unit, ⟨hu, h3⟩, rfl⟩

/-- The read of a booking without the price capability does not depend on the iteration
order of the map when all rows carry one booking id. -/
theorem booking_read_seed (seed seed1 : Nat) (fault : Option GoError)
    (priced : List queries.BookingWithPriceRow) (rows : List queries.BookingRow)
    (h : ∀ r ∈ rows, ∀ r1 ∈ rows, r.Booking.ID = r1.Booking.ID) :
    Postgres.Booking seed fault priced rows internal.CapabilityRequestNone
      = Postgres.Booking seed1 fault priced rows internal.CapabilityRequestNone := by
  have hne : ¬ internal.CapabilityRequestNone = internal.CapabilityRequestPrice := by decide
  simp only [Postgres.Booking, if_neg hne, toBookings_single seed rows h,
    toBookings_single seed1 rows h]

/-- Claim C4: confirmation is idempotent. First, for every booking owned by the user (as
the store sees the user, `int32(userID)`) that is already CONFIRMED and has a unit, in a
state where booking ids are a primary key, `Postgres.ConfirmBooking` returns nil and
leaves the whole state as it was, provided begin, lookup and commit do not fail;
no status write and no ticket write is attempted, since the result does not depend on
whether those writes would fail. Second, after any `ConfirmBooking` that returned nil,
confirming again returns nil and leaves exactly the state of confirming once, and the
read of the booking is the same after one and after two confirmations, for any
iteration orders of the read: every unit carries the same ticket. -/
theorem confirmBooking_idempotent :
    (∀ (tf : TxFaults) (sf : StmtFaults) (rand : Nat → String) (db : Db) (id userID : Int)
        (b : queries.Booking),
      tf.beginTx = none → tf.commit = none → sf.bookingForUpdate = none →
      (db.bookings.map fun b => b.ID).Nodup →
      b ∈ db.bookings → b.ID = id → b.UserID = int32 userID →
      b.Status = internal.BookingStatusConfirmed →
      (∃ u ∈ db.units, u.BookingID = id) →
      Postgres.ConfirmBooking tf sf rand db id userID = ⟨none, db, some .Commit⟩) ∧
    (∀ (tf tf1 : TxFaults) (sf sf1 : StmtFaults) (rand rand1 : Nat → String) (db : Db)
        (id userID : Int),
      (Postgres.ConfirmBooking tf sf rand db id userID).err = none →
      tf1.beginTx = none → tf1.commit = none → sf1.bookingForUpdate = none →
      Postgres.ConfirmBooking tf1 sf1 rand1
          (Postgres.ConfirmBooking tf sf rand db id userID).db id userID
        = ⟨none, (Postgres.ConfirmBooking tf sf rand db id userID).db, some .Commit⟩ ∧
      ∀ seed seed1,
        Postgres.Booking seed none []
            (queries.Queries.Booking (Postgres.ConfirmBooking tf sf rand db id userID).db
              { ID := int64 id, UserID := int32 userID }) internal.CapabilityRequestNone
          = Postgres.Booking seed1 none []
            (queries.Queries.Booking
              (Postgres.ConfirmBooking tf1 sf1 rand1
                (Postgres.ConfirmBooking tf sf rand db id userID).db id userID).db
              { ID := int64 id, UserID := int32 userID }) internal.CapabilityRequestNone) := by
  constructor
  · intro tf sf rand db id userID b hb hc hl hkey hmem hid howner hst ⟨u, hu, hub⟩
    have hrow : (⟨b.Status, u.ID⟩ : queries.BookingForUpdateRow) ∈
        queries.Queries.BookingForUpdate db { ID := int64 id, UserID := int32 userID } :=
      (bookingForUpdate_mem db _ _).2 ⟨b, hmem, u, hu, hid, howner, by rw [hub, hid], rfl⟩
    cases hrows : queries.Queries.BookingForUpdate db { ID := int64 id, UserID := int32 userID } with
    | nil => rw [hrows] at hrow; cases hrow
    | cons row0 rest =>
      have h0 : row0 ∈ queries.Queries.BookingForUpdate db
          { ID := int64 id, UserID := int32 userID } := by rw [hrows]; simp
      obtain ⟨b1, hb1, _, _, hb1id, _, _, rfl⟩ := (bookingForUpdate_mem db _ row0).1 h0
      simp only [int64] at hb1id
      have hb1b : b1 = b := List.inj_on_of_nodup_map hkey hb1 hmem (by rw [hb1id, hid])
      subst hb1b
      exact confirmBooking_already tf sf rand db id userID _ rest hb hc hl hrows hst
  · intro tf tf1 sf sf1 rand rand1 db id userID hok hb hc hl
    have hsecond : Postgres.ConfirmBooking tf1 sf1 rand1
          (Postgres.ConfirmBooking tf sf rand db id userID).db id userID
        = ⟨none, (Postgres.ConfirmBooking tf sf rand db id userID).db, some .Commit⟩ := by
      obtain ⟨row0, rest, hrows, hcase⟩ := confirmBooking_ok tf sf rand db id userID hok
      rcases hcase with ⟨hst, hsame⟩ | ⟨_, g, hg, hid, _, _⟩
      · rw [hsame]
        exact confirmBooking_already tf1 sf1 rand1 db id userID row0 rest hb hc hl hrows hst
      · have h0 : row0 ∈ queries.Queries.BookingForUpdate db
            { ID := int64 id, UserID := int32 userID } := by rw [hrows]; simp
        obtain ⟨b1, hb1, u1, hu1, hb1id, hb1user, hu1b, _⟩ :=
          (bookingForUpdate_mem db _ row0).1 h0
        have hrow : (⟨(queries.Queries.setConfirmed id b1).Status, (g u1).ID⟩ :
            queries.BookingForUpdateRow) ∈ queries.Queries.BookingForUpdate
              (Postgres.ConfirmBooking tf sf rand db id userID).db
              { ID := int64 id, UserID := int32 userID } := by
          rw [hg]
          refine (bookingForUpdate_mem _ _ _).2
            ⟨_, List.mem_map_of_mem _ hb1, _, List.mem_map_of_mem _ hu1, ?_, ?_, ?_, rfl⟩
          · rw [(setConfirmed_ID id b1).1]; exact hb1id
          · rw [(setConfirmed_ID id b1).2.1]; exact hb1user
          · rw [(setConfirmed_ID id b1).1, (hid u1).2]; exact hu1b
        cases hrows1 : queries.Queries.BookingForUpdate
            (Postgres.ConfirmBooking tf sf rand db id userID).db
            { ID := int64 id, UserID := int32 userID } with
        | nil => rw [hrows1] at hrow; cases hrow
        | cons r0 rs =>
          have hr0 : r0 ∈ queries.Queries.BookingForUpdate
              (Postgres.ConfirmBooking tf sf rand db id userID).db
              { ID := int64 id, UserID := int32 userID } := by rw [hrows1]; simp
          obtain ⟨b2, hb2, _, _, hb2id, _, _, rfl⟩ := (bookingForUpdate_mem _ _ r0).1 hr0
          rw [hg] at hb2
          obtain ⟨b3, _, rfl⟩ := List.mem_map.1 hb2
          simp only [int64, (setConfirmed_ID id b3).1] at hb2id
          exact confirmBooking_already tf1 sf1 rand1 _ id userID _ rs hb hc hl hrows1
            (setConfirmed_status id b3 hb2id)
    refine ⟨hsecond, ?_⟩
    intro seed seed1
    rw [hsecond]
    apply booking_read_seed
    intro r hr r1 hr1
    rw [((queriesBooking_mem _ _ r).1 hr).2.2.1, ((queriesBooking_mem _ _ r1).1 hr1).2.2.1]

/-- Witness of C4: booking 1 of the example, confirmed, is confirmed again while the
ticket writes would fail; and it is read after one and after two confirmations. -/
theorem confirmBooking_idempotent_witness :
    Postgres.ConfirmBooking noTxFaults secondTicketFails exampleRand confirmedDb 1 9
      = ⟨none, confirmedDb, some .Commit⟩ ∧
    Postgres.Booking 0 none [] (queries.Queries.Booking confirmedDb
        { ID := int64 1, UserID := int32 9 }) internal.CapabilityRequestNone
      = Postgres.Booking 1 none []
        (queries.Queries.Booking
          (Postgres.ConfirmBooking noTxFaults secondTicketFails exampleRand confirmedDb 1 9).db
          { ID := int64 1, UserID := int32 9 }) internal.CapabilityRequestNone :=
  ⟨confirmBooking_idempotent.1 noTxFaults secondTicketFails exampleRand confirmedDb 1 9
      ⟨1, 1, 7, 9, "CONFIRMED"⟩ rfl rfl rfl (by decide) (by decide) rfl (by decide) rfl
      (by decide),
    (confirmBooking_idempotent.2 noTxFaults noTxFaults noStmtFaults secondTicketFails
      exampleRand exampleRand bookedDb 1 9 (by decide) rfl rfl rfl).2 0 1⟩


/-! ### Confirmation of a reserved booking -/

/-- In a table with a primary key, a filter that selects a row and only rows with its key
selects exactly that row. -/
theorem filter_of_key {α : Type} (key : α → Int) (p : α → Bool) (l : List α) (b : α)
    (hkey : (l.map key).Nodup) (hb : b ∈ l) (hp : p b = true)
    (honly : ∀ x ∈ l, p x = true → key x = key b) : l.filter p = [b] := by
  induction l with
  | nil => cases hb
  | cons x xs ih =>
    rw [List.map_cons, List.nodup_cons] at hkey
    rcases List.mem_cons.1 hb with rfl | hb'
    · have hnil : xs.filter p = [] := by
        rw [List.filter_eq_nil_iff]
        intro y hy hpy
        exact hkey.1 (honly y (List.mem_cons_of_mem _ hy) hpy ▸ List.mem_map_of_mem key hy)
      simp [List.filter_cons, hp, hnil]
    · have hx : p x ≠ true := by
        intro hpx
        exact hkey.1 (honly x (List.mem_cons_self _ _) hpx ▸ List.mem_map_of_mem key hb')
      rw [List.filter_cons, if_neg hx]
      exact ih hkey.2 hb' fun y hy => honly y (List.mem_cons_of_mem _ hy)

/-- Rows that all carry the key of the first row have that row as their only first row. -/
theorem firstRows_of_same {R : Type} (key : R → Int) (r0 : R) (rest : List R)
    (h : ∀ r ∈ rest, key r = key r0) : firstRows key (r0 :: rest) = [r0] := by
  have hacc : ∀ (l : List R), (∀ r ∈ l, key r = key r0) →
      l.foldl (fun acc r =>
        if acc.any (fun x => decide (key x = key r)) then acc else acc ++ [r]) [r0] = [r0] := by
    intro l
    induction l with
    | nil => intro _; rfl
    | cons x xs ih =>
      intro hl
      have hx : key r0 = key x := (hl x (List.mem_cons_self _ _)).symm
      simp only [List.foldl_cons, List.any_cons, List.any_nil, Bool.or_false, hx,
        decide_True, if_true]
      exact ih fun r hr => hl r (List.mem_cons_of_mem _ hr)
  simp only [firstRows, List.foldl_cons, List.any_nil, Bool.false_eq_true, if_false,
    List.nil_append]
  exact hacc rest h

/-- The read `queries.Booking` of a booking `b` in a table with a primary key: one row per
unit of `b`, in table order. -/
theorem queriesBooking_of_key (db : Db) (id uid : Int) (b : queries.Booking)
    (hkey : (db.bookings.map fun b => b.ID).Nodup) (hb : b ∈ db.bookings)
    (hid : b.ID = id) (howner : b.UserID = uid) :
    queries.Queries.Booking db { ID := id, UserID := uid }
      = (db.units.filter fun u => decide (u.BookingID = id)).map fun u => ⟨b, u⟩ := by
  have hf : db.bookings.filter (fun x => decide (x.ID = id) && decide (x.UserID = uid))
      = [b] := by
    apply filter_of_key (fun x : queries.Booking => x.ID) _ _ b hkey hb
    · simp [hid, howner]
    · intro x _ hx
      simp only [Bool.and_eq_true, decide_eq_true_eq] at hx
      rw [hx.1, hid]
  simp only [queries.Queries.Booking, hf, List.flatMap_cons, List.flatMap_nil,
    List.append_nil, hid]

/-- Claim C5: for every RESERVED booking owned by the user (as the store sees the user,
`int32(userID)`), booking ids being a primary key, a `Postgres.ConfirmBooking` that
returns nil has set the status of the booking to CONFIRMED and has written a ticket to
every unit of that booking, one of the random strings drawn for the rows of the lookup
(one row per unit), leaving ids and bookings of all units as they were; a later read of
the booking shows status CONFIRMED and all its units, at least one, each with a non-null
ticket. -/
theorem confirmBooking_confirms (tf : TxFaults) (sf : StmtFaults) (rand : Nat → String)
    (db : Db) (id userID : Int) (b : queries.Booking) (seed : Nat)
    (hkey : (db.bookings.map fun b => b.ID).Nodup)
    (hb : b ∈ db.bookings) (hid : b.ID = id) (howner : b.UserID = int32 userID)
    (hst : b.Status = internal.BookingStatusReserved)
    (hok : (Postgres.ConfirmBooking tf sf rand db id userID).err = none) :
    (Postgres.ConfirmBooking tf sf rand db id userID).db.bookings
      = db.bookings.map (queries.Queries.setConfirmed id) ∧
    (∀ b1 ∈ (Postgres.ConfirmBooking tf sf rand db id userID).db.bookings,
      b1.ID = id → b1.Status = internal.BookingStatusConfirmed) ∧
    ((Postgres.ConfirmBooking tf sf rand db id userID).db.units.map
        fun u => (u.ID, u.BookingID)) = (db.units.map fun u => (u.ID, u.BookingID)) ∧
    (∀ u ∈ (Postgres.ConfirmBooking tf sf rand db id userID).db.units, u.BookingID = id →
      u.Ticket.Valid = true ∧
      ∃ j, j < (db.units.filter fun u => decide (u.BookingID = id)).length ∧
        u.Ticket.String = rand j) ∧
    Postgres.Booking seed none []
        (queries.Queries.Booking (Postgres.ConfirmBooking tf sf rand db id userID).db
          { ID := int64 id, UserID := int32 userID }) internal.CapabilityRequestNone
      = some (.ok (.base
          { ID := Itoa id
            Status := internal.BookingStatusConfirmed
            ProductID := Itoa b.ProductID
            AvailabilityID := Itoa b.AvailabilityID
            Units := ((Postgres.ConfirmBooking tf sf rand db id userID).db.units.filter
              fun u => decide (u.BookingID = id)).map fun u => .base (toUnit u) })) ∧
    (∀ u ∈ (Postgres.ConfirmBooking tf sf rand db id userID).db.units, u.BookingID = id →
      (toUnit u).Ticket ≠ none) ∧
    ((Postgres.ConfirmBooking tf sf rand db id userID).db.units.filter
        fun u => decide (u.BookingID = id)) ≠ [] := by
  obtain ⟨row0, rest, hrows, hcase⟩ := confirmBooking_ok tf sf rand db id userID hok
  have h0 : row0 ∈ queries.Queries.BookingForUpdate db
      { ID := int64 id, UserID := int32 userID } := by rw [hrows]; simp
  obtain ⟨b1, hb1, u1, hu1, hb1id, _, hu1b, hrow0⟩ := (bookingForUpdate_mem db _ row0).1 h0
  simp only [int64] at hb1id
  have hb1b : b1 = b := List.inj_on_of_nodup_map hkey hb1 hb (by rw [hb1id, hid])
  subst hb1b
  have hlookup : queries.Queries.BookingForUpdate db { ID := int64 id, UserID := int32 userID }
      = (db.units.filter fun u => decide (u.BookingID = id)).map
          fun u => ⟨b1.Status, u.ID⟩ := by
    have hf : db.bookings.filter
        (fun x => decide (x.ID = int64 id) && decide (x.UserID = int32 userID)) = [b1] := by
      apply filter_of_key (fun x : queries.Booking => x.ID) _ _ b1 hkey hb
      · simp [int64, hid, howner]
      · intro x _ hx
        simp only [Bool.and_eq_true, decide_eq_true_eq, int64] at hx
        rw [hx.1, hid]
    simp only [queries.Queries.BookingForUpdate, hf, List.flatMap_cons, List.flatMap_nil,
      List.append_nil, hid]
  rcases hcase with ⟨hst0, _⟩ | ⟨_, g, hg, hgid, hin, _⟩
  · rw [hrow0, hst] at hst0
    have hne : internal.BookingStatusReserved ≠ internal.BookingStatusConfirmed := by decide
    exact absurd hst0 hne
  · have hunits : ∀ u ∈ (Postgres.ConfirmBooking tf sf rand db id userID).db.units,
        u.BookingID = id → u.Ticket.Valid = true ∧
          ∃ j, j < (db.units.filter fun u => decide (u.BookingID = id)).length ∧
            u.Ticket.String = rand j := by
      intro u hu hub
      rw [hg] at hu
      obtain ⟨u0, hu0, rfl⟩ := List.mem_map.1 hu
      rw [(hgid u0).2] at hub
      have hmem : u0.ID ∈ (queries.Queries.BookingForUpdate db
          { ID := int64 id, UserID := int32 userID }).map (fun r => r.UnitID) := by
        rw [hlookup, List.map_map]
        exact List.mem_map.2 ⟨u0, List.mem_filter.2 ⟨hu0, by simpa using hub⟩, rfl⟩
      obtain ⟨j, row, hj, _, ht⟩ := hin u0 hmem
      rw [ht]
      refine ⟨rfl, j, ?_, rfl⟩
      have := (List.getElem?_eq_some_iff.1 hj).1
      rw [hlookup, List.length_map] at this
      exact this
    have hb' : queries.Queries.setConfirmed id b1
        ∈ (Postgres.ConfirmBooking tf sf rand db id userID).db.bookings := by
      rw [hg]; exact List.mem_map_of_mem _ hb
    have hkey' : ((Postgres.ConfirmBooking tf sf rand db id userID).db.bookings.map
        fun b => b.ID).Nodup := by
      rw [hg]
      simp only [List.map_map]
      have : (fun b : queries.Booking => b.ID) ∘ queries.Queries.setConfirmed id
          = fun b => b.ID := by
        funext x; exact (setConfirmed_ID id x).1
      rw [this]; exact hkey
    have hread := queriesBooking_of_key (Postgres.ConfirmBooking tf sf rand db id userID).db
      id (int32 userID) (queries.Queries.setConfirmed id b1) hkey' hb'
      ((setConfirmed_ID id b1).1.trans hid) ((setConfirmed_ID id b1).2.1.trans howner)
    have hne : ((Postgres.ConfirmBooking tf sf rand db id userID).db.units.filter
        fun u => decide (u.BookingID = id)) ≠ [] := by
      rw [hg]
      apply List.ne_nil_of_mem (a := g u1)
      exact List.mem_filter.2 ⟨List.mem_map_of_mem _ hu1,
        by simp [(hgid u1).2, hu1b, hid]⟩
    refine ⟨by rw [hg], ?_, ?_, hunits, ?_, ?_, hne⟩
    · intro b2 hb2 hb2id
      rw [hg] at hb2
      obtain ⟨b3, _, rfl⟩ := List.mem_map.1 hb2
      rw [(setConfirmed_ID id b3).1] at hb2id
      exact setConfirmed_status id b3 hb2id
    · rw [hg]
      simp only [List.map_map]
      apply List.map_congr_left
      intro u _
      simp [(hgid u).1, (hgid u).2]
    · simp only [int64]
      rw [hread]
      cases hf : (Postgres.ConfirmBooking tf sf rand db id userID).db.units.filter
          (fun u => decide (u.BookingID = id)) with
      | nil => exact absurd hf hne
      | cons v vs =>
        have hsame : ∀ r ∈ (v :: vs).map (fun u => (⟨queries.Queries.setConfirmed id b1, u⟩ :
            queries.BookingRow)), ∀ r1 ∈ (v :: vs).map (fun u =>
              (⟨queries.Queries.setConfirmed id b1, u⟩ : queries.BookingRow)),
            r.Booking.ID = r1.Booking.ID := by
          intro r hr r1 hr1
          obtain ⟨_, _, rfl⟩ := List.mem_map.1 hr
          obtain ⟨_, _, rfl⟩ := List.mem_map.1 hr1
          rfl
        have hcap : ¬ internal.CapabilityRequestNone = internal.CapabilityRequestPrice := by
          decide
        simp only [Postgres.Booking, if_neg hcap, toBookings_single seed _ hsame]
        have hfirst : firstRows (fun r : queries.BookingRow => r.Booking.ID)
            ((v :: vs).map fun u => (⟨queries.Queries.setConfirmed id b1, u⟩ :
              queries.BookingRow))
            = [⟨queries.Queries.setConfirmed id b1, v⟩] := by
          rw [List.map_cons]
          apply firstRows_of_same
          intro r hr
          obtain ⟨_, _, rfl⟩ := List.mem_map.1 hr
          rfl
        simp only [groupRows, hfirst]
        simp [(setConfirmed_ID id b1).1, (setConfirmed_ID id b1).2.2.1,
          (setConfirmed_ID id b1).2.2.2, setConfirmed_status id b1 hid, hid,
          List.filter_eq_self.2, Function.comp]
    · intro u hu hub
      have := (hunits u hu hub).1
      simp [toUnit, nullStringToPtr, this]

/-- Witness of C5: user 9 confirms booking 1 of the example, which has units 1 and 2. -/
theorem confirmBooking_confirms_witness :
    (Postgres.ConfirmBooking noTxFaults noStmtFaults exampleRand bookedDb 1 9).err = none ∧
    Postgres.Booking 2 none []
        (queries.Queries.Booking
          (Postgres.ConfirmBooking noTxFaults noStmtFaults exampleRand bookedDb 1 9).db
          { ID := int64 1, UserID := int32 9 }) internal.CapabilityRequestNone
      = some (.ok (.base
          { ID := Itoa 1
            Status := internal.BookingStatusConfirmed
            ProductID := Itoa 1
            AvailabilityID := Itoa 7
            Units :=
              ((Postgres.ConfirmBooking noTxFaults noStmtFaults exampleRand bookedDb 1 9).db.units.filter
                fun u => decide (u.BookingID = 1)).map fun u => .base (toUnit u) })) ∧
    (∀ u ∈ (Postgres.ConfirmBooking noTxFaults noStmtFaults exampleRand bookedDb 1 9).db.units,
      u.BookingID = 1 → (toUnit u).Ticket ≠ none) :=
  ⟨by decide,
    (confirmBooking_confirms noTxFaults noStmtFaults exampleRand bookedDb 1 9
      { ID := 1, ProductID := 1, AvailabilityID := 7, UserID := 9,
        Status := internal.BookingStatusReserved } 2
      (by decide) (by decide) rfl (by decide) rfl (by decide)).2.2.2.2.1,
    (confirmBooking_confirms noTxFaults noStmtFaults exampleRand bookedDb 1 9
      { ID := 1, ProductID := 1, AvailabilityID := 7, UserID := 9,
        Status := internal.BookingStatusReserved } 2
      (by decide) (by decide) rfl (by decide) rfl (by decide)).2.2.2.2.2.1⟩


/-! ### Aggregate price -/

/-- The fold of the loop body of `toBookingsWithPrice` over rows, from an accumulator. -/
theorem pricedFold_eq (l : List queries.BookingWithPriceRow) (b : internal.BookingWithPrice) :
    l.foldl (fun b r =>
        ({ BookingBase :=
            { b.BookingBase with
              Units := b.BookingBase.Units ++ [.withPrice (toUnitWithPrice r.Unit r.Price)] }
           CapabilityPrice :=
            { Price := b.CapabilityPrice.Price + r.Price.Price, Currency := r.Price.Currency } }
          : internal.BookingWithPrice)) b
      = { BookingBase :=
            { b.BookingBase with
              Units := b.BookingBase.Units
                ++ l.map fun r => .withPrice (toUnitWithPrice r.Unit r.Price) }
          CapabilityPrice :=
            { Price := b.CapabilityPrice.Price + (l.map fun r => r.Price.Price).sum
              Currency := l.foldl (fun _ r => r.Price.Currency) b.CapabilityPrice.Currency } } := by
  induction l generalizing b with
  | nil => simp
  | cons x xs ih => simp [ih, add_assoc]

/-- The map of `toBookingsWithPrice` after its first loop, in closed form: the priced
group of each first row, in first-seen order. -/
theorem toBookingsWithPrice_collect_closed (rows : List queries.BookingWithPriceRow) :
    (toBookingsWithPrice.collect rows).map Prod.snd
      = (firstRows (fun r => r.Booking.ID) rows).map (pricedGroup rows) := by
  simp only [toBookingsWithPrice.collect, toBookingsWithPrice_step_eq, GoMap.collect_eq,
    List.map_map]
  apply List.map_congr_left
  intro r0 _
  simp [pricedFold_eq, pricedGroup, toBooking]

/-- The currency kept by the loop is the currency of one of the rows, when there is one. -/
theorem foldl_currency_mem (l : List queries.BookingWithPriceRow) (c : String)
    (hl : l ≠ []) : ∃ r ∈ l, l.foldl (fun _ r => r.Price.Currency) c = r.Price.Currency := by
  induction l generalizing c with
  | nil => exact absurd rfl hl
  | cons x xs ih =>
    cases xs with
    | nil => exact ⟨x, by simp, rfl⟩
    | cons y ys =>
      obtain ⟨r, hr, h⟩ := ih x.Price.Currency (by simp)
      exact ⟨r, List.mem_cons_of_mem _ hr, h⟩

/-- Claim C11: for every list of rows and every iteration order of the map, each
`BookingWithPrice` returned by `toBookingsWithPrice` is the booking of some booking id of
the rows; its `Price` is the sum of the prices of the rows carrying that id, which is the
sum of the prices of its units; its `Currency` is the currency of a row of that id; and
its units are, in row order, the units of those rows, each with the price and currency of
its own row. Three units at price `p` give the aggregate price `3 * p`, and two units at
100 EUR give 200 EUR. -/
theorem toBookingsWithPrice_price (seed : Nat) (rows : List queries.BookingWithPriceRow) :
    (∀ b ∈ toBookingsWithPrice seed rows, ∃ r0 ∈ rows,
      b.BookingBase.ID = Itoa r0.Booking.ID ∧
      b.CapabilityPrice.Price
        = ((rows.filter fun r => decide (r.Booking.ID = r0.Booking.ID)).map
            fun r => r.Price.Price).sum ∧
      b.CapabilityPrice.Price = (b.BookingBase.Units.map unitPrice).sum ∧
      (∃ r ∈ rows, r.Booking.ID = r0.Booking.ID ∧
        b.CapabilityPrice.Currency = r.Price.Currency) ∧
      b.BookingBase.Units
        = (rows.filter fun r => decide (r.Booking.ID = r0.Booking.ID)).map fun r =>
            .withPrice { UnitBase := toUnit r.Unit
                         CapabilityPrice := { Price := r.Price.Price
                                              Currency := r.Price.Currency } }) ∧
    (∀ (b : queries.Booking) (u1 u2 u3 : queries.Unit) (p : Int) (currency : String),
      (toBookingsWithPrice seed
          [⟨b, u1, ⟨p, currency⟩⟩, ⟨b, u2, ⟨p, currency⟩⟩, ⟨b, u3, ⟨p, currency⟩⟩]).map
        (fun x => x.CapabilityPrice) = [{ Price := 3 * p, Currency := currency }]) ∧
    (toBookingsWithPrice seed [examplePricedRow 1 10, examplePricedRow 1 11]).map
        (fun x => x.CapabilityPrice) = [{ Price := 200, Currency := "EUR" }] := by
  have hperm : (toBookingsWithPrice seed rows).Perm
      ((firstRows (fun r => r.Booking.ID) rows).map (pricedGroup rows)) := by
    rw [← toBookingsWithPrice_collect_closed]
    exact (GoMap.range_perm seed _).map Prod.snd
  have hsingle : ∀ (rs : List queries.BookingWithPriceRow),
      (∀ r ∈ rs, ∀ r1 ∈ rs, r.Booking.ID = r1.Booking.ID) →
      toBookingsWithPrice seed rs
        = (firstRows (fun r => r.Booking.ID) rs).map (pricedGroup rs) := by
    intro rs h
    have hlen : (toBookingsWithPrice.collect rs).length ≤ 1 := by
      have := congrArg List.length (toBookingsWithPrice_collect_closed rs)
      simp only [List.length_map] at this
      rw [this]
      exact firstRows_length_le_one _ rs h
    rw [toBookingsWithPrice, GoMap.range_of_length_le_one seed _ hlen,
      toBookingsWithPrice_collect_closed]
  refine ⟨?_, ?_, ?_⟩
  · intro b hb
    obtain ⟨r0, hr0, rfl⟩ := List.mem_map.1 (hperm.mem_iff.1 hb)
    have hr0rows := firstRows_sub _ rows r0 hr0
    have hne : (rows.filter fun r => decide (r.Booking.ID = r0.Booking.ID)) ≠ [] :=
      List.ne_nil_of_mem (List.mem_filter.2 ⟨hr0rows, by simp⟩)
    obtain ⟨r, hr, hcur⟩ := foldl_currency_mem _ "" hne
    refine ⟨r0, hr0rows, rfl, rfl, ?_, ⟨r, (List.mem_filter.1 hr).1, ?_, hcur⟩, rfl⟩
    · simp only [pricedGroup, List.map_map]
      rfl
    · simpa using (List.mem_filter.1 hr).2
  · intro b u1 u2 u3 p currency
    rw [hsingle _ (by simp), firstRows_of_same _ _ _ (by simp)]
    simp [pricedGroup]
    ring
  · rw [hsingle _ (by decide)]
    decide


/-! ### Renderings and capabilities -/

/-- Claim C12: for every availability row, `toAvailability` yields status AVAILABLE if
and only if the vacancies are positive and SOLD_OUT if and only if they are not,
`Available` is the truth of `Vacancies > 0`, so the status is AVAILABLE exactly when
`Available` is true; with zero vacancies the status is SOLD_OUT and `Available` is
false. -/
theorem toAvailability_status (a : queries.Availability) :
    ((toAvailability a).Status = internal.AvailabilityStatusAvailable ↔ a.Vacancies > 0) ∧
    ((toAvailability a).Status = internal.AvailabilityStatusSoldOut ↔ ¬ a.Vacancies > 0) ∧
    (toAvailability a).Available = decide (a.Vacancies > 0) ∧
    (toAvailability a).Vacancies = a.Vacancies ∧
    ((toAvailability a).Status = internal.AvailabilityStatusAvailable ↔
      (toAvailability a).Available = true) ∧
    (a.Vacancies = 0 →
      (toAvailability a).Status = internal.AvailabilityStatusSoldOut ∧
      (toAvailability a).Available = false) := by
  have hne : internal.AvailabilityStatusSoldOut ≠ internal.AvailabilityStatusAvailable := by
    decide
  by_cases h : a.Vacancies > 0
  · simp [toAvailability, toAvailabilityStatus, h, hne.symm]
    omega
  · simp [toAvailability, toAvailabilityStatus, h, hne]
    try omega

/-- Witness of C12: a row with zero vacancies. -/
theorem toAvailability_status_witness :
    (toAvailability { ID := 7, ProductID := 1, LocalDate := 0, Vacancies := 0 }).Status
      = internal.AvailabilityStatusSoldOut ∧
    (toAvailability { ID := 7, ProductID := 1, LocalDate := 0, Vacancies := 0 }).Available
      = false :=
  (toAvailability_status { ID := 7, ProductID := 1, LocalDate := 0, Vacancies := 0 }).2.2.2.2.2
    rfl

/-- Claim C15: for every header text, `CapabilityRequest.UnmarshalText` returns no error,
yields the PRICE selector if and only if the text is exactly `price`, and yields NONE for
every other text, the empty text of an absent header included; `UnmarshalHTTP` is
`UnmarshalText` of the header. -/
theorem capability_unmarshalText (text : List UInt8) :
    (api.CapabilityRequest.UnmarshalText text).1 = none ∧
    ((api.CapabilityRequest.UnmarshalText text).2 = internal.CapabilityRequestPrice ↔
      text = api.priceText) ∧
    (text ≠ api.priceText →
      (api.CapabilityRequest.UnmarshalText text).2 = internal.CapabilityRequestNone) ∧
    (api.CapabilityRequest.UnmarshalText []).2 = internal.CapabilityRequestNone ∧
    (∀ (β : Type) (r : api.Request β),
      api.CapabilityRequest.UnmarshalHTTP r = api.CapabilityRequest.UnmarshalText r.Capability) := by
  have hne : internal.CapabilityRequestNone ≠ internal.CapabilityRequestPrice := by decide
  refine ⟨?_, ?_, ?_, by decide, ?_⟩
  · unfold api.CapabilityRequest.UnmarshalText; split_ifs <;> rfl
  · unfold api.CapabilityRequest.UnmarshalText
    split_ifs with h
    · simp [h]
    · simp [h, hne]
  · intro h
    simp [api.CapabilityRequest.UnmarshalText, h]
  · intro β r
    unfold api.CapabilityRequest.UnmarshalHTTP
    simp only
    split <;> simp_all

/-- Witness of C15: the header text `p`. -/
theorem capability_unmarshalText_witness :
    (api.CapabilityRequest.UnmarshalText [112]).2 = internal.CapabilityRequestNone :=
  (capability_unmarshalText [112]).2.2.1 (by decide)

/-- The first rows of mapped rows, when the map keeps the key. -/
theorem firstRows_map {R S : Type} (key : R → Int) (key1 : S → Int) (f : R → S)
    (hf : ∀ r, key1 (f r) = key r) (rows : List R) :
    firstRows key1 (rows.map f) = (firstRows key rows).map f := by
  induction rows using List.reverseRecOn with
  | nil => simp [firstRows]
  | append_singleton pre r ih =>
    rw [List.map_append, List.map_cons, List.map_nil, firstRows_snoc, firstRows_snoc, ih]
    have hany : ((firstRows key pre).map f).any (fun r0 => decide (key1 r0 = key1 (f r)))
        = (firstRows key pre).any (fun r0 => decide (key r0 = key r)) := by
      induction firstRows key pre with
      | nil => rfl
      | cons x xs ihx => rw [List.map_cons, List.any_cons, List.any_cons, ihx, hf, hf]
    rw [hany]
    split_ifs <;> simp

/-- Erasing the prices of the priced groups gives the groups of the rows without prices. -/
theorem groupRows_withoutPrice (rows : List queries.BookingWithPriceRow) :
    groupRows (rows.map withoutPrice)
      = (firstRows (fun r => r.Booking.ID) rows).map fun r0 => erasePrice (pricedGroup rows r0) := by
  simp only [groupRows]
  rw [firstRows_map (fun r : queries.BookingWithPriceRow => r.Booking.ID)
    (fun r : queries.BookingRow => r.Booking.ID) withoutPrice (fun _ => rfl), List.map_map]
  apply List.map_congr_left
  intro r0 _
  simp only [Function.comp, erasePrice, pricedGroup, withoutPrice, List.filter_map,
    List.map_map]
  rfl

/-- Claim C14: the base part of the price rendering of a product, an availability or a
unit is the base rendering of the same row; and erasing the price overlay from each
booking of `toBookingsWithPrice` and from its units gives, up to the order of the result,
`toBookings` of the same rows without their prices, and gives exactly that for rows of one
booking, whatever the iteration orders. -/
theorem capability_symmetry (seed seed1 : Nat) (p : queries.Product) (a : queries.Availability)
    (u : queries.Unit) (pr : queries.Price) (rows : List queries.BookingWithPriceRow) :
    (toProductWithPrice p pr).ProductBase = toProduct p ∧
    (toAvailabilityWithPrice a pr).AvailabilityBase = toAvailability a ∧
    (toUnitWithPrice u pr).UnitBase = toUnit u ∧
    ((toBookingsWithPrice seed rows).map erasePrice).Perm
      (toBookings seed1 (rows.map withoutPrice)) ∧
    ((∀ r ∈ rows, ∀ r1 ∈ rows, r.Booking.ID = r1.Booking.ID) →
      (toBookingsWithPrice seed rows).map erasePrice
        = toBookings seed1 (rows.map withoutPrice)) := by
  refine ⟨rfl, rfl, rfl, ?_, ?_⟩
  · have h1 : ((toBookingsWithPrice seed rows).map erasePrice).Perm
        (((firstRows (fun r => r.Booking.ID) rows).map (pricedGroup rows)).map erasePrice) := by
      rw [← toBookingsWithPrice_collect_closed]
      exact ((GoMap.range_perm seed _).map Prod.snd).map _
    have h2 : (toBookings seed1 (rows.map withoutPrice)).Perm
        (groupRows (rows.map withoutPrice)) := by
      rw [← toBookings_collect_eq]
      exact (GoMap.range_perm seed1 _).map Prod.snd
    rw [groupRows_withoutPrice] at h2
    rw [List.map_map] at h1
    exact h1.trans h2.symm
  · intro h
    have hlen : (toBookingsWithPrice.collect rows).length ≤ 1 := by
      have := congrArg List.length (toBookingsWithPrice_collect_closed rows)
      simp only [List.length_map] at this
      rw [this]
      exact firstRows_length_le_one _ rows h
    have h' : ∀ r ∈ rows.map withoutPrice, ∀ r1 ∈ rows.map withoutPrice,
        r.Booking.ID = r1.Booking.ID := by
      intro r hr r1 hr1
      obtain ⟨x, hx, rfl⟩ := List.mem_map.1 hr
      obtain ⟨y, hy, rfl⟩ := List.mem_map.1 hr1
      exact h x hx y hy
    rw [toBookings_single seed1 _ h', groupRows_withoutPrice, toBookingsWithPrice,
      GoMap.range_of_length_le_one seed _ hlen, toBookingsWithPrice_collect_closed,
      List.map_map]
    rfl

/-- Witness of C14: two priced rows of booking 1. -/
theorem capability_symmetry_witness :
    (toBookingsWithPrice 1 [examplePricedRow 1 10, examplePricedRow 1 11]).map erasePrice
      = toBookings 0 ([examplePricedRow 1 10, examplePricedRow 1 11].map withoutPrice) :=
  (capability_symmetry 1 0 { ID := 1, Name := "one", Capacity := 10 }
    { ID := 7, ProductID := 1, LocalDate := 0, Vacancies := 5 }
    { ID := 10, BookingID := 1, Ticket := { String := "", Valid := false } }
    { Price := 100, Currency := "EUR" }
    [examplePricedRow 1 10, examplePricedRow 1 11]).2.2.2.2 (by decide)

/-- The units of a priced group are price-augmented. -/
theorem pricedGroup_units (rows : List queries.BookingWithPriceRow)
    (r0 : queries.BookingWithPriceRow) :
    ∀ u ∈ (pricedGroup rows r0).BookingBase.Units, u.hasPrice = true := by
  intro u hu
  simp only [pricedGroup, List.mem_map] at hu
  obtain ⟨r, _, rfl⟩ := hu
  rfl

/-- A read of the store that succeeds never returns the other variant: the result is of
the price-augmented variant when `CapabilityRequestPrice` is requested and of the base
variant for every other selector value, and the units of a booking are of the variant of
the booking. -/
theorem capability_variant_of_ok (q : queries.Reads) (capability : internal.CapabilityRequest)
    (id productID : Int) (localDate localDateStart localDateEnd : time.Time)
    (seed : Nat) (fault : Option GoError) (priced : List queries.BookingWithPriceRow)
    (plain : List queries.BookingRow) :
    (∀ ps, Postgres.Products q capability = .ok ps →
      ∀ p ∈ ps, p.hasPrice = decide (capability = internal.CapabilityRequestPrice)) ∧
    (∀ p, Postgres.Product q id capability = .ok p →
      p.hasPrice = decide (capability = internal.CapabilityRequestPrice)) ∧
    (∀ a, Postgres.Availability q productID localDate capability = .ok a →
      a.hasPrice = decide (capability = internal.CapabilityRequestPrice)) ∧
    (∀ as, Postgres.Availabilities q productID localDateStart localDateEnd capability = .ok as →
      ∀ a ∈ as, a.hasPrice = decide (capability = internal.CapabilityRequestPrice)) ∧
    (∀ b, Postgres.Booking seed fault priced plain capability = some (.ok b) →
      b.hasPrice = decide (capability = internal.CapabilityRequestPrice) ∧
      ∀ u ∈ b.units, u.hasPrice = b.hasPrice) := by
  by_cases hc : capability = internal.CapabilityRequestPrice
  · refine ⟨?_, ?_, ?_, ?_, ?_⟩
    · intro ps h
      simp only [Postgres.Products, if_pos hc] at h
      cases hq : q.ProductsWithPrices with
      | error e => rw [hq] at h; cases h
      | ok rows =>
        rw [hq] at h
        injection h with h
        subst h
        intro p hp
        simp only [mapp, List.mem_map] at hp
        obtain ⟨_, _, rfl⟩ := hp
        simp [internal.Product.hasPrice, hc]
    · intro p h
      simp only [Postgres.Product, if_pos hc] at h
      cases hq : q.ProductWithPrice (int32 id) with
      | error e => rw [hq] at h; simp only at h; split_ifs at h
      | ok row =>
        rw [hq] at h
        injection h with h
        subst h
        simp [internal.Product.hasPrice, hc]
    · intro a h
      simp only [Postgres.Availability, if_pos hc] at h
      cases hq : q.AvalabilityWithPrice { ProductID := int32 productID, LocalDate := localDate } with
      | error e => rw [hq] at h; simp only at h; split_ifs at h
      | ok row =>
        rw [hq] at h
        injection h with h
        subst h
        simp [internal.Availability.hasPrice, hc]
    · intro as h
      simp only [Postgres.Availabilities, if_pos hc] at h
      cases hq : q.AvalabilityWithPriceRange
          { ProductID := int32 productID, LocalDateStart := localDateStart,
            LocalDateEnd := localDateEnd } with
      | error e => rw [hq] at h; cases h
      | ok rows =>
        rw [hq] at h
        injection h with h
        subst h
        intro a ha
        simp only [mapp, List.mem_map] at ha
        obtain ⟨_, _, rfl⟩ := ha
        simp [internal.Availability.hasPrice, hc]
    · intro b h
      simp only [Postgres.Booking, if_pos hc] at h
      cases fault with
      | some e => simp at h
      | none =>
        simp only at h
        split_ifs at h with hlen
        · simp at h
        · simp only [Option.map_eq_some'] at h
          obtain ⟨x, hx, hb⟩ := h
          injection hb with hb
          subst hb
          refine ⟨by simp [internal.Booking.hasPrice, hc], ?_⟩
          intro u hu
          have hmem : x ∈ toBookingsWithPrice seed priced := List.mem_of_mem_head? hx
          have hperm : (toBookingsWithPrice seed priced).Perm
              ((firstRows (fun r => r.Booking.ID) priced).map (pricedGroup priced)) := by
            rw [← toBookingsWithPrice_collect_closed]
            exact (GoMap.range_perm seed _).map Prod.snd
          obtain ⟨r0, _, rfl⟩ := List.mem_map.1 (hperm.mem_iff.1 hmem)
          exact pricedGroup_units priced r0 u hu
  · refine ⟨?_, ?_, ?_, ?_, ?_⟩
    · intro ps h
      simp only [Postgres.Products, if_neg hc] at h
      cases hq : q.Products with
      | error e => rw [hq] at h; cases h
      | ok rows =>
        rw [hq] at h
        injection h with h
        subst h
        intro p hp
        simp only [mapp, List.mem_map] at hp
        obtain ⟨_, _, rfl⟩ := hp
        simp [internal.Product.hasPrice, hc]
    · intro p h
      simp only [Postgres.Product, if_neg hc] at h
      cases hq : q.Product (int32 id) with
      | error e => rw [hq] at h; simp only at h; split_ifs at h
      | ok row =>
        rw [hq] at h
        injection h with h
        subst h
        simp [internal.Product.hasPrice, hc]
    · intro a h
      simp only [Postgres.Availability, if_neg hc] at h
      cases hq : q.Avalability { ProductID := int32 productID, LocalDate := localDate } with
      | error e => rw [hq] at h; simp only at h; split_ifs at h
      | ok row =>
        rw [hq] at h
        injection h with h
        subst h
        simp [internal.Availability.hasPrice, hc]
    · intro as h
      simp only [Postgres.Availabilities, if_neg hc] at h
      cases hq : q.AvalabilityRange
          { ProductID := int32 productID, LocalDateStart := localDateStart,
            LocalDateEnd := localDateEnd } with
      | error e => rw [hq] at h; cases h
      | ok rows =>
        rw [hq] at h
        injection h with h
        subst h
        intro a ha
        simp only [mapp, List.mem_map] at ha
        obtain ⟨_, _, rfl⟩ := ha
        simp [internal.Availability.hasPrice, hc]
    · intro b h
      simp only [Postgres.Booking, if_neg hc] at h
      cases fault with
      | some e => simp at h
      | none =>
        simp only at h
        split_ifs at h with hlen
        · simp at h
        · simp only [Option.map_eq_some'] at h
          obtain ⟨x, hx, hb⟩ := h
          injection hb with hb
          subst hb
          refine ⟨by simp [internal.Booking.hasPrice, hc], ?_⟩
          intro u hu
          have hmem : x ∈ toBookings seed plain := List.mem_of_mem_head? hx
          have hperm : (toBookings seed plain).Perm (groupRows plain) := by
            rw [← toBookings_collect_eq]
            exact (GoMap.range_perm seed _).map Prod.snd
          obtain ⟨r0, _, rfl⟩ := List.mem_map.1 (hperm.mem_iff.1 hmem)
          simp only [internal.Booking.units, List.mem_map] at hu
          obtain ⟨_, _, rfl⟩ := hu
          rfl

/-- The store's read of a booking never panics: after the check for an empty result the
grouped list has an element. -/
theorem booking_no_panic (seed : Nat) (fault : Option GoError)
    (priced : List queries.BookingWithPriceRow) (plain : List queries.BookingRow)
    (capability : internal.CapabilityRequest) :
    Postgres.Booking seed fault priced plain capability ≠ none := by
  have hp : ∀ rows : List queries.BookingWithPriceRow, rows.length ≠ 0 →
      (toBookingsWithPrice seed rows).head? ≠ none := by
    intro rows hlen
    have hperm : (toBookingsWithPrice seed rows).Perm
        ((firstRows (fun r => r.Booking.ID) rows).map (pricedGroup rows)) := by
      rw [← toBookingsWithPrice_collect_closed]
      exact (GoMap.range_perm seed _).map Prod.snd
    obtain ⟨x, hx⟩ := List.exists_mem_of_length_pos (Nat.pos_of_ne_zero hlen)
    obtain ⟨r0, hr0, _⟩ := (firstRows_key_mem (fun r : queries.BookingWithPriceRow =>
      r.Booking.ID) rows x.Booking.ID).2 ⟨x, hx, rfl⟩
    have hmem := hperm.mem_iff.2 (List.mem_map_of_mem (pricedGroup rows) hr0)
    intro hnone
    rw [List.head?_eq_none_iff] at hnone
    rw [hnone] at hmem
    cases hmem
  have hb : ∀ rows : List queries.BookingRow, rows.length ≠ 0 →
      (toBookings seed rows).head? ≠ none := by
    intro rows hlen
    have hperm : (toBookings seed rows).Perm (groupRows rows) := by
      rw [← toBookings_collect_eq]
      exact (GoMap.range_perm seed _).map Prod.snd
    obtain ⟨x, hx⟩ := List.exists_mem_of_length_pos (Nat.pos_of_ne_zero hlen)
    obtain ⟨r0, hr0, _⟩ := (firstRows_key_mem (fun r : queries.BookingRow =>
      r.Booking.ID) rows x.Booking.ID).2 ⟨x, hx, rfl⟩
    have hmem : _ ∈ toBookings seed rows :=
      hperm.mem_iff.2 (List.mem_map_of_mem _ hr0)
    intro hnone
    rw [List.head?_eq_none_iff] at hnone
    rw [hnone] at hmem
    cases hmem
  unfold Postgres.Booking
  cases fault with
  | some e => split_ifs <;> simp
  | none =>
    by_cases hc : capability = internal.CapabilityRequestPrice
    · simp only [if_pos hc]
      by_cases hlen : priced.length = 0
      · simp [hlen]
      · simp only [if_neg hlen]
        simpa using hp priced hlen
    · simp only [if_neg hc]
      by_cases hlen : plain.length = 0
      · simp [hlen]
      · simp only [if_neg hlen]
        simpa using hb plain hlen

/-- Claim C13: capability selects the variant, for every read of the store and whatever
the statements return. A read that succeeds returns the price-augmented variant when
`CapabilityRequestPrice` is requested and the base variant for every other selector value
(every product of `Products`, the product of `Product`, the availability of
`Availability`, every availability of `Availabilities`, and the booking of `Booking`,
whose units are all of the variant of the booking). And the read does succeed whenever
its statement does: with `CapabilityRequestPrice` the result is the price-augmented
conversion of what the priced statement returns, element by element, and with any other
selector the base conversion of what the plain statement returns; `Booking`, when its
statement returns rows, returns a booking of the requested variant that is one of the
bookings grouped from those rows. -/
theorem capability_variant (q : queries.Reads) (capability : internal.CapabilityRequest)
    (id productID : Int) (localDate localDateStart localDateEnd : time.Time)
    (seed : Nat) (fault : Option GoError) (priced : List queries.BookingWithPriceRow)
    (plain : List queries.BookingRow) :
    ((∀ ps, Postgres.Products q capability = .ok ps →
        ∀ p ∈ ps, p.hasPrice = decide (capability = internal.CapabilityRequestPrice)) ∧
      (∀ p, Postgres.Product q id capability = .ok p →
        p.hasPrice = decide (capability = internal.CapabilityRequestPrice)) ∧
      (∀ a, Postgres.Availability q productID localDate capability = .ok a →
        a.hasPrice = decide (capability = internal.CapabilityRequestPrice)) ∧
      (∀ as, Postgres.Availabilities q productID localDateStart localDateEnd capability
          = .ok as →
        ∀ a ∈ as, a.hasPrice = decide (capability = internal.CapabilityRequestPrice)) ∧
      (∀ b, Postgres.Booking seed fault priced plain capability = some (.ok b) →
        b.hasPrice = decide (capability = internal.CapabilityRequestPrice) ∧
        ∀ u ∈ b.units, u.hasPrice = b.hasPrice)) ∧
    (capability = internal.CapabilityRequestPrice →
      (∀ rows, q.ProductsWithPrices = .ok rows →
        Postgres.Products q capability
          = .ok (rows.map fun pp => .withPrice (toProductWithPrice pp.Product pp.Price))) ∧
      (∀ row, q.ProductWithPrice (int32 id) = .ok row →
        Postgres.Product q id capability
          = .ok (.withPrice (toProductWithPrice row.Product row.Price))) ∧
      (∀ row, q.AvalabilityWithPrice { ProductID := int32 productID, LocalDate := localDate }
          = .ok row →
        Postgres.Availability q productID localDate capability
          = .ok (.withPrice (toAvailabilityWithPrice row.Availability row.Price))) ∧
      (∀ rows, q.AvalabilityWithPriceRange
          { ProductID := int32 productID, LocalDateStart := localDateStart,
            LocalDateEnd := localDateEnd } = .ok rows →
        Postgres.Availabilities q productID localDateStart localDateEnd capability
          = .ok (rows.map fun a =>
              .withPrice (toAvailabilityWithPrice a.Availability a.Price))) ∧
      (priced ≠ [] →
        ∃ b, Postgres.Booking seed none priced plain capability = some (.ok (.withPrice b)) ∧
          b ∈ toBookingsWithPrice seed priced)) ∧
    (capability ≠ internal.CapabilityRequestPrice →
      (∀ rows, q.Products = .ok rows →
        Postgres.Products q capability = .ok (rows.map fun p => .base (toProduct p))) ∧
      (∀ row, q.Product (int32 id) = .ok row →
        Postgres.Product q id capability = .ok (.base (toProduct row))) ∧
      (∀ row, q.Avalability { ProductID := int32 productID, LocalDate := localDate }
          = .ok row →
        Postgres.Availability q productID localDate capability
          = .ok (.base (toAvailability row))) ∧
      (∀ rows, q.AvalabilityRange
          { ProductID := int32 productID, LocalDateStart := localDateStart,
            LocalDateEnd := localDateEnd } = .ok rows →
        Postgres.Availabilities q productID localDateStart localDateEnd capability
          = .ok (rows.map fun a => .base (toAvailability a))) ∧
      (plain ≠ [] →
        ∃ b, Postgres.Booking seed none priced plain capability = some (.ok (.base b)) ∧
          b ∈ toBookings seed plain)) := by
  refine ⟨capability_variant_of_ok q capability id productID localDate localDateStart
    localDateEnd seed fault priced plain, ?_, ?_⟩
  · intro hc
    refine ⟨?_, ?_, ?_, ?_, ?_⟩
    · intro rows h
      simp only [Postgres.Products, if_pos hc, h, mapp]
    · intro row h
      simp only [Postgres.Product, if_pos hc, h]
    · intro row h
      simp only [Postgres.Availability, if_pos hc, h]
    · intro rows h
      simp only [Postgres.Availabilities, if_pos hc, h, mapp]
    · intro hne
      have hlen : ¬ priced.length = 0 := fun h => hne (List.length_eq_zero.1 h)
      have hnp := booking_no_panic seed none priced plain capability
      simp only [Postgres.Booking, if_pos hc, if_neg hlen] at hnp ⊢
      cases hh : (toBookingsWithPrice seed priced).head? with
      | none => rw [hh] at hnp; exact absurd rfl hnp
      | some b => exact ⟨b, rfl, List.mem_of_mem_head? hh⟩
  · intro hc
    refine ⟨?_, ?_, ?_, ?_, ?_⟩
    · intro rows h
      simp only [Postgres.Products, if_neg hc, h, mapp]
    · intro row h
      simp only [Postgres.Product, if_neg hc, h]
    · intro row h
      simp only [Postgres.Availability, if_neg hc, h]
    · intro rows h
      simp only [Postgres.Availabilities, if_neg hc, h, mapp]
    · intro hne
      have hlen : ¬ plain.length = 0 := fun h => hne (List.length_eq_zero.1 h)
      have hnp := booking_no_panic seed none priced plain capability
      simp only [Postgres.Booking, if_neg hc, if_neg hlen] at hnp ⊢
      cases hh : (toBookings seed plain).head? with
      | none => rw [hh] at hnp; exact absurd rfl hnp
      | some b => exact ⟨b, rfl, List.mem_of_mem_head? hh⟩

/-- Witness of C13 on statements that all find a row: with the price capability each of
the five reads succeeds and returns the price-augmented variant; without it the reads of
the product, of the availability and of the booking return the base variant. -/
theorem capability_variant_witness :
    Postgres.Products stockedReads internal.CapabilityRequestPrice
      = .ok [.withPrice { ProductBase := { ID := "1", Name := "one", Capacity := 10 },
                          CapabilityPrice := { Price := 100, Currency := "EUR" } },
             .withPrice { ProductBase := { ID := "2", Name := "two", Capacity := 20 },
                          CapabilityPrice := { Price := 100, Currency := "EUR" } }] ∧
    Postgres.Product stockedReads 1 internal.CapabilityRequestPrice
      = .ok (.withPrice { ProductBase := { ID := "1", Name := "one", Capacity := 10 },
                          CapabilityPrice := { Price := 100, Currency := "EUR" } }) ∧
    Postgres.Availability stockedReads 1 5 internal.CapabilityRequestPrice
      = .ok (.withPrice
          { AvailabilityBase := { ID := "7", LocalDate := 5,
                                  Status := internal.AvailabilityStatusAvailable,
                                  Vacancies := 5, Available := true },
            CapabilityPrice := { Price := 100, Currency := "EUR" } }) ∧
    Postgres.Availabilities stockedReads 1 5 9 internal.CapabilityRequestPrice
      = .ok [.withPrice
          { AvailabilityBase := { ID := "7", LocalDate := 5,
                                  Status := internal.AvailabilityStatusAvailable,
                                  Vacancies := 5, Available := true },
            CapabilityPrice := { Price := 100, Currency := "EUR" } }] ∧
    (∃ b, Postgres.Booking 0 none [examplePricedRow 1 1] [exampleRow 1 1]
        internal.CapabilityRequestPrice = some (.ok (.withPrice b)) ∧
      b ∈ toBookingsWithPrice 0 [examplePricedRow 1 1]) ∧
    Postgres.Product stockedReads 1 internal.CapabilityRequestNone
      = .ok (.base { ID := "1", Name := "one", Capacity := 10 }) ∧
    Postgres.Availability stockedReads 1 5 internal.CapabilityRequestNone
      = .ok (.base { ID := "7", LocalDate := 5,
                     Status := internal.AvailabilityStatusAvailable,
                     Vacancies := 5, Available := true }) ∧
    (∃ b, Postgres.Booking 0 none [examplePricedRow 1 1] [exampleRow 1 1]
        internal.CapabilityRequestNone = some (.ok (.base b)) ∧
      b ∈ toBookings 0 [exampleRow 1 1]) ∧
    (∀ p, Postgres.Product stockedReads 1 internal.CapabilityRequestPrice = .ok p →
      p.hasPrice = true) :=
  have hp := (capability_variant stockedReads internal.CapabilityRequestPrice 1 1 5 5 9 0 none
    [examplePricedRow 1 1] [exampleRow 1 1]).2.1 rfl
  have hn := (capability_variant stockedReads internal.CapabilityRequestNone 1 1 5 5 9 0 none
    [examplePricedRow 1 1] [exampleRow 1 1]).2.2 (by decide)
  ⟨hp.1 _ rfl, hp.2.1 _ rfl, hp.2.2.1 _ rfl, hp.2.2.2.1 _ rfl, hp.2.2.2.2 (by decide),
    hn.2.1 _ rfl, hn.2.2.1 _ rfl, hn.2.2.2.2 (by decide),
    (capability_variant stockedReads internal.CapabilityRequestPrice 1 1 5 5 9 0 none
      [examplePricedRow 1 1] [exampleRow 1 1]).1.2.1⟩

/-! ### The HTTP handlers -/

/-- The handlers never fail to decode the capability. -/
theorem unmarshalHTTP_eq {β : Type} (r : api.Request β) :
    api.CapabilityRequest.UnmarshalHTTP r
      = (none, (api.CapabilityRequest.UnmarshalText r.Capability).2) := by
  unfold api.CapabilityRequest.UnmarshalHTTP api.CapabilityRequest.UnmarshalText
  simp only
  split_ifs <;> rfl

/-- Claim C16: for every single-date request (the body decodes and its local date is not
the zero date), the handler answers 200 with the list of exactly the one availability
when the service returns one, 200 with the empty list when the service's error matches
`internal.ErrNotFound`, and the failure response 500 only when the service's error does
not match it; the status is never 404. -/
theorem availability_single_date {σ : Type} (a : api.Service σ) (s : σ)
    (r : api.Request api.AvailabilityRequest) (req : api.AvailabilityRequest)
    (hbody : r.body = .ok req) (hdate : time.Time.IsZero req.LocalDate = false) :
    (∀ av s1,
      a.Availability s req.ProductID req.LocalDate
          (api.CapabilityRequest.UnmarshalText r.Capability).2 = (.ok av, s1) →
      api.API.Availability a s r = (⟨200, .availabilities [av]⟩, s1)) ∧
    (∀ err s1,
      a.Availability s req.ProductID req.LocalDate
          (api.CapabilityRequest.UnmarshalText r.Capability).2 = (.error err, s1) →
      errorsIs err .internalErrNotFound = true →
      api.API.Availability a s r = (⟨200, .availabilities []⟩, s1)) ∧
    (∀ err s1,
      a.Availability s req.ProductID req.LocalDate
          (api.CapabilityRequest.UnmarshalText r.Capability).2 = (.error err, s1) →
      errorsIs err .internalErrNotFound = false →
      api.API.Availability a s r
        = (⟨500, .error ⟨500, "failed to get availability", [err.Error]⟩⟩, s1)) ∧
    (api.API.Availability a s r).1.status ≠ 404 := by
  have hmain : api.API.Availability a s r
      = match api.API.singleAvailability a s req
          (api.CapabilityRequest.UnmarshalText r.Capability).2 with
        | (.error err, s1) =>
          (api.writeError "failed to get availability" api.StatusInternalServerError
            [err.Error], s1)
        | (.ok availabilities, s1) =>
          (api.writeJSON api.StatusOK (.availabilities availabilities), s1) := by
    simp only [api.API.Availability, unmarshalHTTP_eq, hbody, hdate]
    rfl
  refine ⟨?_, ?_, ?_, ?_⟩
  · intro av s1 h
    rw [hmain]
    simp [api.API.singleAvailability, h, api.writeJSON, api.StatusOK]
  · intro err s1 h hnf
    rw [hmain]
    simp [api.API.singleAvailability, h, hnf, api.writeJSON, api.StatusOK]
  · intro err s1 h hnf
    rw [hmain]
    simp [api.API.singleAvailability, h, hnf, api.writeJSON, api.writeError,
      api.StatusInternalServerError]
  · rw [hmain]
    simp only [api.API.singleAvailability]
    rcases a.Availability s req.ProductID req.LocalDate
        (api.CapabilityRequest.UnmarshalText r.Capability).2 with ⟨res, s1⟩
    cases res with
    | ok av => simp [api.writeJSON, api.StatusOK]
    | error err =>
      simp only
      split_ifs <;> simp [api.writeJSON, api.writeError, api.StatusOK,
        api.StatusInternalServerError]

/-- Witness of C16: the service does not find the availability of product 1 on date 5. -/
theorem availability_single_date_witness :
    api.API.Availability (mockService notFoundCanned) [] singleDateRequest
      = (⟨200, .availabilities []⟩, [.Availability 1 5 internal.CapabilityRequestNone]) :=
  (availability_single_date (mockService notFoundCanned) [] singleDateRequest
    { ProductID := 1, LocalDate := 5, LocalDateStart := 0, LocalDateEnd := 0 } rfl rfl).2.1
    internal.ErrNotFound _ rfl (by decide)

/-- Claim C18: for every decoded availability request, when the local date is not the
zero date the handler answers from the single-date lookup (`service.Availability` with
the product id, the local date and the capability), and when it is the zero date from the
range lookup (`service.Availabilities` with the product id, start, end and capability),
returning the service's list unchanged with status 200, or 500 on its error. Against a
mock service the single call made is the single-date lookup if and only if the local date
is not zero, and the range lookup if and only if it is. -/
theorem availability_dispatch {σ : Type} (a : api.Service σ) (s : σ)
    (r : api.Request api.AvailabilityRequest) (req : api.AvailabilityRequest) (c : Canned)
    (log : List Call) (hbody : r.body = .ok req) :
    (time.Time.IsZero req.LocalDate = false →
      api.API.Availability a s r
        = match api.API.singleAvailability a s req
            (api.CapabilityRequest.UnmarshalText r.Capability).2 with
          | (.error err, s1) =>
            (⟨500, .error ⟨500, "failed to get availability", [err.Error]⟩⟩, s1)
          | (.ok availabilities, s1) => (⟨200, .availabilities availabilities⟩, s1)) ∧
    (time.Time.IsZero req.LocalDate = true →
      api.API.Availability a s r
        = match a.Availabilities s req.ProductID req.LocalDateStart req.LocalDateEnd
            (api.CapabilityRequest.UnmarshalText r.Capability).2 with
          | (.error err, s1) =>
            (⟨500, .error ⟨500, "failed to get availability", [err.Error]⟩⟩, s1)
          | (.ok availabilities, s1) => (⟨200, .availabilities availabilities⟩, s1)) ∧
    ((api.API.Availability (mockService c) log r).2
        = log ++ [.Availability req.ProductID req.LocalDate
            (api.CapabilityRequest.UnmarshalText r.Capability).2] ↔
      time.Time.IsZero req.LocalDate = false) ∧
    ((api.API.Availability (mockService c) log r).2
        = log ++ [.Availabilities req.ProductID req.LocalDateStart req.LocalDateEnd
            (api.CapabilityRequest.UnmarshalText r.Capability).2] ↔
      time.Time.IsZero req.LocalDate = true) := by
  have h1 : time.Time.IsZero req.LocalDate = false →
      api.API.Availability a s r
        = match api.API.singleAvailability a s req
            (api.CapabilityRequest.UnmarshalText r.Capability).2 with
          | (.error err, s1) =>
            (⟨500, .error ⟨500, "failed to get availability", [err.Error]⟩⟩, s1)
          | (.ok availabilities, s1) => (⟨200, .availabilities availabilities⟩, s1) := by
    intro hz
    simp only [api.API.Availability, unmarshalHTTP_eq, hbody, hz]
    rfl
  have h2 : time.Time.IsZero req.LocalDate = true →
      api.API.Availability a s r
        = match a.Availabilities s req.ProductID req.LocalDateStart req.LocalDateEnd
            (api.CapabilityRequest.UnmarshalText r.Capability).2 with
          | (.error err, s1) =>
            (⟨500, .error ⟨500, "failed to get availability", [err.Error]⟩⟩, s1)
          | (.ok availabilities, s1) => (⟨200, .availabilities availabilities⟩, s1) := by
    intro hz
    simp only [api.API.Availability, unmarshalHTTP_eq, hbody, hz]
    rfl
  have hlog1 : time.Time.IsZero req.LocalDate = false →
      (api.API.Availability (mockService c) log r).2
        = log ++ [.Availability req.ProductID req.LocalDate
            (api.CapabilityRequest.UnmarshalText r.Capability).2] := by
    intro hz
    simp only [api.API.Availability, unmarshalHTTP_eq, hbody, hz, api.API.singleAvailability,
      mockService]
    cases c.availability with
    | ok av => rfl
    | error err =>
      simp only [Bool.not_false, if_true]
      split_ifs <;> rfl
  have hlog2 : time.Time.IsZero req.LocalDate = true →
      (api.API.Availability (mockService c) log r).2
        = log ++ [.Availabilities req.ProductID req.LocalDateStart req.LocalDateEnd
            (api.CapabilityRequest.UnmarshalText r.Capability).2] := by
    intro hz
    simp only [api.API.Availability, unmarshalHTTP_eq, hbody, hz, mockService]
    cases c.availabilities <;> rfl
  refine ⟨h1, h2, ⟨?_, hlog1⟩, ⟨?_, hlog2⟩⟩
  · intro h
    cases hz : time.Time.IsZero req.LocalDate with
    | false => rfl
    | true =>
      rw [hlog2 hz] at h
      simp at h
  · intro h
    cases hz : time.Time.IsZero req.LocalDate with
    | true => rfl
    | false =>
      rw [hlog1 hz] at h
      simp at h

/-- Witness of C18: a range request with the price capability. -/
theorem availability_dispatch_witness :
    (api.API.Availability (mockService exampleCanned) [] rangeRequest).2
      = [.Availabilities 1 5 9 internal.CapabilityRequestPrice] :=
  (availability_dispatch (mockService exampleCanned) [] rangeRequest
    { ProductID := 1, LocalDate := 0, LocalDateStart := 5, LocalDateEnd := 9 } exampleCanned []
    rfl).2.2.2.2 rfl

/-- Claim C17, as amended: on the single-date availability path a lookup for a product
that does not exist is treated like a missing date. A product without availability rows
makes the read find no row; whenever the read finds no row the store reports
`service.ErrNotFound` and the API answers 200 with the empty list. A generic failure, the
response 500, is what an error of the driver gives. -/
theorem availability_missing_product {σ : Type} (base : api.Service σ) (q : queries.Reads)
    (s : σ) (r : api.Request api.AvailabilityRequest) (req : api.AvailabilityRequest) (db : Db)
    (hbody : r.body = .ok req) (hdate : time.Time.IsZero req.LocalDate = false) :
    ((∃ e, q.Avalability { ProductID := int32 req.ProductID, LocalDate := req.LocalDate }
            = .error e ∧ errorsIs e .sqlErrNoRows = true) →
     (∃ e, q.AvalabilityWithPrice { ProductID := int32 req.ProductID, LocalDate := req.LocalDate }
            = .error e ∧ errorsIs e .sqlErrNoRows = true) →
      (∀ capability, Postgres.Availability q req.ProductID req.LocalDate capability
        = .error service.ErrNotFound) ∧
      api.API.Availability (withStoreAvailability q base) s r
        = (⟨200, .availabilities []⟩, s)) ∧
    ((∀ a ∈ db.availabilities, a.ProductID ≠ int32 req.ProductID) →
      queries.Queries.Avalability db
          { ProductID := int32 req.ProductID, LocalDate := req.LocalDate }
        = .error (.sentinel .sqlErrNoRows)) ∧
    (∀ code,
      q.Avalability { ProductID := int32 req.ProductID, LocalDate := req.LocalDate }
        = .error (.sentinel (.driver code)) →
      q.AvalabilityWithPrice { ProductID := int32 req.ProductID, LocalDate := req.LocalDate }
        = .error (.sentinel (.driver code)) →
      api.API.Availability (withStoreAvailability q base) s r
        = (⟨500, .error ⟨500, "failed to get availability",
            [(GoError.wrap "get availability" (.sentinel (.driver code))).Error]⟩⟩, s)) := by
  refine ⟨?_, ?_, ?_⟩
  · rintro ⟨e, he, hee⟩ ⟨e1, he1, hee1⟩
    have hstore : ∀ capability, Postgres.Availability q req.ProductID req.LocalDate capability
        = .error service.ErrNotFound := by
      intro capability
      by_cases hc : capability = internal.CapabilityRequestPrice
      · simp [Postgres.Availability, hc, he1, hee1]
      · simp [Postgres.Availability, hc, he, hee]
    refine ⟨hstore, ?_⟩
    simp only [api.API.Availability, unmarshalHTTP_eq, hbody, hdate, api.API.singleAvailability,
      withStoreAvailability, service.Service.Availability, hstore]
    simp [service.ErrNotFound, internal.ErrNotFound, errorsIs, api.writeJSON, api.StatusOK]
  · intro h
    have hfind : db.availabilities.find? (fun a =>
        decide (a.ProductID = int32 req.ProductID) && decide (a.LocalDate = req.LocalDate))
        = none := by
      rw [List.find?_eq_none]
      intro a ha
      simp [h a ha]
    simp [queries.Queries.Avalability, hfind]
  · intro code he he1
    have hstore : ∀ capability, Postgres.Availability q req.ProductID req.LocalDate capability
        = .error (.sentinel (.driver code)) := by
      intro capability
      by_cases hc : capability = internal.CapabilityRequestPrice
      · simp [Postgres.Availability, hc, he1, errorsIs]
      · simp [Postgres.Availability, hc, he, errorsIs]
    simp only [api.API.Availability, unmarshalHTTP_eq, hbody, hdate, api.API.singleAvailability,
      withStoreAvailability, service.Service.Availability, hstore]
    simp [errorsIs, api.writeJSON, api.writeError, api.StatusInternalServerError]

/-- Witness of C17: product 2 has no row in the example state. -/
theorem availability_missing_product_witness :
    (∀ a ∈ exampleDb.availabilities, a.ProductID ≠ int32 2) ∧
    api.API.Availability (withStoreAvailability (readsOf exampleDb) (mockService exampleCanned))
        [] missingProductRequest
      = (⟨200, .availabilities []⟩, []) :=
  ⟨by decide,
    ((availability_missing_product (mockService exampleCanned) (readsOf exampleDb) []
      missingProductRequest
      { ProductID := 2, LocalDate := 5, LocalDateStart := 0, LocalDateEnd := 0 } exampleDb
      rfl rfl).1
      ⟨.sentinel .sqlErrNoRows, rfl, by decide⟩
      ⟨.sentinel .sqlErrNoRows, rfl, by decide⟩).2⟩

/-- Counterexample to C17 as stated: product 2 does not occur in the example state, and
the single-date lookup for it is answered with 200 and the empty list, not with the
failure response 500: the store reports `service.ErrNotFound`, and the response is the
one given for product 1 on a date without a row. -/
theorem availability_missing_product_counterexample :
    (∀ a ∈ exampleDb.availabilities, a.ProductID ≠ 2) ∧
    (api.API.Availability
        (withStoreAvailability (readsOf exampleDb) (mockService exampleCanned))
        [] missingProductRequest).1 = ⟨200, .availabilities []⟩ ∧
    (api.API.Availability
        (withStoreAvailability (readsOf exampleDb) (mockService exampleCanned))
        [] missingProductRequest).1.status ≠ 500 ∧
    Postgres.Availability (readsOf exampleDb) 2 5 internal.CapabilityRequestNone
      = .error service.ErrNotFound ∧
    (api.API.Availability
        (withStoreAvailability (readsOf exampleDb) (mockService exampleCanned))
        [] missingProductRequest).1
      = (api.API.Availability
        (withStoreAvailability (readsOf exampleDb) (mockService exampleCanned))
        [] singleDateRequest).1 :=
  ⟨by decide, rfl, by decide, rfl, rfl⟩

/-- Claim C19: for every decodable create-booking request, the handler responds 409 with
the error body of code 409 and message `not available` whenever the service's error
matches `internal.ErrNotAvailable`, and 500 for every other service error; in both cases
the only call of the service is `CreateBooking`, no booking is read. On success it
responds with what `API.booking` gives for the created id, the calling user and the
requested capability, and the service is called twice: `CreateBooking`, then `Booking`. -/
theorem createBooking_status {σ : Type} (a : api.Service σ) (s : σ)
    (r : api.Request api.BookingRequest) (req : api.BookingRequest) (c : Canned)
    (log : List Call) (hbody : r.body = .ok req) :
    (∀ id err s1,
      a.CreateBooking s
          { ProductID := req.ProductID, AvailabilityID := req.AvailabilityID,
            Units := req.Units, UserID := (api.ContextUser r).1.ID } = ((id, some err), s1) →
      errorsIs err .internalErrNotAvailable = true →
      api.API.CreateBooking a s r = (⟨409, .error ⟨409, "not available", []⟩⟩, s1)) ∧
    (∀ id err s1,
      a.CreateBooking s
          { ProductID := req.ProductID, AvailabilityID := req.AvailabilityID,
            Units := req.Units, UserID := (api.ContextUser r).1.ID } = ((id, some err), s1) →
      errorsIs err .internalErrNotAvailable = false →
      api.API.CreateBooking a s r
        = (⟨500, .error ⟨500, "failed to create booking", [err.Error]⟩⟩, s1)) ∧
    (∀ id s1,
      a.CreateBooking s
          { ProductID := req.ProductID, AvailabilityID := req.AvailabilityID,
            Units := req.Units, UserID := (api.ContextUser r).1.ID } = ((id, none), s1) →
      api.API.CreateBooking a s r
        = api.API.booking a s1 id (api.ContextUser r).1.ID
            (api.CapabilityRequest.UnmarshalText r.Capability).2) ∧
    (c.createBooking.2 ≠ none →
      (api.API.CreateBooking (mockService c) log r).2
        = log ++ [.CreateBooking
            { ProductID := req.ProductID, AvailabilityID := req.AvailabilityID,
              Units := req.Units, UserID := (api.ContextUser r).1.ID }]) ∧
    (c.createBooking.2 = none →
      (api.API.CreateBooking (mockService c) log r).2
        = log ++ [.CreateBooking
            { ProductID := req.ProductID, AvailabilityID := req.AvailabilityID,
              Units := req.Units, UserID := (api.ContextUser r).1.ID },
            .Booking c.createBooking.1 (api.ContextUser r).1.ID
              (api.CapabilityRequest.UnmarshalText r.Capability).2]) := by
  refine ⟨?_, ?_, ?_, ?_, ?_⟩
  · intro id err s1 h hna
    simp only [api.API.CreateBooking, unmarshalHTTP_eq, hbody, h, hna]
    rfl
  · intro id err s1 h hna
    simp only [api.API.CreateBooking, unmarshalHTTP_eq, hbody, h, hna]
    rfl
  · intro id s1 h
    simp only [api.API.CreateBooking, unmarshalHTTP_eq, hbody, h]
  · intro hne
    obtain ⟨e, he⟩ := Option.ne_none_iff_exists'.1 hne
    have hc : c.createBooking = (c.createBooking.1, some e) := Prod.ext rfl he
    simp only [api.API.CreateBooking, unmarshalHTTP_eq, hbody, mockService]
    rw [hc]
    simp only
    split_ifs <;> rfl
  · intro hnone
    have hc : c.createBooking = (c.createBooking.1, none) := Prod.ext rfl hnone
    simp only [api.API.CreateBooking, unmarshalHTTP_eq, hbody, mockService]
    rw [hc]
    simp only [api.API.booking]
    cases c.booking with
    | ok b => simp
    | error err =>
      simp only
      split_ifs <;> simp

/-- A read of a booking that yields no row makes the store report `service.ErrNotFound`,
for either capability. -/
theorem bookingIn_not_found (seed : Nat) (prices : List (Int × queries.Price)) (db : Db)
    (id userID : Int) (capability : internal.CapabilityRequest)
    (h : ∀ b ∈ db.bookings, b.ID = id → b.UserID ≠ int32 userID) :
    Postgres.Booking seed none
        (queries.Queries.BookingWithPrice db prices { ID := int64 id, UserID := int32 userID })
        (queries.Queries.Booking db { ID := int64 id, UserID := int32 userID }) capability
      = some (.error service.ErrNotFound) ∧
    Postgres.BookingIn seed prices db id userID capability = .error service.ErrNotFound := by
  have hrows : queries.Queries.Booking db { ID := int64 id, UserID := int32 userID } = [] := by
    rw [List.eq_nil_iff_forall_not_mem]
    intro row hrow
    obtain ⟨hb, _, hid, huser, _⟩ := (queriesBooking_mem db _ row).1 hrow
    exact h row.Booking hb hid huser
  have hpriced : queries.Queries.BookingWithPrice db prices
      { ID := int64 id, UserID := int32 userID } = [] := by
    simp [queries.Queries.BookingWithPrice, hrows]
  have hstore : Postgres.Booking seed none
        (queries.Queries.BookingWithPrice db prices { ID := int64 id, UserID := int32 userID })
        (queries.Queries.Booking db { ID := int64 id, UserID := int32 userID }) capability
      = some (.error service.ErrNotFound) := by
    rw [hrows, hpriced]
    by_cases hc : capability = internal.CapabilityRequestPrice <;> simp [Postgres.Booking, hc]
  exact ⟨hstore, by simp only [Postgres.BookingIn, hstore]⟩

/-- Claim C20: for every database state in which booking ids are a primary key, every
calling user (whose id is a stored, 32-bit user id) and either capability, reading a
booking that exists but is owned by a different user and reading an id that does not
exist give the same response: status 404 with the error body of code 404 and message
`booking not found`, without details, which holds none of the booking's data. -/
theorem booking_ownership_hidden {β : Type} (seed : Nat) (prices : List (Int × queries.Price))
    (base : api.Service Db) (db : Db) (r r1 : api.Request β) (id id1 : Int)
    (user : internal.User) (b : queries.Booking)
    (hid : r.id = .ok id) (hid1 : r1.id = .ok id1)
    (huser : r.user = some user) (huser1 : r1.user = some user)
    (hrange : int32 user.ID = user.ID)
    (hkey : (db.bookings.map fun b => b.ID).Nodup)
    (hb : b ∈ db.bookings) (hbid : b.ID = id) (hother : b.UserID ≠ user.ID)
    (hmissing : ∀ b1 ∈ db.bookings, b1.ID ≠ id1) :
    api.API.Booking (withStoreBooking seed prices base) db r
      = (⟨404, .error ⟨404, "booking not found", []⟩⟩, db) ∧
    api.API.Booking (withStoreBooking seed prices base) db r1
      = (⟨404, .error ⟨404, "booking not found", []⟩⟩, db) ∧
    api.API.Booking (withStoreBooking seed prices base) db r
      = api.API.Booking (withStoreBooking seed prices base) db r1 := by
  have hnf : ∀ (req : api.Request β) (i : Int), req.id = .ok i → req.user = some user →
      (∀ b1 ∈ db.bookings, b1.ID = i → b1.UserID ≠ int32 user.ID) →
      api.API.Booking (withStoreBooking seed prices base) db req
        = (⟨404, .error ⟨404, "booking not found", []⟩⟩, db) := by
    intro req i hi hu hno
    have hstore := (bookingIn_not_found seed prices db i user.ID
      (api.CapabilityRequest.UnmarshalText req.Capability).2 hno).2
    simp only [api.API.Booking, unmarshalHTTP_eq, hi, api.ContextUser, hu, api.API.booking,
      withStoreBooking, service.Service.Booking, hstore]
    simp [service.ErrNotFound, internal.ErrNotFound, errorsIs, api.writeError, api.writeJSON,
      api.StatusNotFound]
  have h1 := hnf r id hid huser (by
    intro b1 hb1 hb1id
    have : b1 = b := List.inj_on_of_nodup_map hkey hb1 hb (by rw [hb1id, hbid])
    rw [this, hrange]
    exact hother)
  have h2 := hnf r1 id1 hid1 huser1 (fun b1 hb1 hb1id => absurd hb1id (hmissing b1 hb1))
  exact ⟨h1, h2, h1.trans h2.symm⟩

/-- Witness of C19: the service reports that nothing is available. -/
theorem createBooking_status_witness :
    api.API.CreateBooking (mockService conflictCanned) [] createRequest
      = (⟨409, .error ⟨409, "not available", []⟩⟩,
          [.CreateBooking { ProductID := 1, AvailabilityID := 123, Units := 1, UserID := 456 }]) :=
  (createBooking_status (mockService conflictCanned) [] createRequest
    { ProductID := 1, AvailabilityID := 123, Units := 1 } conflictCanned [] rfl).1
    0 internal.ErrNotAvailable _ rfl (by decide)

/-- Witness of C20: user 8 reads booking 1, which user 9 owns, and booking 5, which does
not exist. -/
theorem booking_ownership_hidden_witness :
    api.API.Booking (withStoreBooking 0 [] (cannedService exampleCanned)) confirmedDb
        (getRequest 1 8)
      = api.API.Booking (withStoreBooking 0 [] (cannedService exampleCanned)) confirmedDb
        (getRequest 5 8) :=
  (booking_ownership_hidden 0 [] (cannedService exampleCanned) confirmedDb
    (getRequest 1 8) (getRequest 5 8) 1 5 { ID := 8, Email := "" }
    { ID := 1, ProductID := 1, AvailabilityID := 7, UserID := 9,
      Status := internal.BookingStatusConfirmed }
    rfl rfl rfl rfl (by decide) (by decide) (by decide) rfl (by decide) (by decide)).2.2

/-! ### The service's error translation -/

/-- Wrapping an error with `%w` does not change the sentinels it matches. -/
theorem errorsIs_wrap (msg : String) (err : GoError) (t : Sentinel) :
    errorsIs (.wrap msg err) t = errorsIs err t := rfl

/-- The error of the Postgres store's `CreateBooking` is `service.ErrNotAvailable`, or the
failure of the driver wrapped as `create booking: ...`. -/
theorem postgres_createBooking_error (fault : Option GoError) (db : Db)
    (params : service.CreateBookingParams) (err : GoError)
    (h : (Postgres.CreateBooking fault db params).1.2 = some err) :
    err = service.ErrNotAvailable ∨
      ∃ f, fault = some f ∧ errorsIs f .sqlErrNoRows = false ∧ err = .wrap "create booking" f := by
  simp only [Postgres.CreateBooking] at h
  rcases hq : queries.Queries.CreateBooking fault db
      { ProductID := int32 params.ProductID, AvailabilityID := int32 params.AvailabilityID,
        Units := int32 params.Units, UserID := int32 params.UserID } with ⟨res, db1⟩
  rw [hq] at h
  cases res with
  | ok id => simp at h
  | error e =>
    simp only at h
    by_cases hno : errorsIs e .sqlErrNoRows = true
    · rw [if_pos hno] at h
      simp only [Option.some.injEq] at h
      exact Or.inl h.symm
    · rw [if_neg hno] at h
      simp only [Option.some.injEq] at h
      refine Or.inr ⟨e, ?_, by simpa using hno, h.symm⟩
      cases fault with
      | some f =>
        simp only [queries.Queries.CreateBooking, Prod.mk.injEq, Except.error.injEq] at hq
        rw [hq.1]
      | none =>
        simp only [queries.Queries.CreateBooking] at hq
        split_ifs at hq
        · simp at hq
        · simp only [Prod.mk.injEq, Except.error.injEq] at hq
          rw [← hq.1] at hno
          exact absurd rfl hno

/-- Claim C21: `Service.CreateBooking` calls the store with the product id, availability
id, units and user id of the request unchanged; it returns exactly
`internal.ErrNotAvailable` with id 0 if and only if the store returned an error that
matches `service.ErrNotAvailable`; it returns the store's id unchanged on success; and for
every other store error it returns id 0 with the store's error wrapped as
`create booking: ...`, which matches exactly the sentinels the store's error matches. This
holds over every store. For the store of the program, `Postgres.CreateBooking`, whose
error is `service.ErrNotAvailable` or a wrapped failure of the driver (an error value
that is none of the sentinels of the domain layer), the wrapped error matches neither
`internal.ErrNotAvailable` nor `internal.ErrNotFound`; the same holds over any store whose
error matches neither. -/
theorem service_createBooking_errors {σ : Type}
    (dbCreateBooking : σ → service.CreateBookingParams → (Int × Option GoError) × σ)
    (s : σ) (req : internal.CreateBookingRequest) (id : Int) (e : Option GoError) (s1 : σ)
    (fault : Option GoError) (db : Db)
    (hstore : dbCreateBooking s
      { ProductID := req.ProductID, AvailabilityID := req.AvailabilityID,
        Units := req.Units, UserID := req.UserID } = ((id, e), s1))
    (hdriver : ∀ f, fault = some f →
      errorsIs f .internalErrNotAvailable = false ∧ errorsIs f .internalErrNotFound = false) :
    ((service.Service.CreateBooking dbCreateBooking s req).2 = s1 ∧
      ((service.Service.CreateBooking dbCreateBooking s req).1
          = (0, some internal.ErrNotAvailable) ↔
        ∃ err, e = some err ∧ errorsIs err .serviceErrNotAvailable = true) ∧
      ((service.Service.CreateBooking dbCreateBooking s req).1.2
          = some internal.ErrNotAvailable ↔
        ∃ err, e = some err ∧ errorsIs err .serviceErrNotAvailable = true) ∧
      (e = none → (service.Service.CreateBooking dbCreateBooking s req).1 = (id, none)) ∧
      (∀ err, e = some err → errorsIs err .serviceErrNotAvailable = false →
        (service.Service.CreateBooking dbCreateBooking s req).1
            = (0, some (.wrap "create booking" err)) ∧
        (∀ t, errorsIs (.wrap "create booking" err) t = errorsIs err t) ∧
        (errorsIs err .internalErrNotAvailable = false →
          errorsIs (.wrap "create booking" err) .internalErrNotAvailable = false) ∧
        (errorsIs err .internalErrNotFound = false →
          errorsIs (.wrap "create booking" err) .internalErrNotFound = false))) ∧
    ((service.Service.CreateBooking (Postgres.CreateBooking fault) db req).2
        = (Postgres.CreateBooking fault db
            { ProductID := req.ProductID, AvailabilityID := req.AvailabilityID,
              Units := req.Units, UserID := req.UserID }).2 ∧
      ((service.Service.CreateBooking (Postgres.CreateBooking fault) db req).1
          = (0, some internal.ErrNotAvailable) ↔
        ∃ err, (Postgres.CreateBooking fault db
            { ProductID := req.ProductID, AvailabilityID := req.AvailabilityID,
              Units := req.Units, UserID := req.UserID }).1.2 = some err ∧
          errorsIs err .serviceErrNotAvailable = true) ∧
      ((Postgres.CreateBooking fault db
            { ProductID := req.ProductID, AvailabilityID := req.AvailabilityID,
              Units := req.Units, UserID := req.UserID }).1.2 = none →
        (service.Service.CreateBooking (Postgres.CreateBooking fault) db req).1
          = ((Postgres.CreateBooking fault db
              { ProductID := req.ProductID, AvailabilityID := req.AvailabilityID,
                Units := req.Units, UserID := req.UserID }).1.1, none)) ∧
      (∀ err, (Postgres.CreateBooking fault db
            { ProductID := req.ProductID, AvailabilityID := req.AvailabilityID,
              Units := req.Units, UserID := req.UserID }).1.2 = some err →
        errorsIs err .serviceErrNotAvailable = false →
        (service.Service.CreateBooking (Postgres.CreateBooking fault) db req).1
            = (0, some (.wrap "create booking" err)) ∧
        errorsIs (.wrap "create booking" err) .internalErrNotAvailable = false ∧
        errorsIs (.wrap "create booking" err) .internalErrNotFound = false)) := by
  have hgen : ∀ {τ : Type}
      (store : τ → service.CreateBookingParams → (Int × Option GoError) × τ) (t : τ)
      (id : Int) (e : Option GoError) (t1 : τ),
      store t (service.CreateBookingParams.mk req.ProductID req.AvailabilityID req.Units
        req.UserID) = ((id, e), t1) →
      (service.Service.CreateBooking store t req).2 = t1 ∧
      ((service.Service.CreateBooking store t req).1 = (0, some internal.ErrNotAvailable) ↔
        ∃ err, e = some err ∧ errorsIs err .serviceErrNotAvailable = true) ∧
      ((service.Service.CreateBooking store t req).1.2 = some internal.ErrNotAvailable ↔
        ∃ err, e = some err ∧ errorsIs err .serviceErrNotAvailable = true) ∧
      (e = none → (service.Service.CreateBooking store t req).1 = (id, none)) ∧
      (∀ err, e = some err → errorsIs err .serviceErrNotAvailable = false →
        (service.Service.CreateBooking store t req).1
            = (0, some (.wrap "create booking" err)) ∧
        (∀ t, errorsIs (.wrap "create booking" err) t = errorsIs err t) ∧
        (errorsIs err .internalErrNotAvailable = false →
          errorsIs (.wrap "create booking" err) .internalErrNotAvailable = false) ∧
        (errorsIs err .internalErrNotFound = false →
          errorsIs (.wrap "create booking" err) .internalErrNotFound = false)) := by
    intro τ store t id e t1 hst
    simp only [service.Service.CreateBooking, hst]
    cases e with
    | none => simp
    | some err =>
      by_cases h : errorsIs err .serviceErrNotAvailable = true
      · simp [h]
      · have hf : errorsIs err .serviceErrNotAvailable = false := by simpa using h
        simp [hf, errorsIs, internal.ErrNotAvailable]
  refine ⟨hgen dbCreateBooking s id e s1 hstore, ?_⟩
  rcases hpg : Postgres.CreateBooking fault db
      { ProductID := req.ProductID, AvailabilityID := req.AvailabilityID,
        Units := req.Units, UserID := req.UserID } with ⟨⟨pid, pe⟩, db1⟩
  obtain ⟨g1, g2, _, g4, g5⟩ := hgen (Postgres.CreateBooking fault) db pid pe db1 hpg
  refine ⟨g1, g2, g4, ?_⟩
  intro err herr hno
  obtain ⟨w1, _, w3, w4⟩ := g5 err herr hno
  have hpe : (Postgres.CreateBooking fault db
      { ProductID := req.ProductID, AvailabilityID := req.AvailabilityID,
        Units := req.Units, UserID := req.UserID }).1.2 = some err := by rw [hpg]; exact herr
  rcases postgres_createBooking_error fault db _ err hpe with hna | ⟨f, hf, _, hw⟩
  · rw [hna] at hno
    exact absurd hno (by decide)
  · obtain ⟨d1, d2⟩ := hdriver f hf
    have e1 : errorsIs err .internalErrNotAvailable = false := by rw [hw]; exact d1
    have e2 : errorsIs err .internalErrNotFound = false := by rw [hw]; exact d2
    exact ⟨w1, w3 e1, w4 e2⟩

/-- Witness for C21 on the example state: a request for 9 units of an availability with 5
vacancies is refused by the store with `service.ErrNotAvailable`, and the service returns
`internal.ErrNotAvailable` with id 0; a request for 3 units succeeds, and the service
returns the store's id 1; and when the driver fails, the service returns id 0 with the
store's error wrapped, which matches neither `internal.ErrNotAvailable` nor
`internal.ErrNotFound`. -/
theorem service_createBooking_errors_witness :
    (service.Service.CreateBooking (Postgres.CreateBooking none) exampleDb
        (exampleRequest 9)).1 = (0, some internal.ErrNotAvailable) ∧
    (service.Service.CreateBooking (Postgres.CreateBooking none) exampleDb
        (exampleRequest 3)).1 = (1, none) ∧
    ((service.Service.CreateBooking (Postgres.CreateBooking (some (.sentinel (.driver 1))))
        exampleDb (exampleRequest 3)).1
      = (0, some (.wrap "create booking" (.wrap "create booking" (.sentinel (.driver 1))))) ∧
      errorsIs (.wrap "create booking" (.wrap "create booking" (.sentinel (.driver 1))))
        .internalErrNotAvailable = false ∧
      errorsIs (.wrap "create booking" (.wrap "create booking" (.sentinel (.driver 1))))
        .internalErrNotFound = false) :=
  ⟨(service_createBooking_errors (Postgres.CreateBooking none) exampleDb (exampleRequest 9)
      0 (some service.ErrNotAvailable) exampleDb none exampleDb rfl
      (fun _ h => Option.noConfusion h)).1.2.1.2 ⟨_, rfl, by decide⟩,
    (service_createBooking_errors (Postgres.CreateBooking none) exampleDb (exampleRequest 3)
      1 none (Postgres.CreateBooking none exampleDb (exampleParams 3)).2 none exampleDb rfl
      (fun _ h => Option.noConfusion h)).2.2.2.1 rfl,
    (service_createBooking_errors (Postgres.CreateBooking none) exampleDb (exampleRequest 3)
      1 none (Postgres.CreateBooking none exampleDb (exampleParams 3)).2
      (some (.sentinel (.driver 1))) exampleDb rfl
      (fun f h => by
        have hf : f = .sentinel (.driver 1) := (Option.some.inj h).symm
        subst hf
        exact ⟨by decide, by decide⟩)).2.2.2.2
      (.wrap "create booking" (.sentinel (.driver 1))) rfl (by decide)⟩

/-- Claim C22: for each of `Service.Product`, `Service.Availability`,
`Service.ConfirmBooking` and `Service.Booking`, over every store and every argument: the
result is exactly `internal.ErrNotFound` if and only if the store returned an error that
matches `service.ErrNotFound`; every other store error is returned wrapped with the
operation's message, and the wrapped error matches exactly the sentinels that the store's
error matches; a success of the store is returned unchanged. The state the store leaves
is passed on in every case. -/
theorem service_not_found_translation {σ : Type}
    (dbProduct : σ → Int → internal.CapabilityRequest → Except GoError internal.Product × σ)
    (dbAvailability : σ → Int → time.Time → internal.CapabilityRequest →
      Except GoError internal.Availability × σ)
    (dbConfirmBooking : σ → Int → Int → Option GoError × σ)
    (dbBooking : σ → Int → Int → internal.CapabilityRequest →
      Except GoError internal.Booking × σ)
    (s : σ) (id userID : Int) (localDate : time.Time)
    (capability : internal.CapabilityRequest) :
    ((service.Service.Product dbProduct s id capability).2 = (dbProduct s id capability).2 ∧
      ((service.Service.Product dbProduct s id capability).1 = .error internal.ErrNotFound ↔
        ∃ err, (dbProduct s id capability).1 = .error err ∧
          errorsIs err .serviceErrNotFound = true) ∧
      (∀ err, (dbProduct s id capability).1 = .error err →
        errorsIs err .serviceErrNotFound = false →
        (service.Service.Product dbProduct s id capability).1
            = .error (.wrap "get product" err) ∧
        ∀ t, errorsIs (.wrap "get product" err) t = errorsIs err t) ∧
      (∀ product, (dbProduct s id capability).1 = .ok product →
        (service.Service.Product dbProduct s id capability).1 = .ok product)) ∧
    ((service.Service.Availability dbAvailability s id localDate capability).2
        = (dbAvailability s id localDate capability).2 ∧
      ((service.Service.Availability dbAvailability s id localDate capability).1
          = .error internal.ErrNotFound ↔
        ∃ err, (dbAvailability s id localDate capability).1 = .error err ∧
          errorsIs err .serviceErrNotFound = true) ∧
      (∀ err, (dbAvailability s id localDate capability).1 = .error err →
        errorsIs err .serviceErrNotFound = false →
        (service.Service.Availability dbAvailability s id localDate capability).1
            = .error (.wrap "get availability" err) ∧
        ∀ t, errorsIs (.wrap "get availability" err) t = errorsIs err t) ∧
      (∀ availability, (dbAvailability s id localDate capability).1 = .ok availability →
        (service.Service.Availability dbAvailability s id localDate capability).1
          = .ok availability)) ∧
    ((service.Service.ConfirmBooking dbConfirmBooking s id userID).2
        = (dbConfirmBooking s id userID).2 ∧
      ((service.Service.ConfirmBooking dbConfirmBooking s id userID).1
          = some internal.ErrNotFound ↔
        ∃ err, (dbConfirmBooking s id userID).1 = some err ∧
          errorsIs err .serviceErrNotFound = true) ∧
      (∀ err, (dbConfirmBooking s id userID).1 = some err →
        errorsIs err .serviceErrNotFound = false →
        (service.Service.ConfirmBooking dbConfirmBooking s id userID).1
            = some (.wrap "confirm booking" err) ∧
        ∀ t, errorsIs (.wrap "confirm booking" err) t = errorsIs err t) ∧
      ((dbConfirmBooking s id userID).1 = none →
        (service.Service.ConfirmBooking dbConfirmBooking s id userID).1 = none)) ∧
    ((service.Service.Booking dbBooking s id userID capability).2
        = (dbBooking s id userID capability).2 ∧
      ((service.Service.Booking dbBooking s id userID capability).1
          = .error internal.ErrNotFound ↔
        ∃ err, (dbBooking s id userID capability).1 = .error err ∧
          errorsIs err .serviceErrNotFound = true) ∧
      (∀ err, (dbBooking s id userID capability).1 = .error err →
        errorsIs err .serviceErrNotFound = false →
        (service.Service.Booking dbBooking s id userID capability).1
            = .error (.wrap "get booking" err) ∧
        ∀ t, errorsIs (.wrap "get booking" err) t = errorsIs err t) ∧
      (∀ booking, (dbBooking s id userID capability).1 = .ok booking →
        (service.Service.Booking dbBooking s id userID capability).1 = .ok booking)) := by
  refine ⟨?_, ?_, ?_, ?_⟩
  · simp only [service.Service.Product]
    rcases h : dbProduct s id capability with ⟨r, s1⟩
    cases r with
    | ok p => simp
    | error err =>
      by_cases hm : errorsIs err .serviceErrNotFound = true
      · simp [hm]
      · have hf : errorsIs err .serviceErrNotFound = false := by simpa using hm
        simp [hf, errorsIs, internal.ErrNotFound]
  · simp only [service.Service.Availability]
    rcases h : dbAvailability s id localDate capability with ⟨r, s1⟩
    cases r with
    | ok p => simp
    | error err =>
      by_cases hm : errorsIs err .serviceErrNotFound = true
      · simp [hm]
      · have hf : errorsIs err .serviceErrNotFound = false := by simpa using hm
        simp [hf, errorsIs, internal.ErrNotFound]
  · simp only [service.Service.ConfirmBooking]
    rcases h : dbConfirmBooking s id userID with ⟨r, s1⟩
    cases r with
    | none => simp
    | some err =>
      by_cases hm : errorsIs err .serviceErrNotFound = true
      · simp [hm]
      · have hf : errorsIs err .serviceErrNotFound = false := by simpa using hm
        simp [hf, errorsIs, internal.ErrNotFound]
  · simp only [service.Service.Booking]
    rcases h : dbBooking s id userID capability with ⟨r, s1⟩
    cases r with
    | ok p => simp
    | error err =>
      by_cases hm : errorsIs err .serviceErrNotFound = true
      · simp [hm]
      · have hf : errorsIs err .serviceErrNotFound = false := by simpa using hm
        simp [hf, errorsIs, internal.ErrNotFound]

/-- Witness for C22: a driver failure of the product store is returned wrapped as
`get product: ...`, a store that finds no availability gives `internal.ErrNotFound`, and
a confirmation that succeeds is returned as success. -/
theorem service_not_found_translation_witness :
    (service.Service.Product failingProductStore () 1 internal.CapabilityRequestNone).1
      = .error (.wrap "get product" (.sentinel (.driver 1))) ∧
    (service.Service.Availability emptyAvailabilityStore () 1 0
        internal.CapabilityRequestNone).1 = .error internal.ErrNotFound ∧
    (service.Service.ConfirmBooking confirmingStore () 1 9).1 = none ∧
    (service.Service.Booking emptyBookingStore () 1 9 internal.CapabilityRequestNone).1
      = .error internal.ErrNotFound :=
  have h := service_not_found_translation failingProductStore emptyAvailabilityStore
    confirmingStore emptyBookingStore () 1 9 0 internal.CapabilityRequestNone
  ⟨(h.1.2.2.1 _ rfl (by decide)).1, h.2.1.2.1.2 ⟨_, rfl, by decide⟩, h.2.2.1.2.2.2 rfl,
    h.2.2.2.2.1.2 ⟨_, rfl, by decide⟩⟩

/-! ### The guard of the booking read -/

/-- Filtering rows by a key they all carry keeps them all. -/
theorem filter_same_key {R : Type} (key : R → Int) (rows : List R) (k : Int)
    (h : ∀ r ∈ rows, key r = k) : rows.filter (fun r => decide (key r = k)) = rows :=
  List.filter_eq_self.2 fun r hr => by simpa using h r hr

/-- For priced rows of a single booking id the result of `toBookingsWithPrice` is the
priced group of the first row. -/
theorem toBookingsWithPrice_same (seed : Nat) (r0 : queries.BookingWithPriceRow)
    (rest : List queries.BookingWithPriceRow)
    (h : ∀ r ∈ rest, r.Booking.ID = r0.Booking.ID) :
    toBookingsWithPrice seed (r0 :: rest) = [pricedGroup (r0 :: rest) r0] := by
  have hfirst := firstRows_of_same (fun r : queries.BookingWithPriceRow => r.Booking.ID) r0 rest h
  have hclosed := toBookingsWithPrice_collect_closed (r0 :: rest)
  rw [hfirst] at hclosed
  have hlen : (toBookingsWithPrice.collect (r0 :: rest)).length ≤ 1 := by
    have := congrArg List.length hclosed
    simp only [List.length_map, List.length_singleton] at this
    omega
  rw [toBookingsWithPrice, GoMap.range_of_length_le_one seed _ hlen, hclosed]
  rfl

/-- For rows of a single booking id the result of `toBookings` is the group of the first
row. -/
theorem toBookings_same (seed : Nat) (r0 : queries.BookingRow) (rest : List queries.BookingRow)
    (h : ∀ r ∈ rest, r.Booking.ID = r0.Booking.ID) :
    ∃ b, toBookings seed (r0 :: rest) = [b] ∧ b.Units.length = (r0 :: rest).length := by
  have hall : ∀ r ∈ r0 :: rest, r.Booking.ID = r0.Booking.ID := by
    intro r hr
    rcases List.mem_cons.1 hr with rfl | hr
    · rfl
    · exact h r hr
  have hsingle := toBookings_single seed (r0 :: rest)
    (fun r hr r1 hr1 => (hall r hr).trans (hall r1 hr1).symm)
  have hfirst := firstRows_of_same (fun r : queries.BookingRow => r.Booking.ID) r0 rest h
  rw [groupRows, hfirst, List.map_singleton] at hsingle
  refine ⟨_, hsingle, ?_⟩
  simp only [List.length_map]
  rw [filter_same_key (fun r : queries.BookingRow => r.Booking.ID) (r0 :: rest) _ hall]

/-- Claim C29: `Postgres.Booking` never indexes an empty list. For every non-empty list of
rows and every iteration order of the map, `toBookings` and `toBookingsWithPrice` are
non-empty; when all rows carry the same booking id they hold exactly one booking, whose
number of units is the number of rows; with an empty list of rows (and no failure of the
read) `Postgres.Booking` returns `service.ErrNotFound`; and in no case does
`Postgres.Booking` end in the panic of indexing an empty slice. -/
theorem booking_never_indexes_empty (seed : Nat) (rows : List queries.BookingRow)
    (priced : List queries.BookingWithPriceRow) (fault : Option GoError)
    (capability : internal.CapabilityRequest) :
    (rows ≠ [] → toBookings seed rows ≠ []) ∧
    (priced ≠ [] → toBookingsWithPrice seed priced ≠ []) ∧
    (rows ≠ [] → (∀ r ∈ rows, ∀ r1 ∈ rows, r.Booking.ID = r1.Booking.ID) →
      ∃ b, toBookings seed rows = [b] ∧ b.Units.length = rows.length) ∧
    (priced ≠ [] → (∀ r ∈ priced, ∀ r1 ∈ priced, r.Booking.ID = r1.Booking.ID) →
      ∃ b, toBookingsWithPrice seed priced = [b] ∧
        b.BookingBase.Units.length = priced.length) ∧
    (capability = internal.CapabilityRequestPrice →
      Postgres.Booking seed none [] rows capability = some (.error service.ErrNotFound)) ∧
    (capability ≠ internal.CapabilityRequestPrice →
      Postgres.Booking seed none priced [] capability = some (.error service.ErrNotFound)) ∧
    Postgres.Booking seed fault priced rows capability ≠ none := by
  refine ⟨?_, ?_, ?_, ?_, ?_, ?_, booking_no_panic seed fault priced rows capability⟩
  · intro hne hnil
    have hperm : (toBookings seed rows).Perm (groupRows rows) := by
      rw [← toBookings_collect_eq]
      exact (GoMap.range_perm seed _).map Prod.snd
    rw [hnil] at hperm
    have hg : groupRows rows = [] := List.perm_nil.1 hperm.symm
    obtain ⟨x, hx⟩ := List.exists_mem_of_ne_nil rows hne
    obtain ⟨r0, hr0, _⟩ := (firstRows_key_mem (fun r : queries.BookingRow => r.Booking.ID)
      rows x.Booking.ID).2 ⟨x, hx, rfl⟩
    simp only [groupRows, List.map_eq_nil_iff] at hg
    rw [hg] at hr0
    cases hr0
  · intro hne hnil
    have hperm : (toBookingsWithPrice seed priced).Perm
        ((firstRows (fun r => r.Booking.ID) priced).map (pricedGroup priced)) := by
      rw [← toBookingsWithPrice_collect_closed]
      exact (GoMap.range_perm seed _).map Prod.snd
    rw [hnil] at hperm
    have hg := List.perm_nil.1 hperm.symm
    obtain ⟨x, hx⟩ := List.exists_mem_of_ne_nil priced hne
    obtain ⟨r0, hr0, _⟩ := (firstRows_key_mem (fun r : queries.BookingWithPriceRow =>
      r.Booking.ID) priced x.Booking.ID).2 ⟨x, hx, rfl⟩
    simp only [List.map_eq_nil_iff] at hg
    rw [hg] at hr0
    cases hr0
  · intro hne hsame
    match rows, hne, hsame with
    | r0 :: rest, _, hsame =>
      exact toBookings_same seed r0 rest fun r hr =>
        hsame r (List.mem_cons_of_mem _ hr) r0 (List.mem_cons_self _ _)
  · intro hne hsame
    match priced, hne, hsame with
    | r0 :: rest, _, hsame =>
      have hrest : ∀ r ∈ rest, r.Booking.ID = r0.Booking.ID := fun r hr =>
        hsame r (List.mem_cons_of_mem _ hr) r0 (List.mem_cons_self _ _)
      have hall : ∀ r ∈ r0 :: rest, r.Booking.ID = r0.Booking.ID := by
        intro r hr
        rcases List.mem_cons.1 hr with rfl | hr
        · rfl
        · exact hrest r hr
      refine ⟨_, toBookingsWithPrice_same seed r0 rest hrest, ?_⟩
      simp only [pricedGroup, List.length_map]
      rw [filter_same_key (fun r : queries.BookingWithPriceRow => r.Booking.ID) (r0 :: rest) _
        hall]
  · intro hc
    simp [Postgres.Booking, hc]
  · intro hc
    simp [Postgres.Booking, hc]

/-- Witness for C29: two rows of booking 1 give one booking with two units, in the plain
and in the priced read. -/
theorem booking_never_indexes_empty_witness :
    toBookings 0 [exampleRow 1 1, exampleRow 1 2] ≠ [] ∧
    (∃ b, toBookings 0 [exampleRow 1 1, exampleRow 1 2] = [b] ∧
      b.Units.length = [exampleRow 1 1, exampleRow 1 2].length) ∧
    (∃ b, toBookingsWithPrice 0 [examplePricedRow 1 1, examplePricedRow 1 2] = [b] ∧
      b.BookingBase.Units.length = [examplePricedRow 1 1, examplePricedRow 1 2].length) ∧
    Postgres.Booking 0 none [] [exampleRow 1 1, exampleRow 1 2]
      internal.CapabilityRequestPrice = some (.error service.ErrNotFound) :=
  have h := booking_never_indexes_empty 0 [exampleRow 1 1, exampleRow 1 2]
    [examplePricedRow 1 1, examplePricedRow 1 2] none internal.CapabilityRequestPrice
  ⟨h.1 (by decide), h.2.2.1 (by decide) (by decide), h.2.2.2.1 (by decide) (by decide),
    h.2.2.2.2.1 rfl⟩

/-! ### Narrowing of the store's parameters -/

/-- A value of the signed 32-bit range is its own narrowing. -/
theorem int32_of_range (x : Int) (hlo : -2147483648 ≤ x) (hhi : x ≤ 2147483647) :
    int32 x = x := by
  unfold int32
  omega

/-- Narrowing keeps exactly the residue modulo 2^32. -/
theorem int32_eq_iff (x y : Int) : int32 x = int32 y ↔ x % 4294967296 = y % 4294967296 := by
  unfold int32
  omega

/-- The narrowing lies in the signed 32-bit range and is congruent to its argument. -/
theorem int32_range (x : Int) :
    -2147483648 ≤ int32 x ∧ int32 x ≤ 2147483647 ∧
      int32 x % 4294967296 = x % 4294967296 := by
  unfold int32
  omega

/-- Claim C30: the store narrows its parameters modulo 2^32. `Postgres.Product`,
`Postgres.Availability` and `Postgres.Availabilities` consult their statements only at
`int32` of the product id, and `Postgres.CreateBooking` runs its statement on `int32` of
the product id, availability id, units and user id; a value of the signed 32-bit range
is passed unchanged; and two values congruent modulo 2^32 give the same call of the
store. Product id 2^32 + 1 is looked up as product 1, and 2^32 + 1 units are booked as 1
unit. -/
theorem store_narrows_parameters (q : queries.Reads) (fault : Option GoError) (db : Db)
    (x y : Int) (p p1 : service.CreateBookingParams) (localDate start finish : time.Time)
    (capability : internal.CapabilityRequest) :
    (Postgres.Product q x capability
      = Postgres.Product
          { q with Product := fun _ => q.Product (int32 x),
                   ProductWithPrice := fun _ => q.ProductWithPrice (int32 x) } x capability) ∧
    (Postgres.Availability q x localDate capability
      = Postgres.Availability
          { q with
            Avalability := fun _ => q.Avalability { ProductID := int32 x, LocalDate := localDate },
            AvalabilityWithPrice := fun _ =>
              q.AvalabilityWithPrice { ProductID := int32 x, LocalDate := localDate } }
          x localDate capability) ∧
    (Postgres.Availabilities q x start finish capability
      = Postgres.Availabilities
          { q with
            AvalabilityRange := fun _ => q.AvalabilityRange
              { ProductID := int32 x, LocalDateStart := start, LocalDateEnd := finish },
            AvalabilityWithPriceRange := fun _ => q.AvalabilityWithPriceRange
              { ProductID := int32 x, LocalDateStart := start, LocalDateEnd := finish } }
          x start finish capability) ∧
    (Postgres.CreateBooking fault db p
      = match queries.Queries.CreateBooking fault db
          { ProductID := int32 p.ProductID, AvailabilityID := int32 p.AvailabilityID,
            Units := int32 p.Units, UserID := int32 p.UserID } with
        | (.error err, db1) =>
          if errorsIs err .sqlErrNoRows then ((0, some service.ErrNotAvailable), db1)
          else ((0, some (.wrap "create booking" err)), db1)
        | (.ok id, db1) => ((id, none), db1)) ∧
    (-2147483648 ≤ x → x ≤ 2147483647 → int32 x = x) ∧
    (x % 4294967296 = y % 4294967296 →
      int32 x = int32 y ∧
      Postgres.Product q x capability = Postgres.Product q y capability ∧
      Postgres.Availability q x localDate capability
        = Postgres.Availability q y localDate capability ∧
      Postgres.Availabilities q x start finish capability
        = Postgres.Availabilities q y start finish capability) ∧
    (p.ProductID % 4294967296 = p1.ProductID % 4294967296 →
      p.AvailabilityID % 4294967296 = p1.AvailabilityID % 4294967296 →
      p.Units % 4294967296 = p1.Units % 4294967296 →
      p.UserID % 4294967296 = p1.UserID % 4294967296 →
      Postgres.CreateBooking fault db p = Postgres.CreateBooking fault db p1) ∧
    Postgres.Product q (4294967296 + 1) capability = Postgres.Product q 1 capability ∧
    Postgres.CreateBooking fault db { p with Units := 4294967296 + 1 }
      = Postgres.CreateBooking fault db { p with Units := 1 } := by
  refine ⟨rfl, rfl, rfl, rfl, int32_of_range x, ?_, ?_, ?_, ?_⟩
  · intro h
    have hxy : int32 x = int32 y := (int32_eq_iff x y).2 h
    refine ⟨hxy, ?_, ?_, ?_⟩
    · simp only [Postgres.Product, hxy]
    · simp only [Postgres.Availability, hxy]
    · simp only [Postgres.Availabilities, hxy]
  · intro h1 h2 h3 h4
    simp only [Postgres.CreateBooking, (int32_eq_iff _ _).2 h1, (int32_eq_iff _ _).2 h2,
      (int32_eq_iff _ _).2 h3, (int32_eq_iff _ _).2 h4]
  · have h : int32 (4294967296 + 1) = int32 1 := by decide
    simp only [Postgres.Product, h]
  · have h : int32 (4294967296 + 1) = int32 1 := by decide
    simp only [Postgres.CreateBooking, h]

/-- Witness for C30 on the example state: booking 2^32 + 1 units of availability 7 is the
call that books 1 unit, and leaves 4 of the 5 vacancies. -/
theorem store_narrows_parameters_witness :
    ((4294967296 + 1 : Int) % 4294967296 = 1 % 4294967296) ∧
    Postgres.CreateBooking none exampleDb (exampleParams (4294967296 + 1))
      = Postgres.CreateBooking none exampleDb (exampleParams 1) ∧
    vacanciesOf (Postgres.CreateBooking none exampleDb (exampleParams (4294967296 + 1))).2 7
      = some 4 ∧
    int32 5 = 5 :=
  have h := store_narrows_parameters exampleReads none exampleDb 5 5
    (exampleParams (4294967296 + 1)) (exampleParams 1) 0 0 0 internal.CapabilityRequestNone
  ⟨by decide, h.2.2.2.2.2.2.1 (by decide) (by decide) (by decide) (by decide), by decide,
    h.2.2.2.2.1 (by decide) (by decide)⟩

/-! ### The API-key middleware -/

/-- Claim C28: for every user store, next handler, state, header value and request:
with an empty `X-API-Key` the middleware answers 401 `missing API key` without looking up
anything and without calling the next handler; when the lookup fails with an error that
matches `auth.ErrNotFound` it answers 401 `invalid API key`, and when it fails otherwise
it answers 500 with the error's text, in both cases without calling the next handler (the
result and the state do not depend on it); when the lookup succeeds the result is what the
next handler writes for the request whose context holds the user, on which
`auth.ContextUser` returns exactly that user with `ok = true`; and the next handler has
been called only if the key was not empty and the lookup succeeded. -/
theorem checkUser_gates {σ β ρ : Type}
    (dbUserByAPIKey : σ → String → Except GoError internal.User × σ)
    (next : σ → api.Request β → ρ × σ) (s : σ) (apiKey : String) (r : api.Request β) :
    (apiKey = "" →
      auth.CheckUser dbUserByAPIKey next s apiKey r = (.httpError "missing API key" 401, s)) ∧
    (apiKey ≠ "" → ∀ err s1, dbUserByAPIKey s apiKey = (.error err, s1) →
      errorsIs err .authErrNotFound = true →
      auth.CheckUser dbUserByAPIKey next s apiKey r = (.httpError "invalid API key" 401, s1)) ∧
    (apiKey ≠ "" → ∀ err s1, dbUserByAPIKey s apiKey = (.error err, s1) →
      errorsIs err .authErrNotFound = false →
      auth.CheckUser dbUserByAPIKey next s apiKey r = (.httpError err.Error 500, s1)) ∧
    (apiKey ≠ "" → ∀ user s1, dbUserByAPIKey s apiKey = (.ok user, s1) →
      auth.CheckUser dbUserByAPIKey next s apiKey r
        = (.served (next s1 (auth.ContextWithUser r user)).1,
            (next s1 (auth.ContextWithUser r user)).2) ∧
      api.ContextUser (auth.ContextWithUser r user) = (user, true)) ∧
    (∀ resp s2, auth.CheckUser dbUserByAPIKey next s apiKey r = (.served resp, s2) →
      apiKey ≠ "" ∧ ∃ user s1, dbUserByAPIKey s apiKey = (.ok user, s1) ∧
        (resp, s2) = next s1 (auth.ContextWithUser r user)) := by
  refine ⟨?_, ?_, ?_, ?_, ?_⟩
  · intro h
    simp [auth.CheckUser, h, auth.StatusUnauthorized]
  · intro h err s1 hdb hm
    simp [auth.CheckUser, h, hdb, hm, auth.StatusUnauthorized]
  · intro h err s1 hdb hm
    simp [auth.CheckUser, h, hdb, hm, api.StatusInternalServerError]
  · intro h user s1 hdb
    simp [auth.CheckUser, h, hdb, auth.ContextWithUser, api.ContextUser]
  · intro resp s2 hres
    by_cases h : apiKey = ""
    · simp [auth.CheckUser, h] at hres
    · refine ⟨h, ?_⟩
      rcases hdb : dbUserByAPIKey s apiKey with ⟨res, s1⟩
      cases res with
      | error err =>
        simp only [auth.CheckUser, if_neg h, hdb] at hres
        by_cases hm : errorsIs err .authErrNotFound = true
        · simp [hm] at hres
        · simp [hm] at hres
      | ok user =>
        refine ⟨user, s1, rfl, ?_⟩
        simp only [auth.CheckUser, if_neg h, hdb] at hres
        rw [Prod.mk.injEq] at hres
        obtain ⟨h1, h2⟩ := hres
        cases h1
        exact Prod.ext rfl h2.symm

/-- Witness for C28 on the example user store: without a key and with an unknown key the
answer is 401, with a key whose lookup breaks it is 500, and in these cases the next
handler has not run (the state counts only the lookup); with the key of the example user
the next handler runs and finds exactly that user in its context. -/
theorem checkUser_gates_witness :
    auth.CheckUser exampleUserStore echoUser 0 "" (getRequest 1 0)
      = (.httpError "missing API key" 401, 0) ∧
    auth.CheckUser exampleUserStore echoUser 0 "guess" (getRequest 1 0)
      = (.httpError "invalid API key" 401, 1) ∧
    auth.CheckUser exampleUserStore echoUser 0 "broken" (getRequest 1 0)
      = (.httpError "get user by api key: driver error 1" 500, 1) ∧
    auth.CheckUser exampleUserStore echoUser 0 "secret" (getRequest 1 0)
      = (.served (exampleUser, true), 101) :=
  have h (k : String) := checkUser_gates exampleUserStore echoUser 0 k (getRequest 1 0)
  ⟨(h "").1 rfl,
    (h "guess").2.1 (by decide) auth.ErrNotFound 1 rfl (by decide),
    (h "broken").2.2.1 (by decide) (.wrap "get user by api key" (.sentinel (.driver 1))) 1 rfl
      (by decide),
    ((h "secret").2.2.2.1 (by decide) exampleUser 1 rfl).1⟩

/-! ### Ticket tokens -/

theorem uint8_lt (x : UInt8) : x.toNat < 256 := x.val.isLt

theorem uint8_eq_of_toNat (x y : UInt8) (h : x.toNat = y.toNat) : x = y := by
  cases x; cases y
  simp only [UInt8.toNat] at h
  congr
  exact BitVec.eq_of_toNat_eq h

/-- A 5-bit value is the position of its character in the alphabet. -/
theorem base32.indexOf_encodeChar (v : Nat) (h : v < 32) :
    base32.encodeStd.indexOf (base32.encodeChar v) = v := by
  interval_cases v <;> rfl

theorem base32.encodeChar_inj (v w : Nat) (hv : v < 32) (hw : w < 32)
    (h : base32.encodeChar v = base32.encodeChar w) : v = w := by
  rw [← base32.indexOf_encodeChar v hv, ← base32.indexOf_encodeChar w hw, h]

theorem base32.encodeChar_mem (v : Nat) (h : v < 32) :
    base32.encodeChar v ∈ base32.encodeStd := by
  interval_cases v <;> decide

theorem base32.encodeStd_range :
    ∀ c ∈ base32.encodeStd, ('A' ≤ c ∧ c ≤ 'Z') ∨ ('2' ≤ c ∧ c ≤ '7') := by
  decide

/-- The 13 characters of the token of 8 bytes: 8 of the first five bytes and 5 of the
last three. -/
theorem base32.encode_eight (b0 b1 b2 b3 b4 b5 b6 b7 : UInt8) :
    base32.EncodeToString [b0, b1, b2, b3, b4, b5, b6, b7]
      = [base32.encodeChar ((b0.toNat * 4294967296 + b1.toNat * 16777216 + b2.toNat * 65536
            + b3.toNat * 256 + b4.toNat) / 34359738368 % 32),
         base32.encodeChar ((b0.toNat * 4294967296 + b1.toNat * 16777216 + b2.toNat * 65536
            + b3.toNat * 256 + b4.toNat) / 1073741824 % 32),
         base32.encodeChar ((b0.toNat * 4294967296 + b1.toNat * 16777216 + b2.toNat * 65536
            + b3.toNat * 256 + b4.toNat) / 33554432 % 32),
         base32.encodeChar ((b0.toNat * 4294967296 + b1.toNat * 16777216 + b2.toNat * 65536
            + b3.toNat * 256 + b4.toNat) / 1048576 % 32),
         base32.encodeChar ((b0.toNat * 4294967296 + b1.toNat * 16777216 + b2.toNat * 65536
            + b3.toNat * 256 + b4.toNat) / 32768 % 32),
         base32.encodeChar ((b0.toNat * 4294967296 + b1.toNat * 16777216 + b2.toNat * 65536
            + b3.toNat * 256 + b4.toNat) / 1024 % 32),
         base32.encodeChar ((b0.toNat * 4294967296 + b1.toNat * 16777216 + b2.toNat * 65536
            + b3.toNat * 256 + b4.toNat) / 32 % 32),
         base32.encodeChar ((b0.toNat * 4294967296 + b1.toNat * 16777216 + b2.toNat * 65536
            + b3.toNat * 256 + b4.toNat) % 32),
         base32.encodeChar ((b5.toNat * 4294967296 + b6.toNat * 16777216 + b7.toNat * 65536)
            / 34359738368 % 32),
         base32.encodeChar ((b5.toNat * 4294967296 + b6.toNat * 16777216 + b7.toNat * 65536)
            / 1073741824 % 32),
         base32.encodeChar ((b5.toNat * 4294967296 + b6.toNat * 16777216 + b7.toNat * 65536)
            / 33554432 % 32),
         base32.encodeChar ((b5.toNat * 4294967296 + b6.toNat * 16777216 + b7.toNat * 65536)
            / 1048576 % 32),
         base32.encodeChar ((b5.toNat * 4294967296 + b6.toNat * 16777216 + b7.toNat * 65536)
            / 32768 % 32)] := by
  simp [base32.EncodeToString, base32.encodeGroup]

/-- A list of 8 bytes, by its elements. -/
theorem list_of_length_eight {α : Type} (l : List α) (h : l.length = 8) :
    ∃ b0 b1 b2 b3 b4 b5 b6 b7, l = [b0, b1, b2, b3, b4, b5, b6, b7] := by
  match l, h with
  | [b0, b1, b2, b3, b4, b5, b6, b7], _ => exact ⟨b0, b1, b2, b3, b4, b5, b6, b7, rfl⟩

theorem tokenOfBits_eight (b0 b1 b2 b3 b4 b5 b6 b7 : UInt8) :
    platform.tokenOfBits [b0, b1, b2, b3, b4, b5, b6, b7]
      = base32.EncodeToString [b0, b1, b2, b3, b4, b5, b6, b7] := by
  rw [base32.encode_eight]
  have h0 := uint8_lt b0
  have h1 := uint8_lt b1
  have h2 := uint8_lt b2
  have h3 := uint8_lt b3
  have h4 := uint8_lt b4
  have h5 := uint8_lt b5
  have h6 := uint8_lt b6
  have h7 := uint8_lt b7
  simp only [platform.tokenOfBits, List.foldl_cons, List.foldl_nil, List.range, List.range.loop,
    List.map_cons, List.map_nil]
  norm_num
  refine ⟨?_, ?_, ?_, ?_, ?_, ?_, ?_, ?_, ?_, ?_, ?_, ?_, ?_⟩ <;> congr 1 <;> omega

/-- A number of 40 bits is determined by its 8 digits in base 32. -/
theorem digits32_inj (n m : Nat) (hn : n < 1099511627776) (hm : m < 1099511627776)
    (d0 : n / 34359738368 % 32 = m / 34359738368 % 32)
    (d1 : n / 1073741824 % 32 = m / 1073741824 % 32)
    (d2 : n / 33554432 % 32 = m / 33554432 % 32)
    (d3 : n / 1048576 % 32 = m / 1048576 % 32)
    (d4 : n / 32768 % 32 = m / 32768 % 32)
    (d5 : n / 1024 % 32 = m / 1024 % 32)
    (d6 : n / 32 % 32 = m / 32 % 32)
    (d7 : n % 32 = m % 32) : n = m := by
  omega

/-- A number of 24 bits, written in the upper bits of a group, is determined by the 5
digits the group keeps. -/
theorem digits32_inj_short (x y : Nat) (hx : x < 16777216) (hy : y < 16777216)
    (d0 : x * 65536 / 34359738368 % 32 = y * 65536 / 34359738368 % 32)
    (d1 : x * 65536 / 1073741824 % 32 = y * 65536 / 1073741824 % 32)
    (d2 : x * 65536 / 33554432 % 32 = y * 65536 / 33554432 % 32)
    (d3 : x * 65536 / 1048576 % 32 = y * 65536 / 1048576 % 32)
    (d4 : x * 65536 / 32768 % 32 = y * 65536 / 32768 % 32) : x = y := by
  omega

/-- Five bytes are determined by the number they write. -/
theorem bytes5_inj (b0 b1 b2 b3 b4 c0 c1 c2 c3 c4 : Nat)
    (hb1 : b1 < 256) (hb2 : b2 < 256) (hb3 : b3 < 256) (hb4 : b4 < 256)
    (hc1 : c1 < 256) (hc2 : c2 < 256) (hc3 : c3 < 256) (hc4 : c4 < 256)
    (h : b0 * 4294967296 + b1 * 16777216 + b2 * 65536 + b3 * 256 + b4
      = c0 * 4294967296 + c1 * 16777216 + c2 * 65536 + c3 * 256 + c4) :
    b0 = c0 ∧ b1 = c1 ∧ b2 = c2 ∧ b3 = c3 ∧ b4 = c4 := by
  omega

/-- The token determines the 8 bytes. -/
theorem base32.encode_eight_inj (b0 b1 b2 b3 b4 b5 b6 b7 c0 c1 c2 c3 c4 c5 c6 c7 : UInt8)
    (h : base32.EncodeToString [b0, b1, b2, b3, b4, b5, b6, b7]
      = base32.EncodeToString [c0, c1, c2, c3, c4, c5, c6, c7]) :
    [b0, b1, b2, b3, b4, b5, b6, b7] = [c0, c1, c2, c3, c4, c5, c6, c7] := by
  rw [base32.encode_eight, base32.encode_eight] at h
  simp only [List.cons.injEq, and_true] at h
  obtain ⟨e0, e1, e2, e3, e4, e5, e6, e7, e8, e9, e10, e11, e12⟩ := h
  have lt : ∀ n : Nat, n % 32 < 32 := fun n => Nat.mod_lt n (by decide)
  have hb0 := uint8_lt b0
  have hb1 := uint8_lt b1
  have hb2 := uint8_lt b2
  have hb3 := uint8_lt b3
  have hb4 := uint8_lt b4
  have hb5 := uint8_lt b5
  have hb6 := uint8_lt b6
  have hb7 := uint8_lt b7
  have hc0 := uint8_lt c0
  have hc1 := uint8_lt c1
  have hc2 := uint8_lt c2
  have hc3 := uint8_lt c3
  have hc4 := uint8_lt c4
  have hc5 := uint8_lt c5
  have hc6 := uint8_lt c6
  have hc7 := uint8_lt c7
  have hn := digits32_inj _ _ (by omega) (by omega)
    (base32.encodeChar_inj _ _ (lt _) (lt _) e0) (base32.encodeChar_inj _ _ (lt _) (lt _) e1)
    (base32.encodeChar_inj _ _ (lt _) (lt _) e2) (base32.encodeChar_inj _ _ (lt _) (lt _) e3)
    (base32.encodeChar_inj _ _ (lt _) (lt _) e4) (base32.encodeChar_inj _ _ (lt _) (lt _) e5)
    (base32.encodeChar_inj _ _ (lt _) (lt _) e6) (base32.encodeChar_inj _ _ (lt _) (lt _) e7)
  have hshort : ∀ x y z : Nat, x * 4294967296 + y * 16777216 + z * 65536
      = (x * 65536 + y * 256 + z) * 65536 := fun x y z => by ring
  rw [hshort, hshort] at e8 e9 e10 e11 e12
  have hm := digits32_inj_short _ _ (by omega) (by omega)
    (base32.encodeChar_inj _ _ (lt _) (lt _) e8) (base32.encodeChar_inj _ _ (lt _) (lt _) e9)
    (base32.encodeChar_inj _ _ (lt _) (lt _) e10) (base32.encodeChar_inj _ _ (lt _) (lt _) e11)
    (base32.encodeChar_inj _ _ (lt _) (lt _) e12)
  obtain ⟨q0, q1, q2, q3, q4⟩ := bytes5_inj _ _ _ _ _ _ _ _ _ _ hb1 hb2 hb3 hb4
    hc1 hc2 hc3 hc4 hn
  obtain ⟨_, _, q5, q6, q7⟩ := bytes5_inj 0 0 _ _ _ 0 0 _ _ _ (by decide)
    hb5 hb6 hb7 (by decide) hc5 hc6 hc7 (by omega)
  rw [uint8_eq_of_toNat _ _ q0, uint8_eq_of_toNat _ _ q1, uint8_eq_of_toNat _ _ q2,
    uint8_eq_of_toNat _ _ q3, uint8_eq_of_toNat _ _ q4, uint8_eq_of_toNat _ _ q5,
    uint8_eq_of_toNat _ _ q6, uint8_eq_of_toNat _ _ q7]

/-- Claim C27: for every 8-byte value in the buffer of `RandString`, the token is the
unpadded base32 encoding of the bytes (the 64 bits followed by a zero bit, cut into groups
of 5 bits, each written in the alphabet of the standard encoding); it has exactly 13
characters, each of them one of `A`–`Z` and `2`–`7`; and two 8-byte values with the same
token are equal. -/
theorem randString_token (b b1 : List UInt8) (hb : b.length = 8) (hb1 : b1.length = 8) :
    platform.RandString b = String.mk (platform.tokenOfBits b) ∧
    (platform.RandString b).length = 13 ∧
    (∀ c ∈ (platform.RandString b).data,
      c ∈ base32.encodeStd ∧ (('A' ≤ c ∧ c ≤ 'Z') ∨ ('2' ≤ c ∧ c ≤ '7'))) ∧
    (platform.RandString b = platform.RandString b1 → b = b1) := by
  obtain ⟨b0, b1', b2, b3, b4, b5, b6, b7, rfl⟩ := list_of_length_eight b hb
  obtain ⟨c0, c1, c2, c3, c4, c5, c6, c7, rfl⟩ := list_of_length_eight b1 hb1
  refine ⟨?_, ?_, ?_, ?_⟩
  · rw [platform.RandString, tokenOfBits_eight]
  · simp only [platform.RandString, String.length, base32.encode_eight]
    rfl
  · intro c hc
    have hmem : c ∈ base32.encodeStd := by
      simp only [platform.RandString, base32.encode_eight, List.mem_cons,
        List.mem_singleton, List.not_mem_nil, or_false] at hc
      have lt : ∀ n : Nat, n % 32 < 32 := fun n => Nat.mod_lt n (by decide)
      rcases hc with h | h | h | h | h | h | h | h | h | h | h | h | h <;>
        (rw [h]; exact base32.encodeChar_mem _ (lt _))
    exact ⟨hmem, base32.encodeStd_range c hmem⟩
  · intro h
    have hd := congrArg String.data h
    exact base32.encode_eight_inj _ _ _ _ _ _ _ _ _ _ _ _ _ _ _ _ hd

/-- Witness for C27: the token of eight zero bytes is `AAAAAAAAAAAAA`, and it differs from
the token of the bytes 0, ..., 0, 1, which is `AAAAAAAAAAAAC`. -/
theorem randString_token_witness :
    platform.RandString [0, 0, 0, 0, 0, 0, 0, 0] = "AAAAAAAAAAAAA" ∧
    platform.RandString [0, 0, 0, 0, 0, 0, 0, 1] = "AAAAAAAAAAAAC" ∧
    (platform.RandString [0, 0, 0, 0, 0, 0, 0, 0]).length = 13 ∧
    (platform.RandString [0, 0, 0, 0, 0, 0, 0, 0]
        = platform.RandString [0, 0, 0, 0, 0, 0, 0, 1] →
      [(0 : UInt8), 0, 0, 0, 0, 0, 0, 0] = [0, 0, 0, 0, 0, 0, 0, 1]) :=
  have h := randString_token [0, 0, 0, 0, 0, 0, 0, 0] [0, 0, 0, 0, 0, 0, 0, 1] rfl rfl
  ⟨by decide, by decide, h.2.1, h.2.2.2⟩

/-! ### Identifiers as JSON strings -/

/-- The character of a digit below 10 is a decimal digit with that value. -/
theorem digitChar_spec (k : Nat) (h : k < 10) :
    strconv.isDigit (Nat.digitChar k) = true ∧ (Nat.digitChar k).toNat - 48 = k := by
  interval_cases k <;> exact ⟨rfl, rfl⟩

/-- The number written by digits followed by one more digit. -/
theorem digitsValue_append (pre : List Char) (c : Char) :
    time.digitsValue (pre ++ [c]) = 10 * time.digitsValue pre + (c.toNat - 48) := by
  simp [time.digitsValue, List.foldl_append]

/-- The digits that `Nat.toDigitsCore` puts in front of its accumulator: at least one,
all decimal, and writing the number. -/
theorem toDigitsCore_spec (fuel n : Nat) (ds : List Char) (h : n < fuel) :
    ∃ pre, Nat.toDigitsCore 10 fuel n ds = pre ++ ds ∧ pre ≠ [] ∧
      pre.all strconv.isDigit = true ∧ time.digitsValue pre = n := by
  induction fuel generalizing n ds with
  | zero => omega
  | succ fuel ih =>
    have hd := digitChar_spec (n % 10) (Nat.mod_lt n (by decide))
    unfold Nat.toDigitsCore
    by_cases h0 : n / 10 = 0
    · refine ⟨[Nat.digitChar (n % 10)], ?_, by simp, by simp [hd.1], ?_⟩
      · simp [h0]
      · simp only [time.digitsValue, List.foldl_cons, List.foldl_nil, hd.2]
        omega
    · have hlt : n / 10 < fuel := by omega
      obtain ⟨pre, hpre, hne, hall, hval⟩ := ih (n / 10) (Nat.digitChar (n % 10) :: ds) hlt
      refine ⟨pre ++ [Nat.digitChar (n % 10)], ?_, by simp, ?_, ?_⟩
      · simp [h0, hpre]
      · simp [List.all_append, hall, hd.1]
      · rw [digitsValue_append, hval, hd.2]
        omega

/-- The decimal digits of a number: at least one, all decimal, and writing the number. -/
theorem toDigits_spec (n : Nat) :
    Nat.toDigits 10 n ≠ [] ∧ (Nat.toDigits 10 n).all strconv.isDigit = true ∧
      time.digitsValue (Nat.toDigits 10 n) = n := by
  obtain ⟨pre, hpre, hne, hall, hval⟩ := toDigitsCore_spec (n + 1) n [] (Nat.lt_succ_self n)
  rw [List.append_nil] at hpre
  rw [Nat.toDigits, hpre]
  exact ⟨hne, hall, hval⟩

/-- The loop of `ParseUint` never lowers the value read so far. -/
theorem foldl_digits_ge (cs : List Char) (n : Nat) :
    n ≤ cs.foldl (fun n c => 10 * n + (c.toNat - 48)) n := by
  induction cs generalizing n with
  | nil => exact Nat.le_refl n
  | cons c cs ih =>
    simp only [List.foldl_cons]
    exact Nat.le_trans (by omega) (ih _)

/-- On decimal digits whose number fits 64 bits the loop of `ParseUint` returns the
number. -/
theorem parseUintLoop_digits (cs : List Char) (n : Nat) (hall : cs.all strconv.isDigit = true)
    (hmax : cs.foldl (fun n c => 10 * n + (c.toNat - 48)) n ≤ 18446744073709551615) :
    strconv.parseUintLoop cs n = .ok (cs.foldl (fun n c => 10 * n + (c.toNat - 48)) n) := by
  induction cs generalizing n with
  | nil => rfl
  | cons c cs ih =>
    simp only [List.all_cons, Bool.and_eq_true] at hall
    simp only [List.foldl_cons] at hmax ⊢
    have hge := foldl_digits_ge cs (10 * n + (c.toNat - 48))
    have hnot : ¬ 18446744073709551615 < 10 * n + (c.toNat - 48) := by omega
    simp only [strconv.parseUintLoop, hall.1, if_true, if_neg hnot]
    exact ih _ hall.2 hmax

/-- The loop of `ParseUint` succeeds only on decimal digits. -/
theorem parseUintLoop_ok (cs : List Char) (n v : Nat)
    (h : strconv.parseUintLoop cs n = .ok v) : cs.all strconv.isDigit = true := by
  induction cs generalizing n with
  | nil => rfl
  | cons c cs ih =>
    simp only [strconv.parseUintLoop] at h
    by_cases hc : strconv.isDigit c = true
    · simp only [hc, if_true] at h
      by_cases hr : 18446744073709551615 < 10 * n + (c.toNat - 48)
      · simp [hr] at h
      · simp only [if_neg hr] at h
        simp [hc, ih _ h]
    · simp [hc] at h

/-- A decimal digit is not a sign. -/
theorem isDigit_not_sign (c : Char) (h : strconv.isDigit c = true) : c ≠ '+' ∧ c ≠ '-' := by
  constructor <;> (rintro rfl; exact absurd h (by decide))

/-- The function `ParseInt` on the decimal digits of a number below 2^63. -/
theorem parseInt_toDigits (m : Nat) (h : m < 9223372036854775808) :
    strconv.ParseInt (Nat.toDigits 10 m) = .ok (m : Int) := by
  obtain ⟨hne, hall, hval⟩ := toDigits_spec m
  match hds : Nat.toDigits 10 m, hne with
  | c :: cs, _ =>
    rw [hds] at hall hval
    have hc : strconv.isDigit c = true := by
      simp only [List.all_cons, Bool.and_eq_true] at hall
      exact hall.1
    obtain ⟨hp, hm⟩ := isDigit_not_sign c hc
    have hloop := parseUintLoop_digits (c :: cs) 0 hall (by
      have : time.digitsValue (c :: cs) = m := hval
      simp only [time.digitsValue] at this
      omega)
    have hv : (c :: cs).foldl (fun n c => 10 * n + (c.toNat - 48)) 0 = m := hval
    rw [hv] at hloop
    simp only [strconv.ParseInt, hp, hm, or_self, if_false, strconv.ParseUint,
      List.cons_ne_nil, hloop, decide_False, Bool.not_false, Bool.true_and]
    have h1 : ¬ (9223372036854775808 ≤ m) := by omega
    simp [h1]

/-- The function `ParseInt` on a minus sign and the decimal digits of a number up to
2^63. -/
theorem parseInt_neg_toDigits (m : Nat) (h : m ≤ 9223372036854775808) :
    strconv.ParseInt ('-' :: Nat.toDigits 10 m) = .ok (-(m : Int)) := by
  obtain ⟨hne, hall, hval⟩ := toDigits_spec m
  have hloop := parseUintLoop_digits (Nat.toDigits 10 m) 0 hall (by
    have : time.digitsValue (Nat.toDigits 10 m) = m := hval
    simp only [time.digitsValue] at this
    omega)
  have hv : (Nat.toDigits 10 m).foldl (fun n c => 10 * n + (c.toNat - 48)) 0 = m := hval
  rw [hv] at hloop
  have h1 : ¬ (9223372036854775808 < m) := by omega
  simp [strconv.ParseInt, strconv.ParseUint, hne, hloop, h1]

/-- The text of `strconv.Itoa`: a minus sign for a negative number, then the decimal
digits of the absolute value. -/
theorem itoa_data (i : Int) :
    (storage.Itoa i).data = (if i < 0 then ['-'] else []) ++ Nat.toDigits 10 i.natAbs := by
  cases i with
  | ofNat m =>
    have : ¬ (Int.ofNat m < 0) := by simp
    simp only [this, if_false, List.nil_append]
    rfl
  | negSucc m =>
    have : Int.negSucc m < 0 := Int.negSucc_lt_zero m
    simp only [this, if_true]
    rfl

/-- The function `strconv.Atoi` reads back what `strconv.Itoa` writes, for every number
of the 64-bit range. -/
theorem atoi_itoa (i : Int) (hlo : -9223372036854775808 ≤ i) (hhi : i ≤ 9223372036854775807) :
    strconv.Atoi (storage.Itoa i) = .ok i := by
  have hdata := itoa_data i
  simp only [strconv.Atoi, hdata]
  by_cases hneg : i < 0
  · simp only [hneg, if_true, List.singleton_append]
    rw [parseInt_neg_toDigits i.natAbs (by omega)]
    simp only
    congr 1
    omega
  · simp only [hneg, if_false, List.nil_append]
    rw [parseInt_toDigits i.natAbs (by omega)]
    simp only
    congr 1
    omega

/-- The function `ParseUint` fails on a text that is empty or has a character that is not
a decimal digit. -/
theorem parseUint_error (cs : List Char) (h : (!cs.isEmpty && cs.all strconv.isDigit) = false) :
    ∃ err, strconv.ParseUint cs = .error err := by
  unfold strconv.ParseUint
  by_cases hnil : cs = []
  · exact ⟨strconv.ErrSyntax, by simp [hnil]⟩
  · simp only [if_neg hnil]
    cases hres : strconv.parseUintLoop cs 0 with
    | error err => exact ⟨err, rfl⟩
    | ok v =>
      have hall := parseUintLoop_ok cs 0 v hres
      have hemp : cs.isEmpty = false := by
        cases cs with
        | nil => exact absurd rfl hnil
        | cons _ _ => rfl
      simp [hall, hemp] at h

/-- The function `strconv.Atoi` fails on every text that is not a base-10 integer. -/
theorem atoi_error (s : String) (h : strconv.isInteger s = false) :
    ∃ err, strconv.Atoi s = .error (strconv.NumError "Atoi" s err) := by
  unfold strconv.isInteger at h
  unfold strconv.Atoi strconv.ParseInt
  match hs : s.data with
  | [] => exact ⟨_, rfl⟩
  | c :: cs =>
    rw [hs] at h
    simp only at h
    obtain ⟨err, herr⟩ := parseUint_error _ h
    simp only [herr]
    exact ⟨err, rfl⟩

/-- Claim C25: for every integer `i` of the 64-bit range of a Go `int`,
`IntString(i).MarshalJSON` produces a JSON string, never a JSON number, that holds the
decimal representation of `i` (a minus sign for a negative `i`, then the decimal digits
that write its absolute value), and `IntString.UnmarshalJSON` of that output succeeds and
yields `i`; `UnmarshalJSON` rejects every bare JSON number with a type error, and every
JSON string that does not hold a base-10 integer with the error of `strconv.Atoi`. -/
theorem intString_roundtrip (i : Int) (hlo : -9223372036854775808 ≤ i)
    (hhi : i ≤ 9223372036854775807) :
    api.IntString.MarshalJSON i = .ok (.string (storage.Itoa i)) ∧
    (storage.Itoa i).data = (if i < 0 then ['-'] else []) ++ Nat.toDigits 10 i.natAbs ∧
    (Nat.toDigits 10 i.natAbs ≠ [] ∧
      (Nat.toDigits 10 i.natAbs).all strconv.isDigit = true ∧
      time.digitsValue (Nat.toDigits 10 i.natAbs) = i.natAbs) ∧
    (∀ v, api.IntString.MarshalJSON i = .ok v → api.IntString.UnmarshalJSON v = .ok i) ∧
    (∀ literal, api.IntString.UnmarshalJSON (.number literal)
      = .error json.UnmarshalTypeError) ∧
    (∀ s, strconv.isInteger s = false →
      ∃ err, api.IntString.UnmarshalJSON (.string s)
        = .error (strconv.NumError "Atoi" s err)) := by
  refine ⟨rfl, itoa_data i, toDigits_spec _, ?_, fun _ => rfl, ?_⟩
  · intro v hv
    have hv' : v = .string (storage.Itoa i) := by
      simp only [api.IntString.MarshalJSON, json.MarshalString, Except.ok.injEq] at hv
      exact hv.symm
    rw [hv']
    simp only [api.IntString.UnmarshalJSON, json.UnmarshalString, atoi_itoa i hlo hhi]
  · intro s hs
    obtain ⟨err, herr⟩ := atoi_error s hs
    exact ⟨err, by simp only [api.IntString.UnmarshalJSON, json.UnmarshalString, herr]⟩

/-- Witness for C25: the id -123 is written as the JSON string `-123` and read back, and
the text `12a` is rejected. -/
theorem intString_roundtrip_witness :
    api.IntString.MarshalJSON (-123) = .ok (.string "-123") ∧
    api.IntString.UnmarshalJSON (.string "-123") = .ok (-123) ∧
    (∃ err, api.IntString.UnmarshalJSON (.string "12a")
      = .error (strconv.NumError "Atoi" "12a" err)) :=
  have h := intString_roundtrip (-123) (by decide) (by decide)
  ⟨h.1, h.2.2.2.1 _ rfl, h.2.2.2.2.2 "12a" rfl⟩

/-! ### Badly encoded input -/

/-- The method `IntString.UnmarshalJSON` fails on every value that is not a JSON string
holding a base-10 integer. -/
theorem intString_error (v : json.Value) (h : json.isIntegerString v = false) :
    ∃ err, api.IntString.UnmarshalJSON v = .error err := by
  cases v with
  | string s =>
    obtain ⟨err, herr⟩ := atoi_error s h
    exact ⟨strconv.NumError "Atoi" s err,
      by simp only [api.IntString.UnmarshalJSON, json.UnmarshalString, herr]⟩
  | null => exact ⟨_, rfl⟩
  | bool b => exact ⟨_, rfl⟩
  | number literal => exact ⟨_, rfl⟩
  | array => exact ⟨_, rfl⟩
  | object => exact ⟨_, rfl⟩

/-- The function `time.Parse` fails on every text that is not of the form
`YYYY-MM-DD`. -/
theorem parse_error (s : String) (h : time.isDateFormat s = false) :
    time.Parse s = .error time.ParseError := by
  unfold time.isDateFormat at h
  unfold time.Parse
  split
  · next y1 y2 y3 y4 s1 m1 m2 s2 d1 d2 heq =>
    rw [heq] at h
    simp only at h
    rw [if_neg (by rw [h]; exact Bool.false_ne_true)]
  · rfl

/-- The method `Date.UnmarshalJSON` fails on every value that is not a JSON string of the
form `YYYY-MM-DD`. -/
theorem date_error (v : json.Value) (h : json.isDateString v = false) :
    ∃ err, internal.Date.UnmarshalJSON v = .error err := by
  cases v with
  | string s =>
    exact ⟨time.ParseError, by simp only [internal.Date.UnmarshalJSON,
      json.UnmarshalString, parse_error s h]⟩
  | null => exact ⟨_, rfl⟩
  | bool b => exact ⟨_, rfl⟩
  | number literal => exact ⟨_, rfl⟩
  | array => exact ⟨_, rfl⟩
  | object => exact ⟨_, rfl⟩

/-- The decoder fails on an object with a member that its field rejects whatever has been
decoded before. -/
theorem objectLoop_error {φ β : Type}
    (field : json.Decoding β → φ × json.Value → Except GoError (json.Decoding β))
    (members : List (φ × json.Value)) (d : json.Decoding β) (m : φ × json.Value)
    (hm : m ∈ members) (hbad : ∀ d1, ∃ err, field d1 m = .error err) :
    ∃ err, json.objectLoop field members d = .error err := by
  induction members generalizing d with
  | nil => cases hm
  | cons x xs ih =>
    simp only [json.objectLoop]
    cases hx : field d x with
    | error err => exact ⟨err, rfl⟩
    | ok d1 =>
      rcases List.mem_cons.1 hm with rfl | hmem
      · obtain ⟨err, herr⟩ := hbad d
        rw [hx] at herr
        cases herr
      · exact ih d1 hmem

/-- The decoding of a body fails when the loop over its members fails. -/
theorem decode_error {φ β : Type}
    (field : json.Decoding β → φ × json.Value → Except GoError (json.Decoding β)) (zero : β)
    (members : List (φ × json.Value))
    (h : ∃ err, json.objectLoop field members { value := zero, savedError := none }
      = .error err) :
    ∃ err, json.Decode field zero (.object members) = .error err := by
  obtain ⟨err, herr⟩ := h
  exact ⟨err, by simp only [json.Decode, herr]⟩

/-- The error text of `strconv.Atoi` for a path id with a double quote: the quote is
escaped with a backslash, as `strconv.Quote` does. -/
theorem atoi_error_text_quoted :
    strconv.Atoi "a\"b" = .error (strconv.NumError "Atoi" "a\"b" strconv.ErrSyntax) ∧
    (strconv.NumError "Atoi" "a\"b" strconv.ErrSyntax).Error
      = "strconv.Atoi: parsing \"a\\\"b\": invalid syntax" :=
  ⟨rfl, by decide⟩

/-- Claim C23: badly encoded input is rejected before the core. For every service and
state: a request whose path id is not a base-10 integer is answered by the `Product`,
`Booking` and `ConfirmBooking` handlers with 400 and the error of `strconv.Atoi`, the
state of the service being the one before the request (the service is not called); a
create-booking body with a member `productId` or `availabilityId` that is not a JSON
string holding an integer, and an availability body with such a `productId` or with a
date that is not a JSON string of the form `YYYY-MM-DD`, fail to decode, and the handler
answers 400 with the decoding error, again without calling the service. -/
theorem bad_encoding_rejected {σ β : Type} (a : api.Service σ) (s : σ) :
    (∀ (r : api.Request β) (idStr : String), strconv.isInteger idStr = false →
      r.id = api.IDPathValue.UnmarshalHTTP idStr →
      ∃ err, r.id = .error (strconv.NumError "Atoi" idStr err) ∧
        api.API.Product a s r = (api.writeError "invalid product ID" 400
          [(strconv.NumError "Atoi" idStr err).Error], s) ∧
        api.API.Booking a s r = (api.writeError "invalid booking ID" 400
          [(strconv.NumError "Atoi" idStr err).Error], s) ∧
        api.API.ConfirmBooking a s r = (api.writeError "invalid booking ID" 400
          [(strconv.NumError "Atoi" idStr err).Error], s) ∧
        (api.API.Product a s r).1.status = 400 ∧
        (api.API.Booking a s r).1.status = 400 ∧
        (api.API.ConfirmBooking a s r).1.status = 400) ∧
    (∀ (r : api.Request api.BookingRequest) (members : List (api.BookingField × json.Value)),
      (∃ m ∈ members, (m.1 = .productId ∨ m.1 = .availabilityId) ∧
        json.isIntegerString m.2 = false) →
      r.body = api.BookingRequest.UnmarshalHTTP (.object members) →
      ∃ err, api.BookingRequest.UnmarshalHTTP (.object members) = .error err ∧
        api.API.CreateBooking a s r = (api.writeError "failed to decode booking request" 400
          [err.Error], s) ∧
        (api.API.CreateBooking a s r).1.status = 400) ∧
    (∀ (r : api.Request api.AvailabilityRequest)
      (members : List (api.AvailabilityField × json.Value)),
      (∃ m ∈ members, (m.1 = .productId ∧ json.isIntegerString m.2 = false) ∨
        (m.1 ≠ .productId ∧ json.isDateString m.2 = false)) →
      r.body = api.AvailabilityRequest.UnmarshalHTTP (.object members) →
      ∃ err, api.AvailabilityRequest.UnmarshalHTTP (.object members) = .error err ∧
        api.API.Availability a s r = (api.writeError "failed to decode availability request"
          400 [err.Error], s) ∧
        (api.API.Availability a s r).1.status = 400) := by
  refine ⟨?_, ?_, ?_⟩
  · intro r idStr hbad hid
    obtain ⟨err, herr⟩ := atoi_error idStr hbad
    have hid' : r.id = .error (strconv.NumError "Atoi" idStr err) := by
      rw [hid]
      simp only [api.IDPathValue.UnmarshalHTTP, herr]
    have hcap : api.CapabilityRequest.UnmarshalHTTP r
        = (none, (api.CapabilityRequest.UnmarshalHTTP r).2) := by
      simp only [api.CapabilityRequest.UnmarshalHTTP, api.CapabilityRequest.UnmarshalText]
      split_ifs <;> rfl
    have hP : api.API.Product a s r = (api.writeError "invalid product ID" 400
        [(strconv.NumError "Atoi" idStr err).Error], s) := by
      unfold api.API.Product
      rw [hcap]
      simp only [hid']
      rfl
    have hB : api.API.Booking a s r = (api.writeError "invalid booking ID" 400
        [(strconv.NumError "Atoi" idStr err).Error], s) := by
      unfold api.API.Booking
      rw [hcap]
      simp only [hid']
      rfl
    have hC : api.API.ConfirmBooking a s r = (api.writeError "invalid booking ID" 400
        [(strconv.NumError "Atoi" idStr err).Error], s) := by
      unfold api.API.ConfirmBooking
      rw [hcap]
      simp only [hid']
      rfl
    exact ⟨err, hid', hP, hB, hC, by rw [hP]; rfl, by rw [hB]; rfl, by rw [hC]; rfl⟩
  · intro r members hbad hbody
    obtain ⟨m, hm, hfield, hval⟩ := hbad
    obtain ⟨err, herr⟩ := decode_error api.BookingRequest.field
      { ProductID := 0, AvailabilityID := 0, Units := 0 } members
      (objectLoop_error _ members _ m hm (by
        intro d1
        obtain ⟨e, he⟩ := intString_error m.2 hval
        rcases hfield with hf | hf
        · exact ⟨e, by simp only [api.BookingRequest.field, hf, he]⟩
        · exact ⟨e, by simp only [api.BookingRequest.field, hf, he]⟩))
    have herr' : api.BookingRequest.UnmarshalHTTP (.object members) = .error err := herr
    have hcap : api.CapabilityRequest.UnmarshalHTTP r
        = (none, (api.CapabilityRequest.UnmarshalHTTP r).2) := by
      simp only [api.CapabilityRequest.UnmarshalHTTP, api.CapabilityRequest.UnmarshalText]
      split_ifs <;> rfl
    have hH : api.API.CreateBooking a s r
        = (api.writeError "failed to decode booking request" 400 [err.Error], s) := by
      unfold api.API.CreateBooking
      rw [hcap]
      simp only [hbody, herr']
      rfl
    exact ⟨err, herr', hH, by rw [hH]; rfl⟩
  · intro r members hbad hbody
    obtain ⟨m, hm, hcase⟩ := hbad
    obtain ⟨err, herr⟩ := decode_error api.AvailabilityRequest.field
      { ProductID := 0, LocalDate := 0, LocalDateStart := 0, LocalDateEnd := 0 } members
      (objectLoop_error _ members _ m hm (by
        intro d1
        rcases hcase with ⟨hf, hval⟩ | ⟨hf, hval⟩
        · obtain ⟨e, he⟩ := intString_error m.2 hval
          exact ⟨e, by simp only [api.AvailabilityRequest.field, hf, he]⟩
        · obtain ⟨e, he⟩ := date_error m.2 hval
          cases hm1 : m.1 with
          | productId => exact absurd hm1 hf
          | localDate => exact ⟨e, by simp only [api.AvailabilityRequest.field, hm1, he]⟩
          | localDateStart => exact ⟨e, by simp only [api.AvailabilityRequest.field, hm1, he]⟩
          | localDateEnd => exact ⟨e, by simp only [api.AvailabilityRequest.field, hm1, he]⟩))
    have herr' : api.AvailabilityRequest.UnmarshalHTTP (.object members) = .error err := herr
    have hcap : api.CapabilityRequest.UnmarshalHTTP r
        = (none, (api.CapabilityRequest.UnmarshalHTTP r).2) := by
      simp only [api.CapabilityRequest.UnmarshalHTTP, api.CapabilityRequest.UnmarshalText]
      split_ifs <;> rfl
    have hH : api.API.Availability a s r
        = (api.writeError "failed to decode availability request" 400 [err.Error], s) := by
      unfold api.API.Availability
      rw [hcap]
      simp only [hbody, herr']
      rfl
    exact ⟨err, herr', hH, by rw [hH]; rfl⟩

/-- Witness for C23, the test `invalid ID`: `GET /products/abc` against the mock service
is answered with 400 `invalid product ID` and the text of the error of `strconv.Atoi`, and
the mock has recorded no call; a create-booking body whose `productId` is the JSON number
1 is answered with 400, and the mock has recorded no call. -/
theorem bad_encoding_rejected_witness :
    api.API.Product (mockService exampleCanned) [] (pathRequest "abc")
      = (api.writeError "invalid product ID" 400
          ["strconv.Atoi: parsing \"abc\": invalid syntax"], []) ∧
    (∃ err, (pathRequest "abc").id = .error (strconv.NumError "Atoi" "abc" err) ∧
      api.API.ConfirmBooking (mockService exampleCanned) [] (pathRequest "abc")
        = (api.writeError "invalid booking ID" 400
            [(strconv.NumError "Atoi" "abc" err).Error], [])) ∧
    (∃ err : GoError, api.API.CreateBooking (mockService exampleCanned) []
        (bookingBodyRequest (.object [(.productId, .number "1"),
          (.availabilityId, .string "123"), (.units, .number "1")]))
      = (api.writeError "failed to decode booking request" 400 [err.Error], [])) :=
  have h := bad_encoding_rejected (β := Unit) (mockService exampleCanned) []
  ⟨by decide,
    (h.1 (pathRequest "abc") "abc" rfl rfl).elim fun err herr => ⟨err, herr.1, herr.2.2.2.1⟩,
    (h.2.1 (bookingBodyRequest (.object [(.productId, .number "1"),
        (.availabilityId, .string "123"), (.units, .number "1")]))
      [(.productId, .number "1"), (.availabilityId, .string "123"), (.units, .number "1")]
      ⟨(.productId, .number "1"), by decide, .inl rfl, rfl⟩ rfl).elim
      fun err herr => ⟨err, herr.2.1⟩⟩

/-! ### Missing body fields -/

/-- Whether a JSON value fits a Go `int` does not depend on what the `int` holds. -/
theorem unmarshalInt_error (v : json.Value) (old : Int) :
    (json.UnmarshalInt v old).2 = (json.UnmarshalInt v 0).2 := by
  cases v with
  | number literal =>
    simp only [json.UnmarshalInt]
    cases strconv.ParseInt literal.data <;> rfl
  | null => rfl
  | bool b => rfl
  | string s => rfl
  | array => rfl
  | object => rfl

/-- The decoder succeeds on an object all of whose members are accepted, saves no error,
and leaves a field without member as it was. -/
theorem booking_objectLoop_ok (members : List (api.BookingField × json.Value))
    (d : json.Decoding api.BookingRequest) (hd : d.savedError = none)
    (hwell : ∀ m ∈ members, api.BookingRequest.accepts m = true) :
    ∃ d1, json.objectLoop api.BookingRequest.field members d = .ok d1 ∧
      d1.savedError = none ∧
      ((∀ m ∈ members, m.1 ≠ .productId) → d1.value.ProductID = d.value.ProductID) ∧
      ((∀ m ∈ members, m.1 ≠ .availabilityId) →
        d1.value.AvailabilityID = d.value.AvailabilityID) ∧
      ((∀ m ∈ members, m.1 ≠ .units) → d1.value.Units = d.value.Units) := by
  induction members generalizing d with
  | nil => exact ⟨d, rfl, hd, fun _ => rfl, fun _ => rfl, fun _ => rfl⟩
  | cons x xs ih =>
    have hx := hwell x (List.mem_cons_self _ _)
    have hxs : ∀ m ∈ xs, api.BookingRequest.accepts m = true := fun m hm =>
      hwell m (List.mem_cons_of_mem _ hm)
    obtain ⟨f, v⟩ := x
    simp only [json.objectLoop]
    cases f with
    | productId =>
      simp only [api.BookingRequest.accepts] at hx
      cases hv : api.IntString.UnmarshalJSON v with
      | error err => rw [hv] at hx; cases hx
      | ok i =>
        simp only [api.BookingRequest.field, hv]
        obtain ⟨d1, h1, h2, h3, h4, h5⟩ := ih { d with value := { d.value with ProductID := i } }
          hd hxs
        refine ⟨d1, h1, h2, ?_, ?_, ?_⟩
        · intro h; exact absurd rfl (h _ (List.mem_cons_self _ _))
        · intro h; exact h4 fun m hm => h m (List.mem_cons_of_mem _ hm)
        · intro h; exact h5 fun m hm => h m (List.mem_cons_of_mem _ hm)
    | availabilityId =>
      simp only [api.BookingRequest.accepts] at hx
      cases hv : api.IntString.UnmarshalJSON v with
      | error err => rw [hv] at hx; cases hx
      | ok i =>
        simp only [api.BookingRequest.field, hv]
        obtain ⟨d1, h1, h2, h3, h4, h5⟩ :=
          ih { d with value := { d.value with AvailabilityID := i } } hd hxs
        refine ⟨d1, h1, h2, ?_, ?_, ?_⟩
        · intro h; exact h3 fun m hm => h m (List.mem_cons_of_mem _ hm)
        · intro h; exact absurd rfl (h _ (List.mem_cons_self _ _))
        · intro h; exact h5 fun m hm => h m (List.mem_cons_of_mem _ hm)
    | units =>
      simp only [api.BookingRequest.accepts] at hx
      have herr : (json.UnmarshalInt v d.value.Units).2 = none := by
        rw [unmarshalInt_error]
        exact Option.isNone_iff_eq_none.1 hx
      rcases hres : json.UnmarshalInt v d.value.Units with ⟨units, e⟩
      rw [hres] at herr
      simp only at herr
      subst herr
      simp only [api.BookingRequest.field, hres]
      obtain ⟨d1, h1, h2, h3, h4, h5⟩ :=
        ih { d with value := { d.value with Units := units } } hd hxs
      refine ⟨d1, h1, h2, ?_, ?_, ?_⟩
      · intro h; exact h3 fun m hm => h m (List.mem_cons_of_mem _ hm)
      · intro h; exact h4 fun m hm => h m (List.mem_cons_of_mem _ hm)
      · intro h; exact absurd rfl (h _ (List.mem_cons_self _ _))

/-- The same for the body of an availability request. -/
theorem availability_objectLoop_ok (members : List (api.AvailabilityField × json.Value))
    (d : json.Decoding api.AvailabilityRequest) (hd : d.savedError = none)
    (hwell : ∀ m ∈ members, api.AvailabilityRequest.accepts m = true) :
    ∃ d1, json.objectLoop api.AvailabilityRequest.field members d = .ok d1 ∧
      d1.savedError = none ∧
      ((∀ m ∈ members, m.1 ≠ .productId) → d1.value.ProductID = d.value.ProductID) ∧
      ((∀ m ∈ members, m.1 ≠ .localDate) → d1.value.LocalDate = d.value.LocalDate) ∧
      ((∀ m ∈ members, m.1 ≠ .localDateStart) →
        d1.value.LocalDateStart = d.value.LocalDateStart) ∧
      ((∀ m ∈ members, m.1 ≠ .localDateEnd) →
        d1.value.LocalDateEnd = d.value.LocalDateEnd) := by
  induction members generalizing d with
  | nil => exact ⟨d, rfl, hd, fun _ => rfl, fun _ => rfl, fun _ => rfl, fun _ => rfl⟩
  | cons x xs ih =>
    have hx := hwell x (List.mem_cons_self _ _)
    have hxs : ∀ m ∈ xs, api.AvailabilityRequest.accepts m = true := fun m hm =>
      hwell m (List.mem_cons_of_mem _ hm)
    obtain ⟨f, v⟩ := x
    simp only [json.objectLoop]
    cases f with
    | productId =>
      simp only [api.AvailabilityRequest.accepts] at hx
      cases hv : api.IntString.UnmarshalJSON v with
      | error err => rw [hv] at hx; cases hx
      | ok i =>
        simp only [api.AvailabilityRequest.field, hv]
        obtain ⟨d1, h1, h2, h3, h4, h5, h6⟩ :=
          ih { d with value := { d.value with ProductID := i } } hd hxs
        refine ⟨d1, h1, h2, ?_, ?_, ?_, ?_⟩
        · intro h; exact absurd rfl (h _ (List.mem_cons_self _ _))
        · intro h; exact h4 fun m hm => h m (List.mem_cons_of_mem _ hm)
        · intro h; exact h5 fun m hm => h m (List.mem_cons_of_mem _ hm)
        · intro h; exact h6 fun m hm => h m (List.mem_cons_of_mem _ hm)
    | localDate =>
      simp only [api.AvailabilityRequest.accepts] at hx
      cases hv : internal.Date.UnmarshalJSON v with
      | error err => rw [hv] at hx; cases hx
      | ok i =>
        simp only [api.AvailabilityRequest.field, hv]
        obtain ⟨d1, h1, h2, h3, h4, h5, h6⟩ :=
          ih { d with value := { d.value with LocalDate := i } } hd hxs
        refine ⟨d1, h1, h2, ?_, ?_, ?_, ?_⟩
        · intro h; exact h3 fun m hm => h m (List.mem_cons_of_mem _ hm)
        · intro h; exact absurd rfl (h _ (List.mem_cons_self _ _))
        · intro h; exact h5 fun m hm => h m (List.mem_cons_of_mem _ hm)
        · intro h; exact h6 fun m hm => h m (List.mem_cons_of_mem _ hm)
    | localDateStart =>
      simp only [api.AvailabilityRequest.accepts] at hx
      cases hv : internal.Date.UnmarshalJSON v with
      | error err => rw [hv] at hx; cases hx
      | ok i =>
        simp only [api.AvailabilityRequest.field, hv]
        obtain ⟨d1, h1, h2, h3, h4, h5, h6⟩ :=
          ih { d with value := { d.value with LocalDateStart := i } } hd hxs
        refine ⟨d1, h1, h2, ?_, ?_, ?_, ?_⟩
        · intro h; exact h3 fun m hm => h m (List.mem_cons_of_mem _ hm)
        · intro h; exact h4 fun m hm => h m (List.mem_cons_of_mem _ hm)
        · intro h; exact absurd rfl (h _ (List.mem_cons_self _ _))
        · intro h; exact h6 fun m hm => h m (List.mem_cons_of_mem _ hm)
    | localDateEnd =>
      simp only [api.AvailabilityRequest.accepts] at hx
      cases hv : internal.Date.UnmarshalJSON v with
      | error err => rw [hv] at hx; cases hx
      | ok i =>
        simp only [api.AvailabilityRequest.field, hv]
        obtain ⟨d1, h1, h2, h3, h4, h5, h6⟩ :=
          ih { d with value := { d.value with LocalDateEnd := i } } hd hxs
        refine ⟨d1, h1, h2, ?_, ?_, ?_, ?_⟩
        · intro h; exact h3 fun m hm => h m (List.mem_cons_of_mem _ hm)
        · intro h; exact h4 fun m hm => h m (List.mem_cons_of_mem _ hm)
        · intro h; exact h5 fun m hm => h m (List.mem_cons_of_mem _ hm)
        · intro h; exact absurd rfl (h _ (List.mem_cons_self _ _))

/-- The capability of a request is always decoded. -/
theorem capability_unmarshalHTTP_ok {β : Type} (r : api.Request β) :
    api.CapabilityRequest.UnmarshalHTTP r = (none, (api.CapabilityRequest.UnmarshalHTTP r).2) := by
  simp only [api.CapabilityRequest.UnmarshalHTTP, api.CapabilityRequest.UnmarshalText]
  split_ifs <;> rfl

/-- Claim C24, as amended: a missing body field is not rejected. For every create-booking
or availability request whose body is a JSON object with well-encoded members, decoding
succeeds, and a field for which the object has no member is left at its zero value
(product id 0, availability id 0, units 0, the zero date); the handler then calls the
service with the decoded request: `CreateBooking` is the first call recorded by the mock
service, and the availability handler records exactly the single-date call, or the range
call when the date is the zero date, as it is when `localDate` is missing. -/
theorem missing_fields_zero (c : Canned) (calls : List Call) :
    (∀ (r : api.Request api.BookingRequest) (members : List (api.BookingField × json.Value)),
      (∀ m ∈ members, api.BookingRequest.accepts m = true) →
      r.body = api.BookingRequest.UnmarshalHTTP (.object members) →
      ∃ req, r.body = .ok req ∧
        ((∀ m ∈ members, m.1 ≠ .productId) → req.ProductID = 0) ∧
        ((∀ m ∈ members, m.1 ≠ .availabilityId) → req.AvailabilityID = 0) ∧
        ((∀ m ∈ members, m.1 ≠ .units) → req.Units = 0) ∧
        ∃ rest, (api.API.CreateBooking (mockService c) calls r).2
          = calls ++ .CreateBooking
              { ProductID := req.ProductID, AvailabilityID := req.AvailabilityID,
                Units := req.Units, UserID := (api.ContextUser r).1.ID } :: rest) ∧
    (∀ (r : api.Request api.AvailabilityRequest)
      (members : List (api.AvailabilityField × json.Value)),
      (∀ m ∈ members, api.AvailabilityRequest.accepts m = true) →
      r.body = api.AvailabilityRequest.UnmarshalHTTP (.object members) →
      ∃ req, r.body = .ok req ∧
        ((∀ m ∈ members, m.1 ≠ .productId) → req.ProductID = 0) ∧
        ((∀ m ∈ members, m.1 ≠ .localDate) → req.LocalDate = 0) ∧
        ((∀ m ∈ members, m.1 ≠ .localDateStart) → req.LocalDateStart = 0) ∧
        ((∀ m ∈ members, m.1 ≠ .localDateEnd) → req.LocalDateEnd = 0) ∧
        (api.API.Availability (mockService c) calls r).2
          = calls ++ [if req.LocalDate = 0 then
              Call.Availabilities req.ProductID req.LocalDateStart req.LocalDateEnd
                (api.CapabilityRequest.UnmarshalHTTP r).2
            else Call.Availability req.ProductID req.LocalDate
                (api.CapabilityRequest.UnmarshalHTTP r).2]) := by
  refine ⟨?_, ?_⟩
  · intro r members hwell hbody
    obtain ⟨d1, h1, h2, h3, h4, h5⟩ := booking_objectLoop_ok members
      { value := { ProductID := 0, AvailabilityID := 0, Units := 0 }, savedError := none }
      rfl hwell
    have hok : r.body = .ok d1.value := by
      rw [hbody]
      simp only [api.BookingRequest.UnmarshalHTTP, json.Decode, h1, h2]
    refine ⟨d1.value, hok, h3, h4, h5, ?_⟩
    unfold api.API.CreateBooking
    rw [capability_unmarshalHTTP_ok]
    simp only [hok, mockService]
    rcases c.createBooking with ⟨id, e⟩
    cases e with
    | some err =>
      simp only
      split_ifs <;> exact ⟨[], rfl⟩
    | none =>
      simp only [api.API.booking]
      cases c.booking with
      | error err =>
        simp only
        split_ifs <;> exact ⟨_, by simp only [List.append_assoc, List.singleton_append]; rfl⟩
      | ok b => exact ⟨_, by simp only [List.append_assoc, List.singleton_append]; rfl⟩
  · intro r members hwell hbody
    obtain ⟨d1, h1, h2, h3, h4, h5, h6⟩ := availability_objectLoop_ok members
      { value := { ProductID := 0, LocalDate := 0, LocalDateStart := 0, LocalDateEnd := 0 },
        savedError := none } rfl hwell
    have hok : r.body = .ok d1.value := by
      rw [hbody]
      simp only [api.AvailabilityRequest.UnmarshalHTTP, json.Decode, h1, h2]
    refine ⟨d1.value, hok, h3, h4, h5, h6, ?_⟩
    unfold api.API.Availability
    rw [capability_unmarshalHTTP_ok]
    simp only [hok, time.Time.IsZero]
    by_cases hz : d1.value.LocalDate = 0
    · simp only [hz, decide_True, Bool.not_true, if_true, mockService]
      cases c.availabilities <;> rfl
    · simp only [hz, decide_False, Bool.not_false, if_true, if_false, mockService,
        api.API.singleAvailability]
      cases c.availability with
      | error err =>
        simp only
        split_ifs <;> rfl
      | ok av => rfl

/-- Witness for C24 as amended: a create-booking body without `units` is decoded with 0
units, and the mock service is called with it; an availability body that is the empty
object is decoded with product id 0 and the zero dates, and the mock service is called
for the range. -/
theorem missing_fields_zero_witness :
    (∃ req, (bookingBodyRequest (.object [(.productId, .string "1"),
        (.availabilityId, .string "123")])).body = .ok req ∧ req.Units = 0 ∧
      ∃ rest, (api.API.CreateBooking (mockService exampleCanned) []
          (bookingBodyRequest (.object [(.productId, .string "1"),
            (.availabilityId, .string "123")]))).2
        = [] ++ .CreateBooking
            { ProductID := req.ProductID, AvailabilityID := req.AvailabilityID,
              Units := req.Units, UserID := 456 } :: rest) ∧
    (api.API.Availability (mockService exampleCanned) []
        (availabilityBodyRequest (.object []))).2
      = [.Availabilities 0 0 0 internal.CapabilityRequestNone] :=
  have h := missing_fields_zero exampleCanned []
  ⟨(h.1 (bookingBodyRequest (.object [(.productId, .string "1"),
        (.availabilityId, .string "123")]))
      [(.productId, .string "1"), (.availabilityId, .string "123")] (by decide) rfl).elim
      fun req hreq => ⟨req, hreq.1, hreq.2.2.2.1 (by decide), hreq.2.2.2.2⟩,
    by decide⟩

/-- Counterexample to C24 as stated: a create-booking request whose body has `productId`
and `availabilityId` but no `units` is decoded with 0 units; the handler calls
`CreateBooking` of the mock service with 0 units and then `Booking`, and answers 200, not
a client error. An availability request whose body has only `localDate` is decoded with
product id 0, and the handler calls `Availability` with it and answers 200. -/
theorem missing_fields_zero_counterexample :
    api.BookingRequest.UnmarshalHTTP
        (.object [(.productId, .string "1"), (.availabilityId, .string "123")])
      = .ok { ProductID := 1, AvailabilityID := 123, Units := 0 } ∧
    (api.API.CreateBooking (mockService exampleCanned) []
        (bookingBodyRequest (.object [(.productId, .string "1"),
          (.availabilityId, .string "123")]))).2
      = [.CreateBooking { ProductID := 1, AvailabilityID := 123, Units := 0, UserID := 456 },
         .Booking 123 456 internal.CapabilityRequestNone] ∧
    (api.API.CreateBooking (mockService exampleCanned) []
        (bookingBodyRequest (.object [(.productId, .string "1"),
          (.availabilityId, .string "123")]))).1.status = 200 ∧
    (api.API.Availability (mockService exampleCanned) []
        (availabilityBodyRequest (.object [(.localDate, .string "2024-02-29")]))).2
      = [.Availability 0 (time.Date 2024 2 29) internal.CapabilityRequestNone] ∧
    (api.API.Availability (mockService exampleCanned) []
        (availabilityBodyRequest (.object [(.localDate, .string "2024-02-29")]))).1.status
      = 200 :=
  ⟨rfl, by decide, by decide, by decide, by decide⟩

/-! ### Dates as JSON strings -/

/-- The arithmetic of the cycles of 400, 100, 4 and 1 years: the day of the year lies in
the year, and the days before the year and the day of the year add up to the day. -/
theorem yearDay_core (days a d1 c d2 e d3 f : Int)
    (ha : a = days / 146097) (hd1 : d1 = days % 146097) (hc : c = d1 / 36524)
    (hd2 : d2 = d1 - 36524 * (c - c / 4)) (he : e = d2 / 1461) (hd3 : d3 = d2 - 1461 * e)
    (hf : f = d3 / 365) :
    0 ≤ d3 - 365 * (f - f / 4) ∧
    (d3 - 365 * (f - f / 4) ≤ 364 ∨
      (d3 - 365 * (f - f / 4) = 365 ∧
        (400 * a + 100 * (c - c / 4) + 4 * e + (f - f / 4) + 1) % 4 = 0 ∧
        ((400 * a + 100 * (c - c / 4) + 4 * e + (f - f / 4) + 1) % 100 ≠ 0 ∨
          (400 * a + 100 * (c - c / 4) + 4 * e + (f - f / 4) + 1) % 400 = 0))) ∧
    365 * (400 * a + 100 * (c - c / 4) + 4 * e + (f - f / 4) + 1 - 1)
        + (400 * a + 100 * (c - c / 4) + 4 * e + (f - f / 4) + 1 - 1) / 4
        - (400 * a + 100 * (c - c / 4) + 4 * e + (f - f / 4) + 1 - 1) / 100
        + (400 * a + 100 * (c - c / 4) + 4 * e + (f - f / 4) + 1 - 1) / 400
        + (d3 - 365 * (f - f / 4)) = days := by
  have hc' : c = 0 ∨ c = 1 ∨ c = 2 ∨ c = 3 ∨ c = 4 := by omega
  have hf' : f = 0 ∨ f = 1 ∨ f = 2 ∨ f = 3 ∨ f = 4 := by omega
  rcases hc' with h | h | h | h | h <;> rcases hf' with h' | h' | h' | h' | h' <;>
    subst h <;> subst h' <;> refine ⟨?_, ?_, ?_⟩ <;> omega

/-- The year and the day of the year of a day: the day of the year lies in the year, and
the days before the year and the day of the year add up to the day. -/
theorem yearDay_spec (days : Int) :
    (time.yearDay days).2 < 365 + (if time.isLeap (time.yearDay days).1 = true then 1 else 0) ∧
    time.daysSinceEpoch (time.yearDay days).1 + ((time.yearDay days).2 : Int) = days := by
  obtain ⟨h0, h1, h2⟩ := yearDay_core days _ _ _ _ _ _ _ rfl rfl rfl rfl rfl rfl rfl
  have hnat : (((time.yearDay days).2 : Nat) : Int)
      = (days % 146097 - 36524 * (days % 146097 / 36524 - days % 146097 / 36524 / 4)
          - 1461 * ((days % 146097
            - 36524 * (days % 146097 / 36524 - days % 146097 / 36524 / 4)) / 1461))
        - 365 * (((days % 146097
            - 36524 * (days % 146097 / 36524 - days % 146097 / 36524 / 4)
            - 1461 * ((days % 146097
              - 36524 * (days % 146097 / 36524 - days % 146097 / 36524 / 4)) / 1461)) / 365)
          - ((days % 146097
            - 36524 * (days % 146097 / 36524 - days % 146097 / 36524 / 4)
            - 1461 * ((days % 146097
              - 36524 * (days % 146097 / 36524 - days % 146097 / 36524 / 4)) / 1461)) / 365)
            / 4) := by
    simp only [time.yearDay]
    exact Int.toNat_of_nonneg h0
  constructor
  · have hlt : (((time.yearDay days).2 : Nat) : Int)
        < 365 + (if time.isLeap (time.yearDay days).1 = true then 1 else 0) := by
      rw [hnat]
      rcases h1 with h1 | ⟨h1, h4, h100⟩
      · split_ifs <;> omega
      · have hleap : time.isLeap (time.yearDay days).1 = true := by
          simp only [time.isLeap, time.yearDay, Bool.and_eq_true, Bool.or_eq_true,
            decide_eq_true_eq]
          exact ⟨h4, h100⟩
        rw [if_pos hleap]
        omega
    split_ifs at hlt ⊢ <;> omega
  · rw [hnat]
    simpa only [time.daysSinceEpoch, time.yearDay] using h2

set_option maxRecDepth 100000 in
/-- The month and the day of the month of a day of the year: a month of the year, a day
of that month, and the days before the month and the day add up to the day of the year.
The days of a year are few enough to be checked one by one. -/
theorem monthDay_spec : ∀ yday, yday < 366 → ∀ leap : Bool,
    yday < 365 + (if leap = true then 1 else 0) →
    (1 ≤ (time.monthDay leap yday).1 ∧ (time.monthDay leap yday).1 ≤ 12 ∧
    1 ≤ (time.monthDay leap yday).2 ∧ (time.monthDay leap yday).2 ≤ 31 ∧
    (time.monthDay leap yday).2
      ≤ (if (time.monthDay leap yday).1 = 2 ∧ leap = true then 29
        else time.daysBefore.getD (time.monthDay leap yday).1 0
          - time.daysBefore.getD ((time.monthDay leap yday).1 - 1) 0) ∧
    time.daysBefore.getD ((time.monthDay leap yday).1 - 1) 0
        + (if leap = true ∧ 3 ≤ (time.monthDay leap yday).1 then 1 else 0)
        + ((time.monthDay leap yday).2 - 1) = yday) := by
  decide

/-- Zeros in front of digits do not change the number written. -/
theorem digitsValue_zeros (k : Nat) (ds : List Char) :
    time.digitsValue (List.replicate k '0' ++ ds) = time.digitsValue ds := by
  have hz : ∀ k : Nat, List.foldl (fun n (c : Char) => 10 * n + (c.toNat - 48)) 0
      (List.replicate k '0') = 0 := by
    intro k
    induction k with
    | zero => rfl
    | succ k ih =>
      rw [List.replicate_succ, List.foldl_cons]
      exact ih
  simp only [time.digitsValue, List.foldl_append, hz]

/-- The function `appendInt` on a number that has at most `width` digits: exactly `width`
decimal digits that write the number. -/
theorem appendInt_nat (n width : Nat) (hw : 0 < width) (h : n < 10 ^ width) :
    (time.appendInt (n : Int) width).length = width ∧
    (time.appendInt (n : Int) width).all strconv.isDigit = true ∧
    time.digitsValue (time.appendInt (n : Int) width) = n := by
  obtain ⟨_, hall, hval⟩ := toDigits_spec n
  have hlen : (Nat.toDigits 10 n).length ≤ width :=
    Nat.toDigitsCore_length 10 (by decide) (n + 1) n width h hw
  have hneg : ¬ ((n : Int) < 0) := by omega
  simp only [time.appendInt, if_neg hneg, List.nil_append, Int.natAbs_ofNat]
  refine ⟨?_, ?_, ?_⟩
  · simp only [List.length_append, List.length_replicate]
    omega
  · simp only [List.all_append, hall, Bool.and_true]
    simp [List.all_eq_true, List.mem_replicate]
    exact Or.inr (by decide)
  · rw [digitsValue_zeros, hval]

/-- A list of four elements, by its elements. -/
theorem list_of_length_four {α : Type} (l : List α) (h : l.length = 4) :
    ∃ a b c d, l = [a, b, c, d] := by
  match l, h with
  | [a, b, c, d], _ => exact ⟨a, b, c, d, rfl⟩

/-- A list of two elements, by its elements. -/
theorem list_of_length_two {α : Type} (l : List α) (h : l.length = 2) :
    ∃ a b, l = [a, b] := by
  match l, h with
  | [a, b], _ => exact ⟨a, b, rfl⟩

/-- The function `time.Parse` reads back a date written as `YYYY-MM-DD`, for a year from
0 to 9999 and a day that exists. -/
theorem parse_appendInt (year month day : Nat) (hy : year ≤ 9999)
    (hm : 1 ≤ month ∧ month ≤ 12) (hd : 1 ≤ day ∧ day ≤ time.daysIn month (year : Int))
    (hd31 : day ≤ 31) :
    time.Parse (String.mk (time.appendInt (year : Int) 4 ++ ['-']
        ++ time.appendInt (month : Int) 2 ++ ['-'] ++ time.appendInt (day : Int) 2))
      = .ok (time.Date (year : Int) month day) ∧
    time.isDateFormat (String.mk (time.appendInt (year : Int) 4 ++ ['-']
        ++ time.appendInt (month : Int) 2 ++ ['-'] ++ time.appendInt (day : Int) 2)) = true ∧
    (String.mk (time.appendInt (year : Int) 4 ++ ['-']
        ++ time.appendInt (month : Int) 2 ++ ['-'] ++ time.appendInt (day : Int) 2)).length
      = 10 := by
  obtain ⟨hyl, hya, hyv⟩ := appendInt_nat year 4 (by decide) (by omega)
  obtain ⟨hml, hma, hmv⟩ := appendInt_nat month 2 (by decide) (by omega)
  obtain ⟨hdl, hda, hdv⟩ := appendInt_nat day 2 (by decide) (by omega)
  obtain ⟨y1, y2, y3, y4, hys⟩ := list_of_length_four _ hyl
  obtain ⟨m1, m2, hms⟩ := list_of_length_two _ hml
  obtain ⟨d1, d2, hds⟩ := list_of_length_two _ hdl
  rw [hys] at hya hyv
  rw [hms] at hma hmv
  rw [hds] at hda hdv
  rw [hys, hms, hds]
  simp only [List.all_cons, List.all_nil, Bool.and_true, Bool.and_eq_true] at hya hma hda
  have hall : [y1, y2, y3, y4, m1, m2, d1, d2].all strconv.isDigit = true := by
    simp only [List.all_cons, List.all_nil, Bool.and_true, Bool.and_eq_true]
    exact ⟨hya.1, hya.2.1, hya.2.2.1, hya.2.2.2, hma.1, hma.2, hda.1, hda.2⟩
  have hm' : ¬ (month < 1 ∨ 12 < month) := by omega
  have hd' : ¬ (day < 1 ∨ time.daysIn month (year : Int) < day) := by omega
  refine ⟨?_, ?_, rfl⟩
  · simp only [time.Parse, List.cons_append, List.nil_append, hall, decide_True, Bool.and_self,
      if_true, hyv, hmv, hdv, if_neg hm', if_neg hd']
  · simp only [time.isDateFormat, List.cons_append, List.nil_append, hall, decide_True,
      Bool.and_self]

/-- The calendar date of an instant is a date that exists, and midnight UTC of it is the
start of the day of the instant. -/
theorem date_of_instant (days : Int) :
    1 ≤ (time.monthDay (time.isLeap (time.yearDay days).1) (time.yearDay days).2).1 ∧
    (time.monthDay (time.isLeap (time.yearDay days).1) (time.yearDay days).2).1 ≤ 12 ∧
    1 ≤ (time.monthDay (time.isLeap (time.yearDay days).1) (time.yearDay days).2).2 ∧
    (time.monthDay (time.isLeap (time.yearDay days).1) (time.yearDay days).2).2 ≤ 31 ∧
    (time.monthDay (time.isLeap (time.yearDay days).1) (time.yearDay days).2).2
      ≤ time.daysIn (time.monthDay (time.isLeap (time.yearDay days).1) (time.yearDay days).2).1
          (time.yearDay days).1 ∧
    time.Date (time.yearDay days).1
        (time.monthDay (time.isLeap (time.yearDay days).1) (time.yearDay days).2).1
        (time.monthDay (time.isLeap (time.yearDay days).1) (time.yearDay days).2).2
      = days * time.nanosecondsPerDay := by
  obtain ⟨hlt, hsum⟩ := yearDay_spec days
  have h366 : (time.yearDay days).2 < 366 := by
    split_ifs at hlt <;> omega
  obtain ⟨h1, h2, h3, h4, h5, h6⟩ := monthDay_spec (time.yearDay days).2 h366
    (time.isLeap (time.yearDay days).1) hlt
  refine ⟨h1, h2, h3, h4, h5, ?_⟩
  simp only [time.Date]
  congr 1
  by_cases hc : time.isLeap (time.yearDay days).1 = true ∧
      3 ≤ (time.monthDay (time.isLeap (time.yearDay days).1) (time.yearDay days).2).1
  · rw [if_pos hc] at h6 ⊢
    omega
  · rw [if_neg hc] at h6 ⊢
    omega

/-- Claim C26: for every `Date`, in whatever location, whose year is between 0 and 9999,
`MarshalJSON` produces the JSON string of its calendar date as `YYYY-MM-DD`: exactly 10
characters, four digits writing the year, two the month and two the day, each filled up
with zeros, and nothing of the time of day; `UnmarshalJSON` of that output succeeds and
yields midnight UTC of the same calendar date, so that for a `Date` at midnight UTC the
round trip is the identity; and `UnmarshalJSON` fails on every string that is not of the
form `YYYY-MM-DD`, the empty string included. -/
theorem date_roundtrip (offset : Int) (d : internal.Date)
    (hlo : 0 ≤ (time.Time.Date offset d).1) (hhi : (time.Time.Date offset d).1 ≤ 9999) :
    internal.Date.MarshalJSON offset d = .ok (.string (time.Time.Format offset d)) ∧
    (time.Time.Format offset d).data
      = time.appendInt (time.Time.Date offset d).1 4 ++ ['-']
        ++ time.appendInt (time.Time.Date offset d).2.1 2 ++ ['-']
        ++ time.appendInt (time.Time.Date offset d).2.2 2 ∧
    ((time.appendInt (time.Time.Date offset d).1 4).length = 4 ∧
      ((time.digitsValue (time.appendInt (time.Time.Date offset d).1 4) : Nat) : Int)
        = (time.Time.Date offset d).1 ∧
      (time.appendInt (time.Time.Date offset d).2.1 2).length = 2 ∧
      time.digitsValue (time.appendInt (time.Time.Date offset d).2.1 2)
        = (time.Time.Date offset d).2.1 ∧
      (time.appendInt (time.Time.Date offset d).2.2 2).length = 2 ∧
      time.digitsValue (time.appendInt (time.Time.Date offset d).2.2 2)
        = (time.Time.Date offset d).2.2) ∧
    (time.Time.Format offset d).length = 10 ∧
    time.isDateFormat (time.Time.Format offset d) = true ∧
    (∀ v, internal.Date.MarshalJSON offset d = .ok v →
      ∃ parsed, internal.Date.UnmarshalJSON v = .ok parsed ∧
        parsed % time.nanosecondsPerDay = 0 ∧
        time.Time.Date 0 parsed = time.Time.Date offset d ∧
        parsed = (d + offset * 1000000000) / time.nanosecondsPerDay * time.nanosecondsPerDay ∧
        (offset = 0 → d % time.nanosecondsPerDay = 0 → parsed = d)) ∧
    (∀ s, time.isDateFormat s = false →
      internal.Date.UnmarshalJSON (.string s) = .error time.ParseError) ∧
    internal.Date.UnmarshalJSON (.string "") = .error time.ParseError := by
  have hdate : 1 ≤ (time.Time.Date offset d).2.1 ∧ (time.Time.Date offset d).2.1 ≤ 12 ∧
      1 ≤ (time.Time.Date offset d).2.2 ∧ (time.Time.Date offset d).2.2 ≤ 31 ∧
      (time.Time.Date offset d).2.2
        ≤ time.daysIn (time.Time.Date offset d).2.1 (time.Time.Date offset d).1 ∧
      time.Date (time.Time.Date offset d).1 (time.Time.Date offset d).2.1
          (time.Time.Date offset d).2.2
        = (d + offset * 1000000000) / time.nanosecondsPerDay * time.nanosecondsPerDay :=
    date_of_instant ((d + offset * 1000000000) / time.nanosecondsPerDay)
  obtain ⟨h1, h2, h3, h4, h5, h6⟩ := hdate
  have hy : (time.Time.Date offset d).1
      = (((time.Time.Date offset d).1.toNat : Nat) : Int) := (Int.toNat_of_nonneg hlo).symm
  have hyle : (time.Time.Date offset d).1.toNat ≤ 9999 := by omega
  have h5' : (time.Time.Date offset d).2.2
      ≤ time.daysIn (time.Time.Date offset d).2.1
        (((time.Time.Date offset d).1.toNat : Nat) : Int) := by
    rw [← hy]
    exact h5
  obtain ⟨hparse, hformat, hlen⟩ := parse_appendInt (time.Time.Date offset d).1.toNat
    (time.Time.Date offset d).2.1 (time.Time.Date offset d).2.2 hyle ⟨h1, h2⟩ ⟨h3, h5'⟩ h4
  rw [← hy] at hparse hformat hlen
  obtain ⟨hyl, _, hyv⟩ := appendInt_nat (time.Time.Date offset d).1.toNat 4 (by decide)
    (by omega)
  rw [← hy] at hyl hyv
  obtain ⟨hml, _, hmv⟩ := appendInt_nat (time.Time.Date offset d).2.1 2 (by decide) (by omega)
  obtain ⟨hdl, _, hdv⟩ := appendInt_nat (time.Time.Date offset d).2.2 2 (by decide) (by omega)
  have hpos : (0 : Int) < time.nanosecondsPerDay := by decide
  refine ⟨rfl, rfl, ⟨hyl, by rw [hyv]; exact hy.symm, hml, hmv, hdl, hdv⟩, hlen, hformat,
    ?_, ?_, rfl⟩
  · intro v hv
    have hv' : v = .string (time.Time.Format offset d) := by
      simp only [internal.Date.MarshalJSON, json.MarshalString, Except.ok.injEq] at hv
      exact hv.symm
    have hparsed : internal.Date.UnmarshalJSON v
        = .ok ((d + offset * 1000000000) / time.nanosecondsPerDay
            * time.nanosecondsPerDay) := by
      rw [hv']
      simp only [internal.Date.UnmarshalJSON, json.UnmarshalString]
      have hp : time.Parse (time.Time.Format offset d)
          = .ok (time.Date (time.Time.Date offset d).1 (time.Time.Date offset d).2.1
              (time.Time.Date offset d).2.2) := hparse
      rw [hp]
      simp only
      exact congrArg Except.ok h6
    refine ⟨_, hparsed, Int.mul_emod_left _ _, ?_, rfl, ?_⟩
    · simp only [time.Time.Date, zero_mul, add_zero]
      rw [Int.mul_ediv_cancel _ (ne_of_gt hpos)]
    · intro hoff hmid
      subst hoff
      simp only [zero_mul, add_zero]
      have := Int.ediv_add_emod d time.nanosecondsPerDay
      rw [hmid, add_zero, mul_comm] at this
      exact this
  · intro s hs
    simp only [internal.Date.UnmarshalJSON, json.UnmarshalString, parse_error s hs]

/-- Witness for C26: midnight UTC of February 29, 2024 is written as the JSON string
`2024-02-29` and read back as the same instant. -/
theorem date_roundtrip_witness :
    internal.Date.MarshalJSON 0 (time.Date 2024 2 29) = .ok (.string "2024-02-29") ∧
    internal.Date.UnmarshalJSON (.string "2024-02-29") = .ok (time.Date 2024 2 29) ∧
    (∃ parsed, internal.Date.UnmarshalJSON (.string "2024-02-29") = .ok parsed ∧
      parsed % time.nanosecondsPerDay = 0 ∧
      time.Time.Date 0 parsed = time.Time.Date 0 (time.Date 2024 2 29) ∧
      parsed = (time.Date 2024 2 29 + 0 * 1000000000) / time.nanosecondsPerDay
        * time.nanosecondsPerDay ∧
      ((0 : Int) = 0 → time.Date 2024 2 29 % time.nanosecondsPerDay = 0 →
        parsed = time.Date 2024 2 29)) ∧
    internal.Date.UnmarshalJSON (.string "2024-2-29") = .error time.ParseError :=
  have h := date_roundtrip 0 (time.Date 2024 2 29) (by decide) (by decide)
  ⟨congrArg (fun s => Except.ok (json.Value.string s))
      (by decide : time.Time.Format 0 (time.Date 2024 2 29) = "2024-02-29"),
    rfl, h.2.2.2.2.2.1 _ rfl, h.2.2.2.2.2.2.1 "2024-2-29" rfl⟩

/-! ### Contention -/

/-- Conservation along a run of calls against one availability: the vacancies after the
calls are the vacancies before minus the units of the calls that succeeded, as the store
received them, and they are not negative when they were not before. -/
theorem runBookings_vacancies (db : Db) (aid v : Int)
    (calls : List (Option GoError × internal.CreateBookingRequest))
    (hkey : (db.availabilities.map fun a => a.ID).Nodup)
    (hv : vacanciesOf db aid = some v)
    (hcalls : ∀ c ∈ calls, int32 c.2.AvailabilityID = aid) :
    vacanciesOf (runBookings db calls).2 aid
        = some (v - storedUnits (succeeded calls (runBookings db calls).1)) ∧
    (0 ≤ v → 0 ≤ v - storedUnits (succeeded calls (runBookings db calls).1)) := by
  induction calls generalizing db v with
  | nil => simp [runBookings, succeeded, storedUnits, hv]
  | cons c rest ih =>
    obtain ⟨fault, req⟩ := c
    have htarget : int32 req.AvailabilityID = aid := hcalls (fault, req) (List.mem_cons_self _ _)
    have hrest : ∀ c ∈ rest, int32 c.2.AvailabilityID = aid :=
      fun c hc => hcalls c (List.mem_cons_of_mem _ hc)
    obtain ⟨hst, hiff⟩ := service_createBooking_state fault db req
    obtain ⟨hids, hstep⟩ := createBooking_step fault db
      { ProductID := req.ProductID, AvailabilityID := req.AvailabilityID,
        Units := req.Units, UserID := req.UserID } aid v hkey hv htarget
    simp only [runBookings]
    rw [hst]
    generalize hr : (service.Service.CreateBooking (Postgres.CreateBooking fault) db req).1 = r
      at hiff
    obtain ⟨rid, re⟩ := r
    rcases hstep with ⟨hok, hle, hvac⟩ | ⟨hfail, hsame⟩
    · have hre : re = none := hiff.2 hok
      subst hre
      have hle' : int32 req.Units ≤ v := hle
      obtain ⟨ih1, ih2⟩ := ih _ (v - int32 req.Units) (hids ▸ hkey) hvac hrest
      simp only [succeeded, storedUnits, List.map_cons, List.sum_cons] at ih1 ih2 ⊢
      refine ⟨by rw [ih1]; congr 1; ring, fun h0 => ?_⟩
      have := ih2 (by omega)
      omega
    · rw [hsame]
      obtain ⟨ih1, ih2⟩ := ih db v hkey hv hrest
      cases re with
      | none => exact absurd (hiff.1 rfl) hfail
      | some err => exact ⟨ih1, ih2⟩

/-- The requests that succeeded are requests of the calls. -/
theorem succeeded_sub (calls : List (Option GoError × internal.CreateBookingRequest))
    (results : List (Int × Option GoError)) :
    ∀ r ∈ succeeded calls results, ∃ c ∈ calls, c.2 = r := by
  induction calls generalizing results with
  | nil => intro r hr; simp [succeeded] at hr
  | cons c rest ih =>
    intro r hr
    obtain ⟨fault, req⟩ := c
    cases results with
    | nil => simp [succeeded] at hr
    | cons res results =>
      obtain ⟨rid, re⟩ := res
      cases re with
      | none =>
        simp only [succeeded, List.mem_cons] at hr
        rcases hr with rfl | hr
        · exact ⟨(fault, r), List.mem_cons_self _ _, rfl⟩
        · obtain ⟨c, hc, hcr⟩ := ih results r hr
          exact ⟨c, List.mem_cons_of_mem _ hc, hcr⟩
      | some err =>
        simp only [succeeded] at hr
        obtain ⟨c, hc, hcr⟩ := ih results r hr
        exact ⟨c, List.mem_cons_of_mem _ hc, hcr⟩

/-- Claim C3, as amended: each `createBooking` call is one atomic statement, so N
concurrent calls against one availability (its id a primary key) with `v` vacancies,
`v` not negative, take effect one after the other in some order. For every order of the
calls, the units of the calls that succeed, each taken as the store receives it,
`int32(units)`, sum to at most `v`, and the vacancies left are `v` minus that sum; when
the units of every call lie in the signed 32-bit range the units asked for sum to at most
`v`; and two calls whose units, as the store receives them, together exceed `v` never
both succeed, whichever comes first. -/
theorem createBooking_contention (db : Db) (aid v : Int)
    (calls order : List (Option GoError × internal.CreateBookingRequest))
    (hkey : (db.availabilities.map fun a => a.ID).Nodup)
    (hv : vacanciesOf db aid = some v) (hv0 : 0 ≤ v)
    (hcalls : ∀ c ∈ calls, int32 c.2.AvailabilityID = aid)
    (horder : order.Perm calls) :
    storedUnits (succeeded order (runBookings db order).1) ≤ v ∧
    vacanciesOf (runBookings db order).2 aid
      = some (v - storedUnits (succeeded order (runBookings db order).1)) ∧
    ((∀ c ∈ calls, int32 c.2.Units = c.2.Units) →
      requestedUnits (succeeded order (runBookings db order).1) ≤ v) ∧
    (∀ c1 c2, c1 ∈ calls → c2 ∈ calls → v < int32 c1.2.Units + int32 c2.2.Units →
      ∀ r1 r2, (runBookings db [c1, c2]).1 = [r1, r2] → ¬ (r1.2 = none ∧ r2.2 = none)) := by
  have horder' : ∀ c ∈ order, int32 c.2.AvailabilityID = aid :=
    fun c hc => hcalls c (horder.mem_iff.1 hc)
  obtain ⟨h1, h2⟩ := runBookings_vacancies db aid v order hkey hv horder'
  have hle := h2 hv0
  refine ⟨by omega, h1, ?_, ?_⟩
  · intro hrange
    have heq : requestedUnits (succeeded order (runBookings db order).1)
        = storedUnits (succeeded order (runBookings db order).1) := by
      simp only [requestedUnits, storedUnits]
      congr 1
      apply List.map_congr_left
      intro r hr
      obtain ⟨c, hc, hcr⟩ := succeeded_sub order _ r hr
      rw [← hcr]
      exact (hrange c (horder.mem_iff.1 hc)).symm
    rw [heq]
    omega
  · intro c1 c2 hc1 hc2 hsum r1 r2 hres hboth
    have hpair : ∀ c ∈ [c1, c2], int32 c.2.AvailabilityID = aid := by
      intro c hc
      simp only [List.mem_cons, List.mem_singleton, List.not_mem_nil, or_false] at hc
      rcases hc with rfl | rfl
      · exact hcalls _ hc1
      · exact hcalls _ hc2
    obtain ⟨_, p2⟩ := runBookings_vacancies db aid v [c1, c2] hkey hv hpair
    have hp := p2 hv0
    rw [hres] at hp
    obtain ⟨f1, q1⟩ := c1
    obtain ⟨f2, q2⟩ := c2
    obtain ⟨i1, e1⟩ := r1
    obtain ⟨i2, e2⟩ := r2
    obtain ⟨he1, he2⟩ := hboth
    simp only at he1 he2
    subst he1
    subst he2
    simp only [succeeded, storedUnits, List.map_cons, List.map_nil, List.sum_cons,
      List.sum_nil] at hp
    simp only at hsum
    omega

/-- Witness of C3 as amended: against 5 vacancies the calls for 3, 3 and 2 units, taken in
the order 2, 3, 3, book 2 and 3 units and refuse the last call, 5 units in all; and two
calls for 3 units never both succeed. -/
theorem createBooking_contention_witness :
    (runBookings exampleDb
        [(none, exampleRequest 2), (none, exampleRequest 3), (none, exampleRequest 3)]).1
      = [(1, none), (2, none), (0, some internal.ErrNotAvailable)] ∧
    storedUnits (succeeded
        [(none, exampleRequest 2), (none, exampleRequest 3), (none, exampleRequest 3)]
        (runBookings exampleDb
          [(none, exampleRequest 2), (none, exampleRequest 3), (none, exampleRequest 3)]).1)
      ≤ 5 ∧
    (∀ r1 r2, (runBookings exampleDb [(none, exampleRequest 3), (none, exampleRequest 3)]).1
        = [r1, r2] → ¬ (r1.2 = none ∧ r2.2 = none)) :=
  have h := createBooking_contention exampleDb 7 5
    [(none, exampleRequest 3), (none, exampleRequest 3), (none, exampleRequest 2)]
    [(none, exampleRequest 2), (none, exampleRequest 3), (none, exampleRequest 3)]
    (by decide) (by decide) (by decide) (by decide) (by decide)
  ⟨by decide, h.1,
    h.2.2.2 (none, exampleRequest 3) (none, exampleRequest 3) (by decide) (by decide)
      (by decide)⟩

/-- Counterexample to C3 as stated: against 5 vacancies a single call for 2^32 + 1 units
succeeds, so the units of the calls that succeed sum to more than the vacancies; and the
two calls for 2^32 + 3 units and for 2 units, which together exceed the 5 vacancies, both
succeed, whichever comes first. -/
theorem createBooking_contention_counterexample :
    vacanciesOf exampleDb 7 = some 5 ∧
    (runBookings exampleDb [(none, exampleRequest (4294967296 + 1))]).1 = [(1, none)] ∧
    ¬ (requestedUnits (succeeded [(none, exampleRequest (4294967296 + 1))]
        (runBookings exampleDb [(none, exampleRequest (4294967296 + 1))]).1) ≤ 5) ∧
    (runBookings exampleDb
        [(none, exampleRequest (4294967296 + 3)), (none, exampleRequest 2)]).1
      = [(1, none), (2, none)] ∧
    (runBookings exampleDb
        [(none, exampleRequest 2), (none, exampleRequest (4294967296 + 3))]).1
      = [(1, none), (2, none)] ∧
    (5 : Int) < (exampleRequest (4294967296 + 3)).Units + (exampleRequest 2).Units :=
  ⟨by decide, by decide, by decide, by decide, by decide, by decide⟩

end Octo
